import Mathlib

/-!
# PIC32 DS18B20 driver: CRC engine, 1-Wire transport and device protocol

A shallow embedding of `Edc.c`, `OneWire.c` and `ds18b20.c`.

Conventions of the embedding

* C unsigned integers are natural numbers, reduced modulo `2 ^ w` at the places
  where the C type truncates.
* A shift of a 32-bit operand by a count of 32 or more is undefined in C.  The
  driver targets the PIC32 (MIPS32) core, whose variable shift instruction uses
  the low five bits of the count; `shl32` follows the target.
* A local variable read before it is assigned has an indeterminate value; the
  embedding takes that value as an explicit argument.
* A read outside an array of the module has no defined result: the embedding
  returns `none`.
-/

namespace DS18B20

/-! ## Edc.c -/

/-- Size of one lookup table, `CRC_LUT_SIZE`. -/
def CRC_LUT_SIZE : Nat := 256

/-- Width of one message unit, `CRC_MSG_SIZE`. -/
def CRC_MSG_SIZE : Nat := 8

/-- Modelled from the spec: `CRC_POLY_SIZE_8`, an enumerator of `CrcPolySize_t` in
the absent `Edc.h`; the register width 8. -/
def CRC_POLY_SIZE_8 : Nat := 8

/-- Modelled from the spec: `CRC_POLY_SIZE_16`, an enumerator of `CrcPolySize_t`
in the absent `Edc.h`; the register width 16. -/
def CRC_POLY_SIZE_16 : Nat := 16

/-- Modelled from the spec: `CRC_POLY_SIZE_32`, an enumerator of `CrcPolySize_t`
in the absent `Edc.h`; the register width 32. -/
def CRC_POLY_SIZE_32 : Nat := 32

/-- Nibble reflection table `bitSwapLut`. -/
def bitSwapLut : List Nat :=
  [0x0, 0x8, 0x4, 0xC, 0x2, 0xA, 0x6, 0xE, 0x1, 0x9, 0x5, 0xD, 0x3, 0xB, 0x7, 0xF]

/-- Reflection of one byte as written three times in `Edc.c`:
`(bitSwapLut[n & 0xF] << 4) | bitSwapLut[n >> 4]`, stored in a `uint8_t`. -/
def swapByte (n : Nat) : Nat :=
  (((bitSwapLut.getD (n &&& 0xF) 0) <<< 4) ||| (bitSwapLut.getD (n >>> 4) 0)) % 256

/-- `BitSwap8`: the argument is converted to `uint8_t` on entry. -/
def BitSwap8 (byte : Nat) : Nat :=
  swapByte (byte % 256)

/-- `BitSwap16`: the argument is converted to `uint16_t` on entry. -/
def BitSwap16 (word : Nat) : Nat :=
  let w := word % 65536
  let n1 := (w >>> 0) &&& 0xFF
  let n2 := (w >>> 8) &&& 0xFF
  let res1 := swapByte n1
  let res2 := swapByte n2
  ((res1 <<< 8) ||| (res2 <<< 0)) % 65536

/-- `BitSwap32`: the argument is converted to `uint32_t` on entry. -/
def BitSwap32 (dword : Nat) : Nat :=
  let d := dword % 4294967296
  let n1 := (d >>> 0) &&& 0xFF
  let n2 := (d >>> 8) &&& 0xFF
  let n3 := (d >>> 16) &&& 0xFF
  let n4 := (d >>> 24) &&& 0xFF
  let res1 := swapByte n1
  let res2 := swapByte n2
  let res3 := swapByte n3
  let res4 := swapByte n4
  ((res1 <<< 24) ||| (res2 <<< 16) ||| (res3 <<< 8) ||| (res4 <<< 0)) % 4294967296

/-- Modelled from the spec: `Edc.h` with the declaration of `CrcConfig_t` is not
among the sources.  The four fields are the ones `EDC_GenerateCrcLut` reads; the
polynomial and the width are numbers, the two reflection settings are flags. -/
structure CrcConfig_t where
  poly : Nat
  polySize : Nat
  isInputReflected : Bool
  isCrcReflected : Bool
deriving DecidableEq, Repr

/-- The module state of `Edc.c`: the two static arrays and the static local
`deviceIdx` of `EDC_GenerateCrcLut`. -/
structure EdcState where
  crcLutId : List (List Nat)
  crcLut : List (List Nat)
  deviceIdx : Nat
deriving DecidableEq, Repr

/-- Zero-initialised statics.  `n` is `CRC_MAX_DEVICE_COUNT`, a macro of the
absent `Edc.h`, taken as a parameter; the loops over it use a `uint8_t` index,
so the embedding describes the code for `n ≤ 255`. -/
def EdcState.init (n : Nat) : EdcState :=
  { crcLutId := List.replicate n [0, 0, 0, 0]
    crcLut := List.replicate n (List.replicate CRC_LUT_SIZE 0)
    deviceIdx := 0 }

/-- Read of `crcLutId[idx][col]`. -/
def EdcState.idAt (st : EdcState) (idx col : Nat) : Nat :=
  (st.crcLutId.getD idx []).getD col 0

/-- Read of `crcLut[idx][i]`. -/
def EdcState.lutAt (st : EdcState) (idx i : Nat) : Nat :=
  (st.crcLut.getD idx []).getD i 0

/-- Left shift of a 32-bit operand by a run-time count, as the MIPS32 target
executes it: the count is taken modulo 32 and the result keeps 32 bits. -/
def shl32 (x n : Nat) : Nat :=
  (x <<< (n % 32)) % 4294967296

/-- Conversion of a 32-bit `int` bit pattern to `uint64_t` (sign extension). -/
def intToU64 (x : Nat) : Nat :=
  if x < 2147483648 then x else x + (18446744073709551616 - 4294967296)

/-- The inner loop of the table generator (`bitIdx` from 0 to 7): `k` is the
number of iterations left; `crcVal` is a `uint32_t`, the two masks `uint64_t`. -/
def crcBitLoop : Nat → Nat → Nat → Nat → Nat
  | 0, crcVal, _, _ => crcVal
  | k + 1, crcVal, polyMask, alignMask =>
    let crcVal1 :=
      if crcVal &&& alignMask ≠ 0 then
        (((crcVal ^^^ polyMask) % 4294967296) ^^^ alignMask) % 4294967296
      else crcVal
    crcBitLoop k crcVal1 (polyMask >>> 1) (alignMask >>> 1)

/-- Body of the outer loop of the generator for one `crcIdx`; `poly` and
`polySize` are the `uint8_t` locals. -/
def crcLutEntry (poly polySize crcIdx : Nat) : Nat :=
  let crcVal := shl32 crcIdx polySize
  let polyMask := poly <<< (CRC_MSG_SIZE - 1)
  let alignMask := intToU64 (shl32 1 (CRC_MSG_SIZE + polySize - 1))
  crcBitLoop CRC_MSG_SIZE crcVal polyMask alignMask

/-- The 256 entries written to `crcLut[deviceIdx]`. -/
def crcLutRow (poly polySize : Nat) : List Nat :=
  (List.range CRC_LUT_SIZE).map (crcLutEntry poly polySize)

/-- A `for (idx = i; idx < i + k; idx++)` loop that leaves at the first index
satisfying `p`: the index found, or `none` when the loop runs to its end. -/
def scanFrom (p : Nat → Bool) : Nat → Nat → Option Nat
  | 0, _ => none
  | k + 1, i => if p i then some i else scanFrom p k (i + 1)

/-- Flag stored in a `uint8_t`. -/
def flagVal (b : Bool) : Nat := if b then 1 else 0

/-- `EDC_GenerateCrcLut`: returns the result and the module state after the
call. -/
def EDC_GenerateCrcLut (n : Nat) (st : EdcState) (crcConfig : CrcConfig_t) :
    Bool × EdcState :=
  let poly := crcConfig.poly % 256
  let polySize := crcConfig.polySize % 256
  let isInputRefl := flagVal crcConfig.isInputReflected
  let isCrcRefl := flagVal crcConfig.isCrcReflected
  if poly = 0 then (false, st)
  else if polySize ≠ 8 ∧ polySize ≠ 16 ∧ polySize ≠ 32 then (false, st)
  else if (scanFrom (fun idx => poly == st.idAt idx 0) n 0).isSome then (false, st)
  else if st.deviceIdx ≥ n then (false, st)
  else
    (true,
      { crcLutId := st.crcLutId.set st.deviceIdx [poly, polySize, isInputRefl, isCrcRefl]
        crcLut := st.crcLut.set st.deviceIdx (crcLutRow poly polySize)
        deviceIdx := st.deviceIdx + 1 })

/-- The search loop of `EDC_CalculateCrc` for the table of `poly`.  `u` is the
indeterminate value `lutIdx` holds when no row matches: the variable is
declared without an initialiser and assigned only inside the loop. -/
def findLutIdx (n : Nat) (st : EdcState) (u poly : Nat) : Nat :=
  match scanFrom (fun idx => st.idAt idx 0 == poly) n 0 with
  | some idx => idx
  | none => u

/-- One step of the 8-bit loop. -/
def crcStep8 (lut : Nat → Nat) (crcVal byte : Nat) : Nat :=
  let crcIdx := crcVal ^^^ byte
  (lut crcIdx) &&& 0xFF

/-- One step of the 16-bit loop. -/
def crcStep16 (lut : Nat → Nat) (crcVal byte : Nat) : Nat :=
  let crcIdx := (crcVal >>> 8) ^^^ byte
  ((crcVal <<< 8) ^^^ (lut crcIdx)) &&& 0xFFFF

/-- One step of the 32-bit loop. -/
def crcStep32 (lut : Nat → Nat) (crcVal byte : Nat) : Nat :=
  let crcIdx := (crcVal >>> 24) ^^^ byte
  ((crcVal <<< 8) ^^^ (lut crcIdx)) &&& 0xFFFFFFFF

/-- The part of `EDC_CalculateCrc` after the table has been located: input
reflection, the width-specific loop, output reflection.  `data` are the
`dataLen` bytes read through `dPtr`. -/
def crcCompute (lut : Nat → Nat) (polySize : Nat) (isInputRefl isCrcRefl : Bool)
    (data : List Nat) : Nat :=
  let bytes := data.map (fun b => if isInputRefl then BitSwap8 b else b % 256)
  if polySize = CRC_POLY_SIZE_8 then
    let crcVal := bytes.foldl (crcStep8 lut) 0
    (if isCrcRefl then BitSwap8 crcVal else crcVal) % 4294967296
  else if polySize = CRC_POLY_SIZE_16 then
    let crcVal := bytes.foldl (crcStep16 lut) 0
    (if isCrcRefl then BitSwap16 crcVal else crcVal) % 4294967296
  else if polySize = CRC_POLY_SIZE_32 then
    let crcVal := bytes.foldl (crcStep32 lut) 0
    (if isCrcRefl then BitSwap32 crcVal else crcVal) % 4294967296
  else 0xFFFFFFFF

/-- `EDC_CalculateCrc`.  `dPtr = none` is the null pointer, `some mem` the bytes
stored at the pointer.  The result is `none` when the call reads outside
`crcLutId` (an unassigned `lutIdx` beyond the last row) or outside `mem`. -/
def EDC_CalculateCrc (n : Nat) (st : EdcState) (u : Nat) (poly : Nat)
    (dPtr : Option (List Nat)) (dataLen : Nat) : Option Nat :=
  match dPtr with
  | none => some 0xFFFFFFFF
  | some mem =>
    if dataLen = 0 then some 0xFFFFFFFF
    else
      let lutIdx := findLutIdx n st u poly
      if n ≤ lutIdx then none
      else if mem.length < dataLen then none
      else
        let polySize := st.idAt lutIdx 1
        let isInputRefl := decide (st.idAt lutIdx 2 ≠ 0)
        let isCrcRefl := decide (st.idAt lutIdx 3 ≠ 0)
        some (crcCompute (st.lutAt lutIdx) polySize isInputRefl isCrcRefl
          (mem.take dataLen))

/-- The module state after a sequence of calls of `EDC_GenerateCrcLut`. -/
def runGenerate (n : Nat) (st : EdcState) (cfgs : List CrcConfig_t) : EdcState :=
  cfgs.foldl (fun s c => (EDC_GenerateCrcLut n s c).2) st

/-- The nine ASCII bytes of "123456789". -/
def checkString : List Nat := [0x31, 0x32, 0x33, 0x34, 0x35, 0x36, 0x37, 0x38, 0x39]

/-- The configuration `ds18b20.c` registers: polynomial 0x31, width 8, input
and output reflected. -/
def dallasConfig : CrcConfig_t :=
  { poly := 0x31, polySize := 8, isInputReflected := true, isCrcReflected := true }


/-- Row `k` of the registry carries the parameters and the table that a
successful `EDC_GenerateCrcLut` call stores for `cfg`. -/
def EdcState.Holds (st : EdcState) (k : Nat) (cfg : CrcConfig_t) : Prop :=
  st.crcLutId.getD k [] =
      [cfg.poly % 256, cfg.polySize % 256, flagVal cfg.isInputReflected,
        flagVal cfg.isCrcReflected] ∧
    st.crcLut.getD k [] = crcLutRow (cfg.poly % 256) (cfg.polySize % 256)

/-- Shape of the module state that every sequence of generator calls keeps:
both arrays have `n` rows, the rows below `deviceIdx` carry pairwise different
non-zero polynomials, the rows from `deviceIdx` on are still zero. -/
structure EdcState.WF (n : Nat) (st : EdcState) : Prop where
  lenId : st.crcLutId.length = n
  lenLut : st.crcLut.length = n
  idxLe : st.deviceIdx ≤ n
  used : ∀ i, i < st.deviceIdx → st.idAt i 0 ≠ 0
  unused : ∀ i, st.deviceIdx ≤ i → st.idAt i 0 = 0
  inj : ∀ i j, i < st.deviceIdx → j < st.deviceIdx → st.idAt i 0 = st.idAt j 0 → i = j

/-- The configuration `cfg` has been successfully registered in `st`: starting
from the zero-initialised module, some calls `pre` were made, then the call for
`cfg` returned `true`, then some further calls `post` were made. -/
def Registered (n : Nat) (st : EdcState) (cfg : CrcConfig_t) : Prop :=
  ∃ pre post : List CrcConfig_t,
    (EDC_GenerateCrcLut n (runGenerate n (EdcState.init n) pre) cfg).1 = true ∧
      st = runGenerate n (EdcState.init n) (pre ++ cfg :: post)

/-- Number of calls in `cfgs`, made one after the other from state `st`, that
returned `true`. -/
def successCount (n : Nat) : EdcState → List CrcConfig_t → Nat
  | _, [] => 0
  | st, c :: cs =>
    (if (EDC_GenerateCrcLut n st c).1 then 1 else 0) +
      successCount n (EDC_GenerateCrcLut n st c).2 cs

/-- The `k` low bytes of `v`, least significant byte first (the order in which
the little-endian target stores an integer in memory). -/
def bytesLE (v : Nat) : Nat → List Nat
  | 0 => []
  | k + 1 => (v % 256) :: bytesLE (v / 256) k

/-- The `k` low bytes of `v`, most significant byte first. -/
def bytesBE (v k : Nat) : List Nat :=
  (bytesLE v k).reverse

/-- The checksum bytes as they are appended to a payload "in the configured byte
order and reflection": `polySize / 8` bytes of the checksum, least significant
byte first when the checksum is reflected and most significant byte first when
it is not, each byte bit-reversed when input and output reflection differ. -/
def crcTrailer (cfg : CrcConfig_t) (crc : Nat) : List Nat :=
  let k := cfg.polySize / 8
  let ordered := if cfg.isCrcReflected then bytesLE crc k else bytesBE crc k
  if cfg.isInputReflected = cfg.isCrcReflected then ordered else ordered.map BitSwap8

/-! ## OneWire.c -/

/-- Modelled from the spec: the collaborators the transport and the protocol
layer call (`Pio.h`, `Tmr.h`, the interrupt controller, the core timer and the
oscillator query) are not among the sources.  They are taken slot by slot, as
operations on a hardware state `σ`:

* `configPin pin` is `PIO_ConfigGpioPin(pin, digital, input)`;
* `resetLevel pin` is the line level `PIO_ReadPin` samples inside `Reset`, after
  the reset pulse (low level: a device answers with its presence pulse);
* `readLevel pin` is the line level `PIO_ReadPin` samples inside `ReadBit`;
* `writeSlot pin b` is one write slot, `SetBit` for `b = true` and `ClearBit` for
  `b = false`;
* `coreCount` is `_CP0_GET_COUNT()`, a 32-bit counter value;
* `sysFreq` is `OSC_GetSysFreq()`.

Any bus behaviour, noise included, and any clock behaviour is an instance. -/
structure Hw (σ : Type) where
  configPin : Nat → σ → σ
  resetLevel : Nat → σ → Bool × σ
  readLevel : Nat → σ → Bool × σ
  writeSlot : Nat → Bool → σ → σ
  coreCount : σ → Nat × σ
  sysFreq : σ → Nat

/-- Value `PIO_ReadPin` returns for a line level. -/
def pinVal (level : Bool) : Nat := if level then 1 else 0

/-- `Reset`: the sampled value after the reset pulse. -/
def Reset {σ : Type} (hw : Hw σ) (pinCode : Nat) (s : σ) : Nat × σ :=
  let r := hw.resetLevel pinCode s
  (pinVal r.1, r.2)

/-- `OW_Reset`: `!Reset(pinCode)`, true when a presence pulse was sampled. -/
def OW_Reset {σ : Type} (hw : Hw σ) (pinCode : Nat) (s : σ) : Bool × σ :=
  let r := Reset hw pinCode s
  (r.1 == 0, r.2)

/-- `ReadBit`: one read slot. -/
def ReadBit {σ : Type} (hw : Hw σ) (pinCode : Nat) (s : σ) : Nat × σ :=
  let r := hw.readLevel pinCode s
  (pinVal r.1, r.2)

/-- `OW_ReadBit`. -/
def OW_ReadBit {σ : Type} (hw : Hw σ) (pinCode : Nat) (s : σ) : Nat × σ :=
  ReadBit hw pinCode s

/-- `OW_WriteBit`: `(dataBit & 0x01) ? SetBit(pinCode) : ClearBit(pinCode)`. -/
def OW_WriteBit {σ : Type} (hw : Hw σ) (pinCode : Nat) (dataBit : Nat) (s : σ) : σ :=
  hw.writeSlot pinCode (dataBit &&& 0x01 != 0) s

/-- The bit loop of `OW_WriteByte` and `OW_WriteMultiByte`: `k` slots left,
starting at bit `idx`. -/
def writeByteLoop {σ : Type} (hw : Hw σ) (pinCode dataByte : Nat) : Nat → Nat → σ → σ
  | 0, _, s => s
  | k + 1, idx, s =>
    writeByteLoop hw pinCode dataByte k (idx + 1)
      (hw.writeSlot pinCode ((dataByte >>> idx) &&& 0x01 != 0) s)

/-- `OW_WriteByte`: eight write slots, least significant bit first. -/
def OW_WriteByte {σ : Type} (hw : Hw σ) (pinCode dataByte : Nat) (s : σ) : σ :=
  writeByteLoop hw pinCode (dataByte % 256) 8 0 s

/-- The byte loop of `OW_WriteMultiByte` over the bytes at `dataPtr`. -/
def writeBytes {σ : Type} (hw : Hw σ) (pinCode : Nat) : List Nat → σ → σ
  | [], s => s
  | b :: bs, s => writeBytes hw pinCode bs (writeByteLoop hw pinCode (b % 256) 8 0 s)

/-- `OW_WriteMultiByte`: `mem` are the bytes stored at `dataPtr`, `dataLen` is a
`uint8_t`. -/
def OW_WriteMultiByte {σ : Type} (hw : Hw σ) (pinCode : Nat) (mem : List Nat) (dataLen : Nat)
    (s : σ) : σ :=
  writeBytes hw pinCode (mem.take (dataLen % 256)) s

/-- The bit loop of `OW_ReadByte` and `OW_ReadMultiByte`: `k` slots left,
starting at bit `idx`, `acc` is `*dataByte`. -/
def readByteLoop {σ : Type} (hw : Hw σ) (pinCode : Nat) : Nat → Nat → Nat → σ → Nat × σ
  | 0, _, acc, s => (acc, s)
  | k + 1, idx, acc, s =>
    let r := ReadBit hw pinCode s
    readByteLoop hw pinCode k (idx + 1) ((acc ||| (r.1 <<< idx)) % 256) r.2

/-- `OW_ReadByte` with a non-null `dataPtr`: the byte stored through it. -/
def OW_ReadByte {σ : Type} (hw : Hw σ) (pinCode : Nat) (s : σ) : Nat × σ :=
  readByteLoop hw pinCode 8 0 0x00 s

/-- The byte loop of `OW_ReadMultiByte`: `k` bytes left. -/
def readBytes {σ : Type} (hw : Hw σ) (pinCode : Nat) : Nat → σ → List Nat × σ
  | 0, s => ([], s)
  | k + 1, s =>
    let r := readByteLoop hw pinCode 8 0 0x00 s
    let rest := readBytes hw pinCode k r.2
    (r.1 :: rest.1, rest.2)

/-- `OW_ReadMultiByte` with a non-null `dataPtr`: the `dataLen` bytes stored
through it. -/
def OW_ReadMultiByte {σ : Type} (hw : Hw σ) (pinCode : Nat) (dataLen : Nat) (s : σ) :
    List Nat × σ :=
  readBytes hw pinCode (dataLen % 256) s

/-- `OW_ConfigBus`: the pin becomes an input; the delay table set by
`OW_ConfigSpeedMode` has no effect at the level of slots. -/
def OW_ConfigBus {σ : Type} (hw : Hw σ) (pinCode : Nat) (s : σ) : σ :=
  hw.configPin pinCode s

/-! ## ds18b20.c -/

/-! The macros of `ds18b20.c` and `ds18b20.h`, under their own names. -/

def DS18B20_FAMILY_CODE : Nat := 0x28
def CRC_POLY_SIZE : Nat := 8
def CRC_POLY_CODE : Nat := 0x31
def SEARCH_ROM_CMD : Nat := 0xF0
def READ_ROM_CMD : Nat := 0x33
def MATCH_ROM_CMD : Nat := 0x55
def SKIP_ROM_CMD : Nat := 0xCC
def ALARM_SEARCH_CMD : Nat := 0xEC
def CONV_TEMP_CMD : Nat := 0x44
def WRITE_MEM_CMD : Nat := 0x4E
def READ_MEM_CMD : Nat := 0xBE
def COPY_MEM_CMD : Nat := 0x48
def RECALL_EEPROM_CMD : Nat := 0xB8
def DS_READ_RAM_REPEAT_COUNT : Nat := 3
def DS_SEARCH_DEVICE_REPEAT_COUNT : Nat := 3
def DS_SAVE_COPY_ROM_TIMEOUT_MS : Nat := 100
def DS_CONV_TEMP_TIMEOUT_MS : Nat := 1000
def DS_SEARCH_ID_TIMEOUT_MS : Nat := 1000

/-- `SearchMode_t`. -/
inductive SearchMode_t where
  | SEARCH_DEVICE_ID
  | SEARCH_DEVICE_ALARM
deriving DecidableEq, Repr

/-- The state the protocol layer works on: the hardware, the module state of
`Edc.c`, `statVar`, and the static flag of `GenerateCrcLut`.  `tempCorr` is a
`float` in the source; it is kept as a rational. -/
structure DsState (σ : Type) where
  hw : σ
  edc : EdcState
  isCrcLutGenerated : Bool
  sysFreq : Nat
  owPinCode : Nat
  tempCorr : ℚ

/-- What is fixed for a build and a run: the hardware operations,
`CRC_MAX_DEVICE_COUNT`, and the indeterminate value of `lutIdx` in
`EDC_CalculateCrc`. -/
structure Env (σ : Type) where
  ops : Hw σ
  crcMax : Nat
  lutIdxInit : Nat

/-- `GenerateCrcLut`: the flag is set before the table is generated. -/
def GenerateCrcLut {σ : Type} (env : Env σ) (st : DsState σ) : Bool × DsState σ :=
  if st.isCrcLutGenerated = false then
    let r := EDC_GenerateCrcLut env.crcMax st.edc dallasConfig
    if !r.1 then (false, { st with isCrcLutGenerated := true, edc := r.2 })
    else (true, { st with isCrcLutGenerated := true, edc := r.2 })
  else (true, st)

/-- The ROM access frame `(id << 8) | 0x28` completed by its CRC in the top
byte, as built at five places in `ds18b20.c`; all values are `uint64_t`. -/
def romFrame {σ : Type} (env : Env σ) (edc : EdcState) (id : Nat) : Option Nat :=
  let romData := ((id <<< 8) % 18446744073709551616) ||| DS18B20_FAMILY_CODE
  match EDC_CalculateCrc env.crcMax edc env.lutIdxInit CRC_POLY_CODE
      (some (bytesLE romData 8)) 7 with
  | none => none
  | some crcData => some (romData ||| ((crcData <<< 56) % 18446744073709551616))

/-- What one pass over the 64 ROM bits leaves behind. -/
structure PassResult (σ : Type) where
  romData : Nat
  lastZero : Int
  isResetSearch : Bool
  hw : σ

/-- The `for (romBitIdx ...)` loop of `SearchDevice`: `k` bit positions left,
starting at `romBitIdx`.  `prevId` is `*(romIdBuff + deviceCount - 1)`. -/
def searchBits {σ : Type} (hw : Hw σ) (pinCode : Nat) (lastDiscrepancy : Int) (prevId : Nat) :
    Nat → Nat → Nat → Int → Bool → σ → PassResult σ
  | 0, _, romData, lastZero, isResetSearch, s =>
    { romData := romData, lastZero := lastZero, isResetSearch := isResetSearch, hw := s }
  | k + 1, romBitIdx, romData, lastZero, isResetSearch, s =>
    let r1 := OW_ReadBit hw pinCode s
    let r2 := OW_ReadBit hw pinCode r1.2
    let romBit := r1.1
    let romCmpBit := r2.1
    if romBit = romCmpBit ∧ romBit = 1 then
      { romData := romData, lastZero := lastZero, isResetSearch := true, hw := r2.2 }
    else
      let nextBit : Nat :=
        if romBit = romCmpBit ∧ romBit = 0 then
          if (romBitIdx : Int) = lastDiscrepancy then 1
          else if (romBitIdx : Int) > lastDiscrepancy then 0
          else if prevId &&& intToU64 (shl32 1 romBitIdx) > 0 then 1 else 0
        else romBit
      let lastZero1 : Int :=
        if romBit = romCmpBit ∧ romBit = 0 ∧ nextBit = 0 then (romBitIdx : Int) else lastZero
      let romData1 := romData ||| ((nextBit <<< romBitIdx) % 18446744073709551616)
      searchBits hw pinCode lastDiscrepancy prevId k (romBitIdx + 1) romData1 lastZero1
        isResetSearch (OW_WriteBit hw pinCode nextBit r2.2)

/-- The variables of `SearchDevice` that live across passes.  `accepted` is not
a variable of the source: it records, oldest first, the 64-bit candidates that
passed the family and CRC checks since the search last restarted. -/
structure SearchVars where
  romIdBuff : Nat → Nat
  deviceCount : Nat
  lastDiscrepancy : Int
  isLastDevice : Bool
  isResetSearch : Bool
  repeatSearchCount : Nat
  accepted : List Nat

/-- Result of `SearchDevice`: the returned count, the caller's buffer, the
accepted candidates behind the returned entries, and the state left. -/
structure SearchResult (σ : Type) where
  count : Nat
  romIdBuff : Nat → Nat
  accepted : List Nat
  st : DsState σ

/-- How the body of the `do ... while` loop ends: with a CRC call whose result
is undefined, with a `return` from inside the loop, or at the loop condition. -/
inductive PassOutcome (σ : Type) where
  | undefined
  | returned (r : SearchResult σ)
  | atCondition (v : SearchVars) (s : σ)

/-- The body of the `do ... while` loop of `SearchDevice`: one pass over the ROM
bits and the checks of the candidate. -/
def searchPass {σ : Type} (env : Env σ) (pinCode searchCmd : Nat) (st : DsState σ)
    (v : SearchVars) (s : σ) : PassOutcome σ :=
  let s1 := OW_WriteByte env.ops pinCode searchCmd s
  let p := searchBits env.ops pinCode v.lastDiscrepancy (v.romIdBuff (v.deviceCount - 1))
    64 0 0 (-1) v.isResetSearch s1
  if p.romData &&& 0xFF = DS18B20_FAMILY_CODE then
    let buff1 : Nat → Nat := fun i =>
      if i = v.deviceCount then (p.romData >>> 8) &&& 0xFFFFFFFFFFFF else v.romIdBuff i
    let crcOk : Option Bool :=
      if p.isResetSearch = false then
        (EDC_CalculateCrc env.crcMax st.edc env.lutIdxInit CRC_POLY_CODE
          (some (bytesLE p.romData 8)) 8).map (fun c => c == 0)
      else some false
    match crcOk with
    | none => PassOutcome.undefined
    | some true =>
      if p.lastZero = -1 then
        PassOutcome.atCondition
          { v with romIdBuff := buff1, lastDiscrepancy := p.lastZero, isLastDevice := true,
                   isResetSearch := p.isResetSearch, deviceCount := v.deviceCount + 1,
                   accepted := v.accepted ++ [p.romData] } p.hw
      else
        let r := OW_Reset env.ops pinCode p.hw
        if !r.1 then
          PassOutcome.returned
            { count := 0, romIdBuff := buff1, accepted := [], st := { st with hw := r.2 } }
        else
          PassOutcome.atCondition
            { v with romIdBuff := buff1, lastDiscrepancy := p.lastZero,
                     isResetSearch := p.isResetSearch, deviceCount := v.deviceCount + 1,
                     accepted := v.accepted ++ [p.romData] } r.2
    | some false =>
      PassOutcome.atCondition
        { v with romIdBuff := buff1, lastDiscrepancy := -1, isLastDevice := false,
                 isResetSearch := false, deviceCount := 0,
                 repeatSearchCount := v.repeatSearchCount + 1, accepted := [] } p.hw
  else
    PassOutcome.atCondition { v with isResetSearch := p.isResetSearch } p.hw

/-- The loop condition `(isLastDevice == false) && (repeatSearchCount <
DS_SEARCH_DEVICE_REPEAT_COUNT) && (timeout > _CP0_GET_COUNT())`; the counter is
read only when the first two conjuncts hold. -/
def searchCond {σ : Type} (env : Env σ) (timeout : Nat) (v : SearchVars) (s : σ) : Bool × σ :=
  if v.isLastDevice = false ∧ v.repeatSearchCount < DS_SEARCH_DEVICE_REPEAT_COUNT then
    let c := env.ops.coreCount s
    (decide (timeout > c.1 % 4294967296), c.2)
  else (false, s)

/-- The code after the loop: the count is cleared unless the last device was
reached. -/
def searchExit {σ : Type} (st : DsState σ) (v : SearchVars) (s : σ) : SearchResult σ :=
  { count := if v.isLastDevice then v.deviceCount else 0
    romIdBuff := v.romIdBuff
    accepted := if v.isLastDevice then v.accepted else []
    st := { st with hw := s } }

/-- The `do ... while` loop of `SearchDevice` and the code after it.  `fuel`
bounds the number of passes; the result is `none` when it runs out, or when a
CRC call is undefined. -/
def searchLoop {σ : Type} (env : Env σ) (pinCode searchCmd timeout : Nat) (st : DsState σ) :
    Nat → SearchVars → σ → Option (SearchResult σ)
  | 0, _, _ => none
  | fuel + 1, v, s =>
    match searchPass env pinCode searchCmd st v s with
    | PassOutcome.undefined => none
    | PassOutcome.returned r => some r
    | PassOutcome.atCondition v1 s1 =>
      let c := searchCond env timeout v1 s1
      if c.1 then searchLoop env pinCode searchCmd timeout st fuel v1 c.2
      else some (searchExit st v1 c.2)

/-- `SearchDevice`.  `romIdBuff` is the caller's buffer before the call. -/
def SearchDevice {σ : Type} (env : Env σ) (fuel : Nat) (st : DsState σ) (pinCode : Nat)
    (romIdBuff : Nat → Nat) (searchMode : SearchMode_t) : Option (SearchResult σ) :=
  if pinCode = 0 then
    some { count := 0, romIdBuff := romIdBuff, accepted := [], st := st }
  else
    let g := GenerateCrcLut env st
    if !g.1 then
      some { count := 0, romIdBuff := romIdBuff, accepted := [], st := g.2 }
    else
      let s1 := OW_ConfigBus env.ops pinCode g.2.hw
      let r := OW_Reset env.ops pinCode s1
      if !r.1 then
        some { count := 0, romIdBuff := romIdBuff, accepted := [], st := { g.2 with hw := r.2 } }
      else
        let searchCmd :=
          if searchMode = SearchMode_t.SEARCH_DEVICE_ID then SEARCH_ROM_CMD else ALARM_SEARCH_CMD
        let sysFreq := env.ops.sysFreq r.2 % 4294967296
        let st1 : DsState σ := { g.2 with owPinCode := pinCode, sysFreq := sysFreq }
        let delay := (DS_CONV_TEMP_TIMEOUT_MS * (sysFreq / 1000 / 2)) % 4294967296
        let c := env.ops.coreCount r.2
        let timeout := (c.1 % 4294967296 + delay) % 4294967296
        searchLoop env pinCode searchCmd timeout st1 fuel
          { romIdBuff := romIdBuff, deviceCount := 0, lastDiscrepancy := -1,
            isLastDevice := false, isResetSearch := false, repeatSearchCount := 0,
            accepted := [] } c.2

/-- `DS18B20_SearchDeviceId`. -/
def DS18B20_SearchDeviceId {σ : Type} (env : Env σ) (fuel : Nat) (st : DsState σ)
    (pinCode : Nat) (romIdBuff : Nat → Nat) : Option (SearchResult σ) :=
  SearchDevice env fuel st pinCode romIdBuff SearchMode_t.SEARCH_DEVICE_ID

/-- `DS18B20_SearchAlarm`. -/
def DS18B20_SearchAlarm {σ : Type} (env : Env σ) (fuel : Nat) (st : DsState σ)
    (pinCode : Nat) (romIdBuff : Nat → Nat) : Option (SearchResult σ) :=
  SearchDevice env fuel st pinCode romIdBuff SearchMode_t.SEARCH_DEVICE_ALARM

/-- The 64-bit candidate `r` is one the search accepts and `s` is the
identifier stored for it: `r` has the family code in its low byte, `s` is the
48-bit value in bits 8..55 of `r`, and the CRC over the eight bytes of `r` is
zero. -/
def AcceptedCandidate {σ : Type} (env : Env σ) (edc : EdcState) (r s : Nat) : Prop :=
  r < 2 ^ 64 ∧ r &&& 0xFF = DS18B20_FAMILY_CODE ∧ s = (r >>> 8) &&& 0xFFFFFFFFFFFF ∧
    s < 2 ^ 48 ∧
    EDC_CalculateCrc env.crcMax edc env.lutIdxInit CRC_POLY_CODE (some (bytesLE r 8)) 8 = some 0

/-- Each of the first `count` buffer entries is the identifier stored for the
accepted candidate recorded at the same position. -/
def EntriesAccepted {σ : Type} (env : Env σ) (edc : EdcState) (count : Nat)
    (romIdBuff : Nat → Nat) (accepted : List Nat) : Prop :=
  accepted.length = count ∧
    ∀ i, i < count → ∃ r, accepted[i]? = some r ∧ AcceptedCandidate env edc r (romIdBuff i)

/-- How the `for (idxb ...)` loop of `DS18B20_ReadTemp` ends: without a result
the embedding can give (an undefined CRC call, or a loop still running after
the iterations the embedding follows), with `return false` after a failed
reset, or at the code after the loop, by a `break` or by the loop condition. -/
inductive ReadOutcome (σ : Type) where
  | undefined
  | noPresence (s : σ)
  | left (idxb : Nat) (romOff : Nat) (rxData : Nat → List Nat) (s : σ)

/-- The `for (idxb = 0; idxb < deviceCount; idxb++)` loop of `DS18B20_ReadTemp`,
entered at `idxb`.  `idxb` is a `uint8_t` and `deviceCount` a `uint32_t`: the
increment wraps at 256, so for `deviceCount > 255` the loop condition never
fails and the loop ends only at its `break` or its `return`.  `k` is the number
of iterations the embedding follows; the outcome is `undefined` when the loop
is still running after them, which from `idxb = 0` and `k = deviceCount` happens
for `deviceCount > 255` only.  `romOff` is the number of increments the pointer
`romId` has seen since the call, `romId i` is the word `i` places after the
caller's pointer, `rxData` the scratch-pad rows read so far. -/
def readDevices {σ : Type} (env : Env σ) (st : DsState σ) (romId : Nat → Nat)
    (deviceCount : Nat) :
    Nat → Nat → Nat → (Nat → List Nat) → σ → ReadOutcome σ
  | 0, idxb, romOff, rxData, s =>
    if idxb < deviceCount then ReadOutcome.undefined
    else ReadOutcome.left idxb romOff rxData s
  | k + 1, idxb, romOff, rxData, s =>
    if idxb < deviceCount then
      let r := OW_Reset env.ops st.owPinCode s
      if !r.1 then ReadOutcome.noPresence r.2
      else
        match romFrame env st.edc (romId romOff) with
        | none => ReadOutcome.undefined
        | some romData =>
          let s2 := OW_WriteByte env.ops st.owPinCode MATCH_ROM_CMD r.2
          let s3 := OW_WriteMultiByte env.ops st.owPinCode (bytesLE romData 8) 8 s2
          let s4 := OW_WriteByte env.ops st.owPinCode READ_MEM_CMD s3
          let rd := OW_ReadMultiByte env.ops st.owPinCode 9 s4
          let rxData1 : Nat → List Nat := fun i => if i = idxb then rd.1 else rxData i
          match EDC_CalculateCrc env.crcMax st.edc env.lutIdxInit CRC_POLY_CODE (some rd.1) 9 with
          | none => ReadOutcome.undefined
          | some c =>
            if c ≠ 0 then ReadOutcome.left idxb (romOff + 1) rxData1 rd.2
            else
              readDevices env st romId deviceCount k ((idxb + 1) % 256) (romOff + 1) rxData1 rd.2
    else ReadOutcome.left idxb romOff rxData s

/-- The `do ... while (idxa < DS_READ_RAM_REPEAT_COUNT)` loop of
`DS18B20_ReadTemp`.  `left` bounds the passes still possible; called with
`DS_READ_RAM_REPEAT_COUNT` it never runs out.  Each pass is followed for
`deviceCount` iterations of its `for` loop.  The result carries `idxa` and `idxb`
as they are after the loop. -/
def readPasses {σ : Type} (env : Env σ) (st : DsState σ) (romId : Nat → Nat)
    (deviceCount : Nat) :
    Nat → Nat → Nat → (Nat → List Nat) → σ →
      Option (Option (Nat × Nat × (Nat → List Nat)) × σ)
  | 0, _, _, _, _ => none
  | left + 1, idxa, romOff, rxData, s =>
    match readDevices env st romId deviceCount deviceCount 0 romOff rxData s with
    | ReadOutcome.undefined => none
    | ReadOutcome.noPresence s1 => some (none, s1)
    | ReadOutcome.left idxb romOff1 rxData1 s1 =>
      if idxb = deviceCount then some (some (idxa, idxb, rxData1), s1)
      else if idxa + 1 < DS_READ_RAM_REPEAT_COUNT then
        readPasses env st romId deviceCount left (idxa + 1) romOff1 rxData1 s1
      else some (some (idxa + 1, idxb, rxData1), s1)

/-- The conversion of one scratch-pad row to Celsius.  `intgr` and `frctn` are
`uint8_t`; the `float` operations are exact on these operands (multiples of
1/16 below 128), the last addition of `tempCorr` is kept unrounded. -/
def decodeTemp (rx : List Nat) (tempCorr : ℚ) : ℚ :=
  let intgr := (((rx.getD 1 0 &&& 0x07) <<< 4) ||| (rx.getD 0 0 >>> 4)) % 256
  let frctn := (rx.getD 0 0 &&& 0x0F) % 256
  let signPart : ℚ := if rx.getD 1 0 &&& 0x08 ≠ 0 then -1 else 1
  ((intgr : ℚ) + (frctn : ℚ) / 16) * signPart + tempCorr

/-- `DS18B20_ReadTemp`.  `romId` is `none` for a null pointer and otherwise the
words at the pointer, `dataBuffNull` tells whether `dataBuff` is null, `rxInit`
is the indeterminate content of the local array `rxData`.  The result is the
returned flag, the values stored through `dataBuff`, and the state left.  The
conversion loop `for (uint8_t idx = 0; idx < deviceCount; idx++)` has an 8-bit
index: for `deviceCount > 255` its condition never fails, the call does not
return once it gets there, and the result is `none`. -/
def DS18B20_ReadTemp {σ : Type} (env : Env σ) (st : DsState σ) (romId : Option (Nat → Nat))
    (dataBuffNull : Bool) (deviceCount : Nat) (rxInit : Nat → List Nat) :
    Option (Bool × List ℚ × DsState σ) :=
  match romId with
  | none => some (false, [], st)
  | some rom =>
    if dataBuffNull ∨ deviceCount = 0 then some (false, [], st)
    else if rom 0 = 0 ∧ deviceCount = 1 then some (false, [], st)
    else
      let b := OW_ReadBit env.ops st.owPinCode st.hw
      if b.1 = 0 then some (false, [], { st with hw := b.2 })
      else
        match readPasses env st rom deviceCount DS_READ_RAM_REPEAT_COUNT 0 0 rxInit b.2 with
        | none => none
        | some (none, s1) => some (false, [], { st with hw := s1 })
        | some (some (idxa, idxb, rxData), s1) =>
          if idxa ≥ DS_READ_RAM_REPEAT_COUNT - 1 ∧ idxb = 0 then
            some (false, [], { st with hw := s1 })
          else if 255 < deviceCount then none
          else
            some (true,
              (List.range deviceCount).map (fun idx => decodeTemp (rxData idx) st.tempCorr),
              { st with hw := s1 })

/-! ### ds18b20.c: configuration, scratch-pad memory, fake-device probe -/

/-- `OwConfig_t` of `OneWire.h`; `speedMode` is the value of `OwSpeedMode_t`. -/
structure OwConfig_t where
  pinCode : Nat
  speedMode : Nat
deriving DecidableEq, Repr

/-- `DsConfig_t` of `ds18b20.h`; `measRes` is the value of `DsMeasRes_t` (0..3),
the alarms are `int`. -/
structure DsConfig_t where
  owConfig : OwConfig_t
  measRes : Nat
  deviceId : Nat
  lowAlarm : Int
  highAlarm : Int
deriving DecidableEq, Repr

def MAX_TEMP : Int := 127
def MIN_TEMP : Int := -55

/-- Conversion `(int)statVar.tempCorr` of the `float` offset: truncation towards
zero. -/
def floatToInt (q : ℚ) : Int :=
  q.num.tdiv (q.den : Int)

/-- Conversion of an `int` to `uint8_t`. -/
def intToU8 (x : Int) : Nat :=
  (x % 256).toNat

/-- The raw alarm byte `ConfigDevice` computes from a threshold that has gone
through the offset and the clamp: `0x80 | (uint8_t)(255 - (uint8_t)alarm + 1)`
for a negative value, the value itself otherwise, stored in a `uint8_t`. -/
def rawAlarm (alarm : Int) : Nat :=
  if alarm < 0 then (0x80 ||| ((255 - intToU8 alarm + 1) % 256)) % 256
  else intToU8 alarm

/-- The three bytes `txData` of `ConfigDevice`.  `hiInit` and `loInit` are the
indeterminate values of the locals `hiAlarm` and `loAlarm`, which are compared
before they are assigned.  The `int` additions are taken without overflow. -/
def configTxData (dsConfig : DsConfig_t) (tempCorr : ℚ) (hiInit loInit : Int) : List Nat :=
  let raw : Nat × Nat :=
    if hiInit ≠ loInit then
      let hiAlarm0 := dsConfig.highAlarm + floatToInt tempCorr
      let loAlarm0 := dsConfig.lowAlarm + floatToInt tempCorr
      let hiAlarm := if hiAlarm0 > MAX_TEMP then MAX_TEMP else hiAlarm0
      let loAlarm := if loAlarm0 < MIN_TEMP then MIN_TEMP else loAlarm0
      (rawAlarm hiAlarm, rawAlarm loAlarm)
    else (intToU8 MAX_TEMP, 0x80 ||| 55)
  [raw.1, raw.2, (dsConfig.measRes <<< 5) % 256]

/-- `ConfigDevice`.  The result is the returned flag and the state left; `none`
when the CRC call of the single-device branch is undefined. -/
def ConfigDevice {σ : Type} (env : Env σ) (st : DsState σ) (dsConfig : DsConfig_t)
    (isMultiMode : Bool) (hiInit loInit : Int) : Option (Bool × DsState σ) :=
  if dsConfig.deviceId % 18446744073709551616 = 0 ∧ isMultiMode = false then some (false, st)
  else
    let txData := configTxData dsConfig st.tempCorr hiInit loInit
    let r := OW_Reset env.ops st.owPinCode st.hw
    if !r.1 then some (false, { st with hw := r.2 })
    else if isMultiMode then
      let s1 := OW_WriteByte env.ops st.owPinCode SKIP_ROM_CMD r.2
      let s2 := OW_WriteByte env.ops st.owPinCode WRITE_MEM_CMD s1
      let s3 := OW_WriteMultiByte env.ops st.owPinCode txData 3 s2
      some (true, { st with hw := s3 })
    else
      match romFrame env st.edc dsConfig.deviceId with
      | none => none
      | some _ =>
        let s2 := OW_WriteByte env.ops st.owPinCode WRITE_MEM_CMD r.2
        let s3 := OW_WriteMultiByte env.ops st.owPinCode txData 3 s2
        some (true, { st with hw := s3 })

/-- `DS18B20_ConfigDevice`. -/
def DS18B20_ConfigDevice {σ : Type} (env : Env σ) (st : DsState σ) (dsConfig : DsConfig_t)
    (isMultiMode : Bool) (hiInit loInit : Int) : Option (Bool × DsState σ) :=
  let s1 := OW_ConfigBus env.ops dsConfig.owConfig.pinCode st.hw
  let g := GenerateCrcLut env { st with hw := s1 }
  if !g.1 then some (false, g.2)
  else
    let st1 : DsState σ :=
      { g.2 with sysFreq := env.ops.sysFreq g.2.hw % 4294967296,
                 owPinCode := dsConfig.owConfig.pinCode }
    ConfigDevice env st1 dsConfig isMultiMode hiInit loInit

/-- The values `DS18B20_ReadRam` stores for one scratch-pad row: high alarm, low
alarm, resolution.  `hiIntgr` and `loIntgr` are `uint8_t`. -/
def ramDecode (rx : List Nat) : Int × Int × Int :=
  let hiIntgr := (rx.getD 2 0 &&& 0x7E) % 256
  let hiSign : Int := if rx.getD 2 0 &&& 0x80 ≠ 0 then -1 else 1
  let loIntgr := (rx.getD 3 0 &&& 0x7E) % 256
  let loSign : Int := if rx.getD 3 0 &&& 0x80 ≠ 0 then -1 else 1
  ((hiIntgr : Int) * hiSign, (loIntgr : Int) * loSign, ((rx.getD 4 0 >>> 5 : Nat) : Int))

/-- How the `for (idxb ...)` loop of `DS18B20_ReadRam` ends; `dataBuff` is the
caller's array as the loop leaves it. -/
inductive RamOutcome (σ : Type) where
  | undefined
  | noPresence (dataBuff : Nat → Int) (s : σ)
  | left (idxb : Nat) (romOff : Nat) (rxData : Nat → List Nat) (dataBuff : Nat → Int) (s : σ)

/-- The `for (idxb ...)` loop of `DS18B20_ReadRam`: as in `DS18B20_ReadTemp`
(`idxb` is a `uint8_t` that wraps at 256, `k` is the number of iterations the
embedding follows), with the three values of the row stored through `dataBuff`
before the CRC is checked. -/
def ramDevices {σ : Type} (env : Env σ) (st : DsState σ) (romId : Nat → Nat)
    (deviceCount : Nat) :
    Nat → Nat → Nat → (Nat → List Nat) → (Nat → Int) → σ → RamOutcome σ
  | 0, idxb, romOff, rxData, dataBuff, s =>
    if idxb < deviceCount then RamOutcome.undefined
    else RamOutcome.left idxb romOff rxData dataBuff s
  | k + 1, idxb, romOff, rxData, dataBuff, s =>
    if idxb < deviceCount then
      let r := OW_Reset env.ops st.owPinCode s
      if !r.1 then RamOutcome.noPresence dataBuff r.2
      else
        match romFrame env st.edc (romId romOff) with
        | none => RamOutcome.undefined
        | some romData =>
          let s2 := OW_WriteByte env.ops st.owPinCode MATCH_ROM_CMD r.2
          let s3 := OW_WriteMultiByte env.ops st.owPinCode (bytesLE romData 8) 8 s2
          let s4 := OW_WriteByte env.ops st.owPinCode READ_MEM_CMD s3
          let rd := OW_ReadMultiByte env.ops st.owPinCode 9 s4
          let rxData1 : Nat → List Nat := fun i => if i = idxb then rd.1 else rxData i
          let d := ramDecode rd.1
          let dataBuff1 : Nat → Int := fun i =>
            if i = idxb * 3 + 0 then d.1
            else if i = idxb * 3 + 1 then d.2.1
            else if i = idxb * 3 + 2 then d.2.2
            else dataBuff i
          match EDC_CalculateCrc env.crcMax st.edc env.lutIdxInit CRC_POLY_CODE (some rd.1) 9 with
          | none => RamOutcome.undefined
          | some c =>
            if c ≠ 0 then RamOutcome.left idxb (romOff + 1) rxData1 dataBuff1 rd.2
            else
              ramDevices env st romId deviceCount k ((idxb + 1) % 256) (romOff + 1) rxData1
                dataBuff1 rd.2
    else RamOutcome.left idxb romOff rxData dataBuff s

/-- What the retry loop of `DS18B20_ReadRam` leaves: `none` in the first
component after a failed reset, otherwise `idxa`, `idxb` and the rows read. -/
structure RamLoopEnd (σ : Type) where
  vars : Option (Nat × Nat × (Nat → List Nat))
  dataBuff : Nat → Int
  hw : σ

/-- The `do ... while (idxa < DS_READ_RAM_REPEAT_COUNT)` loop of
`DS18B20_ReadRam`; `left` bounds the passes still possible, and each pass is
followed for `deviceCount` iterations of its `for` loop. -/
def ramPasses {σ : Type} (env : Env σ) (st : DsState σ) (romId : Nat → Nat)
    (deviceCount : Nat) :
    Nat → Nat → Nat → (Nat → List Nat) → (Nat → Int) → σ → Option (RamLoopEnd σ)
  | 0, _, _, _, _, _ => none
  | left + 1, idxa, romOff, rxData, dataBuff, s =>
    match ramDevices env st romId deviceCount deviceCount 0 romOff rxData dataBuff s with
    | RamOutcome.undefined => none
    | RamOutcome.noPresence dataBuff1 s1 => some { vars := none, dataBuff := dataBuff1, hw := s1 }
    | RamOutcome.left idxb romOff1 rxData1 dataBuff1 s1 =>
      if idxb = deviceCount then
        some { vars := some (idxa, idxb, rxData1), dataBuff := dataBuff1, hw := s1 }
      else if idxa + 1 < DS_READ_RAM_REPEAT_COUNT then
        ramPasses env st romId deviceCount left (idxa + 1) romOff1 rxData1 dataBuff1 s1
      else some { vars := some (idxa + 1, idxb, rxData1), dataBuff := dataBuff1, hw := s1 }

/-- `DS18B20_ReadRam`.  `dataBuff = none` is a null pointer, otherwise the
caller's `int` array; `romId = none` is a null pointer, which the function
dereferences before it tests it, so the result is then undefined.  The result
is the returned flag, the array as the call leaves it, and the state left. -/
def DS18B20_ReadRam {σ : Type} (env : Env σ) (st : DsState σ) (romId : Option (Nat → Nat))
    (dataBuff : Option (Nat → Int)) (deviceCount : Nat) (rxInit : Nat → List Nat) :
    Option (Bool × (Nat → Int) × DsState σ) :=
  match dataBuff with
  | none => some (false, fun _ => 0, st)
  | some buff =>
    if deviceCount = 0 then some (false, buff, st)
    else
      match romId with
      | none => none
      | some rom =>
        if rom 0 = 0 ∧ deviceCount = 1 then some (false, buff, st)
        else
          let b := OW_ReadBit env.ops st.owPinCode st.hw
          if b.1 = 0 then some (false, buff, { st with hw := b.2 })
          else
            match ramPasses env st rom deviceCount DS_READ_RAM_REPEAT_COUNT 0 0 rxInit buff b.2 with
            | none => none
            | some e =>
              match e.vars with
              | none => some (false, e.dataBuff, { st with hw := e.hw })
              | some (idxa, idxb, _) =>
                if idxa ≥ DS_READ_RAM_REPEAT_COUNT - 1 ∧ idxb = 0 then
                  some (false, e.dataBuff, { st with hw := e.hw })
                else some (true, e.dataBuff, { st with hw := e.hw })

/-- The busy wait `while (timeout > _CP0_GET_COUNT());`: the hardware state when
the loop is left, `none` when `fuel` reads of the counter do not suffice. -/
def waitUntil {σ : Type} (hw : Hw σ) (timeout : Nat) : Nat → σ → Option σ
  | 0, _ => none
  | fuel + 1, s =>
    let c := hw.coreCount s
    if timeout > c.1 % 4294967296 then waitUntil hw timeout fuel c.2 else some c.2

/-- `DS18B20_IsDeviceFake`.  `romId = none` is a null pointer, dereferenced
before it is tested.  `fuel` bounds the reads of the counter in the busy wait. -/
def DS18B20_IsDeviceFake {σ : Type} (env : Env σ) (fuel : Nat) (st : DsState σ)
    (romId : Option (Nat → Nat)) : Option (Bool × DsState σ) :=
  let r := OW_Reset env.ops st.owPinCode st.hw
  if !r.1 then some (false, { st with hw := r.2 })
  else
    match romId with
    | none => none
    | some rom =>
      if rom 0 = 0 then some (false, { st with hw := r.2 })
      else
        match romFrame env st.edc (rom 0) with
        | none => none
        | some romData =>
          let pin := st.owPinCode
          let s1 := OW_WriteByte env.ops pin MATCH_ROM_CMD r.2
          let s2 := OW_WriteMultiByte env.ops pin (bytesLE romData 8) 8 s1
          let s3 := OW_WriteByte env.ops pin WRITE_MEM_CMD s2
          let s4 := OW_WriteMultiByte env.ops pin [0x00, 0x00, (0 <<< 5) % 256] 3 s3
          let r2 := OW_Reset env.ops pin s4
          if !r2.1 then some (false, { st with hw := r2.2 })
          else
            let s5 := OW_WriteByte env.ops pin MATCH_ROM_CMD r2.2
            let s6 := OW_WriteMultiByte env.ops pin (bytesLE romData 8) 8 s5
            let s7 := OW_WriteByte env.ops pin CONV_TEMP_CMD s6
            let sysFreq := if st.sysFreq = 0 then 8000000 else st.sysFreq
            let delay := (95 * (sysFreq / 1000 / 2)) % 4294967296
            let c := env.ops.coreCount s7
            let timeout := (c.1 % 4294967296 + delay) % 4294967296
            match waitUntil env.ops timeout fuel c.2 with
            | none => none
            | some s8 =>
              let b := OW_ReadBit env.ops pin s8
              if b.1 = 0 then some (true, { st with hw := b.2, sysFreq := sysFreq })
              else some (false, { st with hw := b.2, sysFreq := sysFreq })

/-! ## A simulated wired-AND bus -/

/-- State of the noise-free simulated bus: the ROM words of the devices on the
bus, the devices still selected, the number of write slots of the command byte
still to come after a reset, the place inside the current ROM bit (0: the bit
is read next, 1: its complement is read next, 2: the master writes its choice
next) and the index of the current ROM bit. -/
structure SimBus where
  roms : List Nat
  selected : List Nat
  cmdLeft : Nat
  phase : Nat
  pos : Nat
deriving DecidableEq, Repr

/-- A bus with the given devices, before the first reset. -/
def SimBus.idle (roms : List Nat) : SimBus :=
  { roms := roms, selected := [], cmdLeft := 0, phase := 0, pos := 0 }

/-- Wired AND of what the selected devices put on the line; an idle line is
pulled high. -/
def SimBus.wiredAnd (b : SimBus) (f : Nat → Bool) : Bool :=
  b.selected.all f

/-- The simulated bus of the search claims.  A reset reselects all devices,
reports presence when there is a device, and is followed by the eight write
slots of the command byte.  After that a read slot returns the AND of the
selected devices' current bit, the next read slot the AND of its complement,
and the written bit deselects the devices that disagree and moves on to the
next bit.  The core timer stands still, so a timeout never expires. -/
def simHw : Hw SimBus :=
  { configPin := fun _ b => b
    resetLevel := fun _ b =>
      (b.roms.isEmpty, { b with selected := b.roms, cmdLeft := 8, phase := 0, pos := 0 })
    readLevel := fun _ b =>
      if b.cmdLeft ≠ 0 ∨ 64 ≤ b.pos then (true, b)
      else if b.phase = 0 then (b.wiredAnd (fun r => r.testBit b.pos), { b with phase := 1 })
      else if b.phase = 1 then (b.wiredAnd (fun r => !r.testBit b.pos), { b with phase := 2 })
      else (true, b)
    writeSlot := fun _ bit b =>
      if b.cmdLeft ≠ 0 then { b with cmdLeft := b.cmdLeft - 1 }
      else if b.phase = 2 ∧ b.pos < 64 then
        { b with selected := b.selected.filter (fun r => r.testBit b.pos == bit),
                 phase := 0, pos := b.pos + 1 }
      else b
    coreCount := fun b => (0, b)
    sysFreq := fun _ => 8000000 }

/-- The simulated bus as the environment of the protocol layer, with a registry
of `crcMax` rows. -/
def simEnv (crcMax lutIdxInit : Nat) : Env SimBus :=
  { ops := simHw, crcMax := crcMax, lutIdxInit := lutIdxInit }

/-- The protocol state at power-up on a bus with the given devices. -/
def simStart (crcMax : Nat) (roms : List Nat) : DsState SimBus :=
  { hw := SimBus.idle roms, edc := EdcState.init crcMax, isCrcLutGenerated := false,
    sysFreq := 0, owPinCode := 0, tempCorr := 0 }

/-- A bus that plays back a recorded sequence of line levels: every read slot
returns the next recorded level (a high line once the record is used up), every
reset finds a presence pulse, write slots leave the record untouched, and the
core timer stands still. -/
def replayHw : Hw (List Bool) :=
  { configPin := fun _ l => l
    resetLevel := fun _ l => (false, l)
    readLevel := fun _ l => (l.headD true, l.tail)
    writeSlot := fun _ _ l => l
    coreCount := fun l => (0, l)
    sysFreq := fun _ => 8000000 }

/-- The eight line levels a device drives to send `byte`, least significant bit
first. -/
def byteLevels (byte : Nat) : List Bool :=
  (List.range 8).map (fun i => byte.testBit i)

/-- The line levels of a sequence of bytes. -/
def bytesLevels (bytes : List Nat) : List Bool :=
  (bytes.map byteLevels).flatten

/-- The replaying bus as the environment of the protocol layer. -/
def replayEnv (crcMax lutIdxInit : Nat) : Env (List Bool) :=
  { ops := replayHw, crcMax := crcMax, lutIdxInit := lutIdxInit }

/-- The protocol state after `DS18B20_ConfigDevice` has run on pin `pin`: the
CRC table of the driver is registered; `levels` is what the bus will play back,
`corr` the correction offset. -/
def replayState (crcMax pin : Nat) (levels : List Bool) (corr : ℚ) : DsState (List Bool) :=
  { hw := levels, edc := (EDC_GenerateCrcLut crcMax (EdcState.init crcMax) dallasConfig).2,
    isCrcLutGenerated := true, sysFreq := 8000000, owPinCode := pin, tempCorr := corr }

/-- A scratch-pad with temperature bytes 0x50, 0x05 (the power-on value) and a
matching CRC byte. -/
def scratchPad85 : List Nat := [0x50, 0x05, 0x4B, 0x46, 0x7F, 0xFF, 0x0C, 0x10, 0x1C]

/-- Three devices with the serial numbers 0x100, 0x002 and 0x001: family code
0x28 in the low byte, the CRC-8 of the seven low bytes in the top byte. -/
def threeDevices : List Nat :=
  [0xD300000000010028, 0x7000000000000228, 0x2900000000000128]

/-- Two devices with the serial numbers 5 and 6. -/
def twoDevices : List Nat :=
  [0xF500000000000528, 0xAC00000000000628]

/-- A configuration of width 32: polynomial 1, no reflection. -/
def wideConfig : CrcConfig_t :=
  { poly := 1, polySize := 32, isInputReflected := false, isCrcReflected := false }

/-! ## Further simulated buses -/

/-- What the master does on the bus, slot by slot. -/
inductive BusEvent where
  | reset
  | write (bit : Bool)
  | read
deriving DecidableEq, Repr

/-- State of a bus that plays back recorded line levels and keeps a log of the
master's slots: the levels still to play, whether a reset finds a presence
pulse, and the log, oldest event first. -/
structure RecBus where
  levels : List Bool
  presence : Bool
  log : List BusEvent
deriving DecidableEq, Repr

/-- The logging bus: read slots return the recorded levels in order (a high
line once they are used up), every slot is appended to the log, the core timer
stands still. -/
def recordHw : Hw RecBus :=
  { configPin := fun _ b => b
    resetLevel := fun _ b => (!b.presence, { b with log := b.log ++ [BusEvent.reset] })
    readLevel := fun _ b =>
      (b.levels.headD true, { b with levels := b.levels.tail, log := b.log ++ [BusEvent.read] })
    writeSlot := fun _ bit b => { b with log := b.log ++ [BusEvent.write bit] }
    coreCount := fun b => (0, b)
    sysFreq := fun _ => 8000000 }

/-- The logging bus as the environment of the protocol layer. -/
def recordEnv (crcMax lutIdxInit : Nat) : Env RecBus :=
  { ops := recordHw, crcMax := crcMax, lutIdxInit := lutIdxInit }

/-- The protocol state on the logging bus after the driver's CRC table has been
registered, working on pin `pin` with correction offset `corr`. -/
def recordState (crcMax pin : Nat) (levels : List Bool) (presence : Bool) (corr : ℚ) :
    DsState RecBus :=
  { hw := { levels := levels, presence := presence, log := [] },
    edc := (EDC_GenerateCrcLut crcMax (EdcState.init crcMax) dallasConfig).2,
    isCrcLutGenerated := true, sysFreq := 8000000, owPinCode := pin, tempCorr := corr }

/-- The bits of the write slots in a log, in order. -/
def writtenBits : List BusEvent → List Bool
  | [] => []
  | BusEvent.write b :: es => b :: writtenBits es
  | _ :: es => writtenBits es

/-- The events of a log after its last reset. -/
def afterLastReset (log : List BusEvent) : List BusEvent :=
  (log.reverse.takeWhile (fun e => e != BusEvent.reset)).reverse

/-- A bus on which a reset finds a presence pulse but no device answers a read
slot: every read slot samples a high line.  The state is the core timer, which
advances by `tick` at every read of the counter. -/
def quietHw (tick : Nat) : Hw Nat :=
  { configPin := fun _ c => c
    resetLevel := fun _ c => (false, c)
    readLevel := fun _ c => (true, c)
    writeSlot := fun _ _ c => c
    coreCount := fun c => (c, c + tick)
    sysFreq := fun _ => 8000000 }

/-- The quiet bus as the environment of the protocol layer. -/
def quietEnv (tick : Nat) : Env Nat :=
  { ops := quietHw tick, crcMax := 1, lutIdxInit := 0 }

/-- The protocol state at power-up on the quiet bus, the counter at 0. -/
def quietStart : DsState Nat :=
  { hw := 0, edc := EdcState.init 1, isCrcLutGenerated := false,
    sysFreq := 0, owPinCode := 0, tempCorr := 0 }

/-- State of the simulated wired-AND bus with alarm flags: the devices (ROM word
and alarm flag), the ROM words still selected, the bits of the command byte
received since the reset, and place and index of the current ROM bit as in
`SimBus`. -/
structure AlarmBus where
  devices : List (Nat × Bool)
  selected : List Nat
  cmd : List Bool
  phase : Nat
  pos : Nat
deriving DecidableEq, Repr

/-- The byte whose bits, least significant first, are `bits`. -/
def byteOfBits : List Bool → Nat
  | [] => 0
  | b :: bs => (if b then 1 else 0) + 2 * byteOfBits bs

/-- The simulated bus with alarm flags.  It behaves as `simHw`, except that the
command byte, once its eighth bit has been written, decides who takes part: all
devices after the search command 0xF0, only the devices whose alarm flag is set
after the alarm-search command 0xEC, nobody after any other byte. -/
def alarmHw : Hw AlarmBus :=
  { configPin := fun _ b => b
    resetLevel := fun _ b =>
      (b.devices.isEmpty, { b with selected := [], cmd := [], phase := 0, pos := 0 })
    readLevel := fun _ b =>
      if b.cmd.length < 8 ∨ 64 ≤ b.pos then (true, b)
      else if b.phase = 0 then
        (b.selected.all (fun r => r.testBit b.pos), { b with phase := 1 })
      else if b.phase = 1 then
        (b.selected.all (fun r => !r.testBit b.pos), { b with phase := 2 })
      else (true, b)
    writeSlot := fun _ bit b =>
      if b.cmd.length < 8 then
        let cmd := b.cmd ++ [bit]
        if cmd.length = 8 then
          { b with cmd := cmd,
                   selected :=
                     if byteOfBits cmd = SEARCH_ROM_CMD then b.devices.map (fun d => d.1)
                     else if byteOfBits cmd = ALARM_SEARCH_CMD then
                       (b.devices.filter (fun d => d.2)).map (fun d => d.1)
                     else [] }
        else { b with cmd := cmd }
      else if b.phase = 2 ∧ b.pos < 64 then
        { b with selected := b.selected.filter (fun r => r.testBit b.pos == bit),
                 phase := 0, pos := b.pos + 1 }
      else b
    coreCount := fun b => (0, b)
    sysFreq := fun _ => 8000000 }

/-- The alarm bus as the environment of the protocol layer. -/
def alarmEnv : Env AlarmBus :=
  { ops := alarmHw, crcMax := 1, lutIdxInit := 0 }

/-- The protocol state at power-up on the alarm bus. -/
def alarmStart (devices : List (Nat × Bool)) : DsState AlarmBus :=
  { hw := { devices := devices, selected := [], cmd := [], phase := 0, pos := 0 },
    edc := EdcState.init 1, isCrcLutGenerated := false,
    sysFreq := 0, owPinCode := 0, tempCorr := 0 }

/-- The devices of `threeDevices`; only the one with serial number 0x002 has its
alarm flag set. -/
def threeDevicesOneAlarm : List (Nat × Bool) :=
  [(0xD300000000010028, false), (0x7000000000000228, true), (0x2900000000000128, false)]

/-- State of a bus with one device that is converting: the core timer, the
ticks gone by since the last write slot, the ticks a conversion takes (`none`
for a device that never completes), and the ticks between two reads of the
counter. -/
structure ProbeBus where
  count : Nat
  sinceWrite : Nat
  convTicks : Option Nat
  tick : Nat
deriving DecidableEq, Repr

/-- The bus of the fake-device probe: a reset finds a presence pulse; the
device holds the line low in a read slot until its conversion time has gone by
since the last write slot (the end of the convert command); time passes, by
`tick`, at every read of the counter. -/
def probeHw : Hw ProbeBus :=
  { configPin := fun _ b => b
    resetLevel := fun _ b => (false, b)
    readLevel := fun _ b =>
      (match b.convTicks with
        | none => false
        | some t => decide (t ≤ b.sinceWrite), b)
    writeSlot := fun _ _ b => { b with sinceWrite := 0 }
    coreCount := fun b =>
      (b.count % 4294967296,
        { b with count := b.count + b.tick, sinceWrite := b.sinceWrite + b.tick })
    sysFreq := fun _ => 8000000 }

/-- The probe bus as the environment of the protocol layer. -/
def probeEnv : Env ProbeBus :=
  { ops := probeHw, crcMax := 1, lutIdxInit := 0 }

/-- The protocol state on the probe bus after the driver's CRC table has been
registered, at 8 MHz, with the counter at `count`. -/
def probeState (count : Nat) (convTicks : Option Nat) (tick : Nat) : DsState ProbeBus :=
  { hw := { count := count, sinceWrite := 0, convTicks := convTicks, tick := tick },
    edc := (EDC_GenerateCrcLut 1 (EdcState.init 1) dallasConfig).2,
    isCrcLutGenerated := true, sysFreq := 8000000, owPinCode := 5, tempCorr := 0 }

/-- What a read of nine bytes returns when nothing drives the line: a
scratch-pad of nine 0xFF bytes, whose CRC is not zero. -/
def scratchPadHigh : List Nat := [0xFF, 0xFF, 0xFF, 0xFF, 0xFF, 0xFF, 0xFF, 0xFF, 0xFF]

/-- Memory at a caller's pointer `romId`: an array of the two identifiers 7 and
9, followed by the word 11 that happens to lie behind the array. -/
def twoIdsThenMemory : Nat → Nat :=
  fun i => [7, 9, 11].getD i 0

/-- The bytes of the match-ROM frames of the identifiers 7, 9 and 11: family
code, six serial bytes, CRC-8. -/
def frame7 : List Nat := [0x28, 0x07, 0x00, 0x00, 0x00, 0x00, 0x00, 0x9B]
def frame9 : List Nat := [0x28, 0x09, 0x00, 0x00, 0x00, 0x00, 0x00, 0x88]
def frame11 : List Nat := [0x28, 0x0B, 0x00, 0x00, 0x00, 0x00, 0x00, 0xE6]

/-- A device configuration with the thresholds 24 and 40, 12-bit resolution and
the identifier 7. -/
def sampleConfig : DsConfig_t :=
  { owConfig := { pinCode := 5, speedMode := 0 }, measRes := 3, deviceId := 7,
    lowAlarm := 24, highAlarm := 40 }

/-- A threshold clamped into the range the sensor represents, [-55, 127]. -/
def clampAlarm (a : Int) : Int :=
  max MIN_TEMP (min MAX_TEMP a)

/-- The sign-magnitude byte of a threshold between -127 and 127: bit 7 is the
sign, bits 0..6 the magnitude. -/
def signMagnitudeByte (a : Int) : Nat :=
  if a < 0 then 0x80 + a.natAbs else a.natAbs

/-- The value a sign-magnitude byte stands for: bits 0..6, negated when bit 7
is set. -/
def signMagnitudeValue (b : Nat) : Int :=
  if b &&& 0x80 ≠ 0 then -((b &&& 0x7F : Nat) : Int) else ((b &&& 0x7F : Nat) : Int)

/-- The simulated wired-AND bus with devices that are taken off the line: the
state carries the number of resets that still find the devices.  A reset after
that reports no presence pulse; everything else is the simulated bus. -/
def fadingHw : Hw (Nat × SimBus) :=
  { configPin := fun _ c => c
    resetLevel := fun pin c =>
      if c.1 = 0 then (true, c)
      else ((simHw.resetLevel pin c.2).1, (c.1 - 1, (simHw.resetLevel pin c.2).2))
    readLevel := fun pin c => ((simHw.readLevel pin c.2).1, (c.1, (simHw.readLevel pin c.2).2))
    writeSlot := fun pin bit c => (c.1, simHw.writeSlot pin bit c.2)
    coreCount := fun c => (0, c)
    sysFreq := fun _ => 8000000 }

/-- The bus with devices taken off the line as the environment of the protocol
layer. -/
def fadingEnv : Env (Nat × SimBus) :=
  { ops := fadingHw, crcMax := 1, lutIdxInit := 0 }

/-- The protocol state at power-up on a bus whose devices answer `resets`
resets. -/
def fadingStart (resets : Nat) (roms : List Nat) : DsState (Nat × SimBus) :=
  { hw := (resets, SimBus.idle roms), edc := EdcState.init 1, isCrcLutGenerated := false,
    sysFreq := 0, owPinCode := 0, tempCorr := 0 }

/-! ## The search on the simulated bus, pass by pass -/

/-- The value `nextBit` takes in one iteration of the bit loop of `SearchDevice`,
from the two bits read. -/
def searchNextBit (lastDiscrepancy : Int) (prevId romBitIdx romBit romCmpBit : Nat) : Nat :=
  if romBit = romCmpBit ∧ romBit = 0 then
    if (romBitIdx : Int) = lastDiscrepancy then 1
    else if (romBitIdx : Int) > lastDiscrepancy then 0
    else if prevId &&& intToU64 (shl32 1 romBitIdx) > 0 then 1 else 0
  else romBit

/-- The simulated bus right after a reset: all devices selected, the command
byte still to come. -/
def simAfterReset (roms : List Nat) : SimBus :=
  { roms := roms, selected := roms, cmdLeft := 8, phase := 0, pos := 0 }

/-- The simulated bus after the command byte: the first ROM bit is read next. -/
def simAtFirstBit (roms : List Nat) : SimBus :=
  { roms := roms, selected := roms, cmdLeft := 0, phase := 0, pos := 0 }

/-- A simulated bus on which every read slot returns a high level until the
next reset: the command byte is over, and either all 64 ROM bits are done or no
device is selected. -/
def SimBus.Silent (b : SimBus) : Prop :=
  b.cmdLeft = 0 ∧ (64 ≤ b.pos ∨ b.selected = [])

/-- One pass over the 64 ROM bits on the simulated bus after a reset and the
command byte, with the values `lastDiscrepancy` and `romIdBuff[deviceCount - 1]`
in `x`. -/
def simPass (roms : List Nat) (pinCode : Nat) (x : Int × Nat) : PassResult SimBus :=
  searchBits simHw pinCode x.1 x.2 64 0 0 (-1) false (simAtFirstBit roms)

/-- The values of `lastDiscrepancy` and of the buffer entry last stored after a
pass that was accepted. -/
def simNext (roms : List Nat) (pinCode : Nat) (x : Int × Nat) : Int × Nat :=
  ((simPass roms pinCode x).lastZero,
    ((simPass roms pinCode x).romData >>> 8) &&& 0xFFFFFFFFFFFF)

/-! ## The search loop, pass by pass -/

/-- The command byte `searchCmd` of `SearchDevice`. -/
def searchCmdOf (searchMode : SearchMode_t) : Nat :=
  if searchMode = SearchMode_t.SEARCH_DEVICE_ID then SEARCH_ROM_CMD else ALARM_SEARCH_CMD

/-- What `SearchDevice` enters its loop with, once the pin check, the table
generation and the first reset are behind it: `timeout`, the protocol state with
`statVar` updated, the loop variables, and the hardware state. -/
def searchInit {σ : Type} (env : Env σ) (st : DsState σ) (pinCode : Nat)
    (romIdBuff : Nat → Nat) : Nat × DsState σ × SearchVars × σ :=
  let g := GenerateCrcLut env st
  let r := OW_Reset env.ops pinCode (OW_ConfigBus env.ops pinCode g.2.hw)
  let sysFreq := env.ops.sysFreq r.2 % 4294967296
  let delay := (DS_CONV_TEMP_TIMEOUT_MS * (sysFreq / 1000 / 2)) % 4294967296
  let c := env.ops.coreCount r.2
  ((c.1 % 4294967296 + delay) % 4294967296,
    { g.2 with owPinCode := pinCode, sysFreq := sysFreq },
    { romIdBuff := romIdBuff, deviceCount := 0, lastDiscrepancy := -1,
      isLastDevice := false, isResetSearch := false, repeatSearchCount := 0,
      accepted := [] },
    c.2)

/-- The loop variables and the hardware state at the start of pass `k + 1`:
`k` passes have reached the loop condition and found it true.  The result is
`none` when the loop has ended before. -/
def loopAfter {σ : Type} (env : Env σ) (pinCode searchCmd timeout : Nat) (st : DsState σ) :
    Nat → SearchVars → σ → Option (SearchVars × σ)
  | 0, v, s => some (v, s)
  | k + 1, v, s =>
    match searchPass env pinCode searchCmd st v s with
    | PassOutcome.atCondition v1 s1 =>
      let c := searchCond env timeout v1 s1
      if c.1 then loopAfter env pinCode searchCmd timeout st k v1 c.2 else none
    | _ => none

/-- The candidate of a pass is accepted: family code in the low byte, no
missing presence during the pass, CRC zero. -/
def PassAccepted {σ : Type} (env : Env σ) (st : DsState σ) (p : PassResult σ) : Prop :=
  p.romData &&& 0xFF = DS18B20_FAMILY_CODE ∧ p.isResetSearch = false ∧
    EDC_CalculateCrc env.crcMax st.edc env.lutIdxInit CRC_POLY_CODE
      (some (bytesLE p.romData 8)) 8 = some 0

/-! ### ds18b20.c: conversion and EEPROM commands -/

/-- `RomMode_t`. -/
inductive RomMode_t where
  | SAVE_ROM_MODE
  | COPY_ROM_MODE
deriving DecidableEq, Repr

/-- `DS18B20_IsConvDone`: one read slot; the flag and the hardware state left. -/
def DS18B20_IsConvDone {σ : Type} (env : Env σ) (st : DsState σ) (s : σ) : Bool × σ :=
  let b := OW_ReadBit env.ops st.owPinCode s
  if b.1 = 0 then (false, b.2) else (true, b.2)

/-- `DS18B20_ConvertTemp`.  `romId = none` is a null pointer; the second check
dereferences `romId` before it tests it, so the result is then undefined. -/
def DS18B20_ConvertTemp {σ : Type} (env : Env σ) (st : DsState σ) (romId : Option (Nat → Nat))
    (deviceCount : Nat) : Option (Bool × DsState σ) :=
  if deviceCount = 0 then some (false, st)
  else
    match romId with
    | none => none
    | some rom =>
      if rom 0 = 0 ∧ deviceCount = 1 then some (false, st)
      else
        let r := OW_Reset env.ops st.owPinCode st.hw
        if !r.1 then some (false, { st with hw := r.2 })
        else if deviceCount = 1 then
          match romFrame env st.edc (rom 0) with
          | none => none
          | some romData =>
            let s1 := OW_WriteByte env.ops st.owPinCode MATCH_ROM_CMD r.2
            let s2 := OW_WriteMultiByte env.ops st.owPinCode (bytesLE romData 8) 8 s1
            let s3 := OW_WriteByte env.ops st.owPinCode CONV_TEMP_CMD s2
            some (true, { st with hw := s3 })
        else
          let s1 := OW_WriteByte env.ops st.owPinCode SKIP_ROM_CMD r.2
          let s3 := OW_WriteByte env.ops st.owPinCode CONV_TEMP_CMD s1
          some (true, { st with hw := s3 })

/-- The loop `while (!DS18B20_IsConvDone() && (timeout > _CP0_GET_COUNT()));` of
`DS18B20_ConvertReadTemp`: the hardware state when the loop is left, `none` when
`fuel` polls do not suffice.  The counter is read only after a poll that found
the conversion not done. -/
def convPoll {σ : Type} (env : Env σ) (st : DsState σ) (timeout : Nat) : Nat → σ → Option σ
  | 0, _ => none
  | fuel + 1, s =>
    let d := DS18B20_IsConvDone env st s
    if !d.1 then
      let c := env.ops.coreCount d.2
      if timeout > c.1 % 4294967296 then convPoll env st timeout fuel c.2 else some c.2
    else some d.2

/-- `DS18B20_ConvertReadTemp`.  `deviceCount` is a `uint8_t`; the other arguments
are those of `DS18B20_ReadTemp`, `fuel` bounds the polls. -/
def DS18B20_ConvertReadTemp {σ : Type} (env : Env σ) (fuel : Nat) (st : DsState σ)
    (romId : Option (Nat → Nat)) (dataBuffNull : Bool) (deviceCount : Nat)
    (rxInit : Nat → List Nat) : Option (Bool × List ℚ × DsState σ) :=
  match romId with
  | none => some (false, [], st)
  | some _ =>
    match DS18B20_ConvertTemp env st romId (deviceCount % 256) with
    | none => none
    | some (ok, st1) =>
      if !ok then some (false, [], st1)
      else
        let sysFreq := if st1.sysFreq = 0 then 8000000 else st1.sysFreq
        let st2 : DsState σ := { st1 with sysFreq := sysFreq }
        let delay := (DS_CONV_TEMP_TIMEOUT_MS * (sysFreq / 1000 / 2)) % 4294967296
        let c := env.ops.coreCount st2.hw
        let timeout := (c.1 % 4294967296 + delay) % 4294967296
        match convPoll env st2 timeout fuel c.2 with
        | none => none
        | some s3 =>
          let c2 := env.ops.coreCount s3
          if timeout < c2.1 % 4294967296 then some (false, [], { st2 with hw := c2.2 })
          else
            DS18B20_ReadTemp env { st2 with hw := c2.2 } romId dataBuffNull (deviceCount % 256)
              rxInit

/-- The loop `while (!OW_ReadBit(pin) && (timeout > _CP0_GET_COUNT()));` of
`SaveCopyRom`. -/
def savePoll {σ : Type} (hw : Hw σ) (pinCode timeout : Nat) : Nat → σ → Option σ
  | 0, _ => none
  | fuel + 1, s =>
    let b := OW_ReadBit hw pinCode s
    if b.1 = 0 then
      let c := hw.coreCount b.2
      if timeout > c.1 % 4294967296 then savePoll hw pinCode timeout fuel c.2 else some c.2
    else some b.2

/-- `SaveCopyRom`.  `romId = none` is a null pointer, which the first check
dereferences.  The second operand of that check is the assignment
`isMultiMode = false`: it is evaluated only when `*romId == 0`, it then clears the
parameter, and its value is `false`; `a.1` is the value of the whole condition
and `a.2` the parameter after it. -/
def SaveCopyRom {σ : Type} (env : Env σ) (fuel : Nat) (st : DsState σ)
    (romId : Option (Nat → Nat)) (isMultiMode : Bool) (romMode : RomMode_t) :
    Option (Bool × DsState σ) :=
  match romId with
  | none => none
  | some rom =>
    let a : Bool × Bool := if rom 0 = 0 then (false, false) else (false, isMultiMode)
    if a.1 then some (false, st)
    else
      let r := OW_Reset env.ops st.owPinCode st.hw
      if !r.1 then some (false, { st with hw := r.2 })
      else
        let addressed : Option σ :=
          if a.2 = true then some (OW_WriteByte env.ops st.owPinCode SKIP_ROM_CMD r.2)
          else
            match romFrame env st.edc (rom 0) with
            | none => none
            | some romData =>
              some (OW_WriteMultiByte env.ops st.owPinCode (bytesLE romData 8) 8
                (OW_WriteByte env.ops st.owPinCode MATCH_ROM_CMD r.2))
        match addressed with
        | none => none
        | some s1 =>
          let s2 :=
            if romMode = RomMode_t.SAVE_ROM_MODE then
              OW_WriteByte env.ops st.owPinCode COPY_MEM_CMD s1
            else OW_WriteByte env.ops st.owPinCode RECALL_EEPROM_CMD s1
          let sysFreq := if st.sysFreq = 0 then 8000000 else st.sysFreq
          let delay := (DS_SAVE_COPY_ROM_TIMEOUT_MS * (sysFreq / 1000 / 2)) % 4294967296
          let c := env.ops.coreCount s2
          let timeout := (c.1 % 4294967296 + delay) % 4294967296
          match savePoll env.ops st.owPinCode timeout fuel c.2 with
          | none => none
          | some s3 =>
            let c2 := env.ops.coreCount s3
            if timeout < c2.1 % 4294967296 then
              some (false, { st with hw := c2.2, sysFreq := sysFreq })
            else some (true, { st with hw := c2.2, sysFreq := sysFreq })

/-- `DS18B20_SaveToRom`. -/
def DS18B20_SaveToRom {σ : Type} (env : Env σ) (fuel : Nat) (st : DsState σ)
    (romId : Option (Nat → Nat)) (isMultiMode : Bool) : Option (Bool × DsState σ) :=
  SaveCopyRom env fuel st romId isMultiMode RomMode_t.SAVE_ROM_MODE

/-- `DS18B20_CopyFromRom`. -/
def DS18B20_CopyFromRom {σ : Type} (env : Env σ) (fuel : Nat) (st : DsState σ)
    (romId : Option (Nat → Nat)) (isMultiMode : Bool) : Option (Bool × DsState σ) :=
  SaveCopyRom env fuel st romId isMultiMode RomMode_t.COPY_ROM_MODE

/-- The bytes of the match-ROM frame of the identifier 0. -/
def frame0 : List Nat := [0x28, 0x00, 0x00, 0x00, 0x00, 0x00, 0x00, 0x1E]

/-! ## The bit-serial CRC-16 of the specification -/

/-- One message bit shifted into a 16-bit register, most significant bit first,
for the generator `x^16 + P`: the register moves left by one place, and `P` is
added when the bit moved out differs from the message bit. -/
def crc16Bit (P : Nat) (crc : Nat) (bit : Bool) : Nat :=
  let out := (crc >>> 15) &&& 1 != 0
  let moved := (crc <<< 1) &&& 0xFFFF
  if out != bit then moved ^^^ (P &&& 0xFFFF) else moved

/-- One message byte, bit 7 first. -/
def crc16Byte (P : Nat) (crc : Nat) (byte : Nat) : Nat :=
  ([7, 6, 5, 4, 3, 2, 1, 0].map (fun i => byte.testBit i)).foldl (crc16Bit P) crc

/-- The bit-serial CRC-16 with generator `x^16 + P`, initial value 0 and no
final XOR, over the bytes of `data`. -/
def crc16Serial (P : Nat) (data : List Nat) : Nat :=
  data.foldl (crc16Byte P) 0

/-- A configuration of width 16 with the polynomial 0x1021, no reflection. -/
def xmodemConfig : CrcConfig_t :=
  { poly := 0x1021, polySize := 16, isInputReflected := false, isCrcReflected := false }

/-- The configuration of width 16 with the polynomial 0x21, no reflection. -/
def lowByteConfig : CrcConfig_t :=
  { poly := 0x21, polySize := 16, isInputReflected := false, isCrcReflected := false }

/-! ## OneWire.c at the level of pin operations and interrupt control -/

namespace Pins

/-- The delay table `owDelay`. -/
structure OwDelay where
  a : Nat
  b : Nat
  c : Nat
  d : Nat
  e : Nat
  f : Nat
  g : Nat
  h : Nat
  i : Nat
  j : Nat
deriving DecidableEq, Repr

/-- Modelled from the spec: the calls `OneWire.c` makes to collaborators that are
not among the sources, as events: `PIO_ClearPin`, `PIO_ConfigGpioPinDir` (to
output: the line is driven low; to input: the line is released), `PIO_ReadPin`
(the line is sampled), `TMR_DelayUs`, and the three calls of the interrupt
controller. -/
inductive Event where
  | clearPin (pin : Nat)
  | configDir (pin : Nat) (output : Bool)
  | readPin (pin : Nat)
  | delayUs (us : Nat)
  | getInterruptState
  | disableInterrupts
  | setInterruptState (enabled : Bool)
deriving DecidableEq, Repr

/-- The events that are pin operations. -/
def Event.isPinOp : Event → Bool
  | Event.clearPin _ => true
  | Event.configDir _ _ => true
  | Event.readPin _ => true
  | _ => false

/-- Modelled from the spec: the machine `OneWire.c` runs on.  `intr` tells
whether interrupts are enabled, `levels` are the line levels the coming samples
find, and `trace` lists the events so far, each with the value `intr` had when
it happened. -/
structure Machine where
  intr : Bool
  owDelay : OwDelay
  levels : List Bool
  trace : List (Event × Bool)
deriving DecidableEq, Repr

/-- The event `e` happens. -/
def emit (e : Event) (m : Machine) : Machine :=
  { m with trace := m.trace ++ [(e, m.intr)] }

/-- Modelled from the spec: `IC_GetInterruptState` returns whether interrupts
are enabled. -/
def IC_GetInterruptState (m : Machine) : Bool × Machine :=
  (m.intr, emit Event.getInterruptState m)

/-- Modelled from the spec: `IC_DisableInterrupts`. -/
def IC_DisableInterrupts (m : Machine) : Machine :=
  { emit Event.disableInterrupts m with intr := false }

/-- Modelled from the spec: `IC_SetInterruptState` restores the saved state. -/
def IC_SetInterruptState (s : Bool) (m : Machine) : Machine :=
  { emit (Event.setInterruptState s) m with intr := s }

/-- Modelled from the spec: `PIO_ClearPin`. -/
def PIO_ClearPin (pin : Nat) (m : Machine) : Machine :=
  emit (Event.clearPin pin) m

/-- Modelled from the spec: `PIO_ConfigGpioPinDir`. -/
def PIO_ConfigGpioPinDir (pin : Nat) (output : Bool) (m : Machine) : Machine :=
  emit (Event.configDir pin output) m

/-- Modelled from the spec: `PIO_ReadPin` returns the sampled level. -/
def PIO_ReadPin (pin : Nat) (m : Machine) : Nat × Machine :=
  (pinVal (m.levels.headD true), { emit (Event.readPin pin) m with levels := m.levels.tail })

/-- Modelled from the spec: `TMR_DelayUs`. -/
def TMR_DelayUs (us : Nat) (m : Machine) : Machine :=
  emit (Event.delayUs us) m

/-- `SetBit`. -/
def SetBit (pin : Nat) (m : Machine) : Machine :=
  let m1 := PIO_ClearPin pin m
  let m2 := PIO_ConfigGpioPinDir pin true m1
  let m3 := TMR_DelayUs m2.owDelay.a m2
  let m4 := PIO_ConfigGpioPinDir pin false m3
  TMR_DelayUs m4.owDelay.b m4

/-- `ClearBit`. -/
def ClearBit (pin : Nat) (m : Machine) : Machine :=
  let m1 := PIO_ClearPin pin m
  let m2 := PIO_ConfigGpioPinDir pin true m1
  let m3 := TMR_DelayUs m2.owDelay.c m2
  let m4 := PIO_ConfigGpioPinDir pin false m3
  TMR_DelayUs m4.owDelay.d m4

/-- `ReadBit`. -/
def ReadBit (pin : Nat) (m : Machine) : Nat × Machine :=
  let m1 := PIO_ClearPin pin m
  let m2 := PIO_ConfigGpioPinDir pin true m1
  let m3 := TMR_DelayUs m2.owDelay.a m2
  let m4 := PIO_ConfigGpioPinDir pin false m3
  let m5 := TMR_DelayUs m4.owDelay.e m4
  let r := PIO_ReadPin pin m5
  (r.1, TMR_DelayUs r.2.owDelay.f r.2)

/-- `Reset`. -/
def Reset (pin : Nat) (m : Machine) : Nat × Machine :=
  let g := IC_GetInterruptState m
  let m0 := IC_DisableInterrupts g.2
  let m1 := PIO_ClearPin pin m0
  let m2 := PIO_ConfigGpioPinDir pin true m1
  let m3 := TMR_DelayUs m2.owDelay.h m2
  let m4 := PIO_ConfigGpioPinDir pin false m3
  let m5 := TMR_DelayUs m4.owDelay.i m4
  let r := PIO_ReadPin pin m5
  let m6 := TMR_DelayUs r.2.owDelay.j r.2
  (r.1, IC_SetInterruptState g.1 m6)

/-- `OW_Reset`. -/
def OW_Reset (pin : Nat) (m : Machine) : Bool × Machine :=
  let r := Reset pin m
  (r.1 == 0, r.2)

/-- The slot `(bit & 0x01) ? SetBit(pinCode) : ClearBit(pinCode)`. -/
def writeSlot (pin bit : Nat) (m : Machine) : Machine :=
  if bit &&& 0x01 ≠ 0 then SetBit pin m else ClearBit pin m

/-- `OW_WriteBit`. -/
def OW_WriteBit (pin dataBit : Nat) (m : Machine) : Machine :=
  let g := IC_GetInterruptState m
  let m0 := IC_DisableInterrupts g.2
  let m1 := writeSlot pin dataBit m0
  IC_SetInterruptState g.1 m1

/-- `OW_ReadBit`: `return ReadBit(pinCode);`. -/
def OW_ReadBit (pin : Nat) (m : Machine) : Nat × Machine :=
  ReadBit pin m

/-- The bit loop of `OW_WriteByte` and `OW_WriteMultiByte`: `k` slots left,
starting at bit `idx`. -/
def writeBits (pin dataByte : Nat) : Nat → Nat → Machine → Machine
  | 0, _, m => m
  | k + 1, idx, m => writeBits pin dataByte k (idx + 1) (writeSlot pin (dataByte >>> idx) m)

/-- `OW_WriteByte`. -/
def OW_WriteByte (pin dataByte : Nat) (m : Machine) : Machine :=
  let g := IC_GetInterruptState m
  let m0 := IC_DisableInterrupts g.2
  let m1 := writeBits pin (dataByte % 256) 8 0 m0
  IC_SetInterruptState g.1 m1

/-- The byte loop of `OW_WriteMultiByte`. -/
def writeAll (pin : Nat) : List Nat → Machine → Machine
  | [], m => m
  | b :: bs, m => writeAll pin bs (writeBits pin (b % 256) 8 0 m)

/-- `OW_WriteMultiByte`; `mem` are the bytes at `dataPtr`, `dataLen` is a
`uint8_t`. -/
def OW_WriteMultiByte (pin : Nat) (mem : List Nat) (dataLen : Nat) (m : Machine) : Machine :=
  let g := IC_GetInterruptState m
  let m0 := IC_DisableInterrupts g.2
  let m1 := writeAll pin (mem.take (dataLen % 256)) m0
  IC_SetInterruptState g.1 m1

/-- The bit loop of `OW_ReadByte` and `OW_ReadMultiByte`. -/
def readBits (pin : Nat) : Nat → Nat → Nat → Machine → Nat × Machine
  | 0, _, acc, m => (acc, m)
  | k + 1, idx, acc, m =>
    let r := ReadBit pin m
    readBits pin k (idx + 1) ((acc ||| (r.1 <<< idx)) % 256) r.2

/-- `OW_ReadByte`; `dataPtrNull` tells whether `dataPtr` is null.  The result is
the byte stored, if any. -/
def OW_ReadByte (pin : Nat) (dataPtrNull : Bool) (m : Machine) : Option Nat × Machine :=
  let g := IC_GetInterruptState m
  let m0 := IC_DisableInterrupts g.2
  if dataPtrNull then (none, IC_SetInterruptState g.1 m0)
  else
    let r := readBits pin 8 0 0x00 m0
    (some r.1, IC_SetInterruptState g.1 r.2)

/-- The byte loop of `OW_ReadMultiByte`. -/
def readAll (pin : Nat) : Nat → Machine → List Nat × Machine
  | 0, m => ([], m)
  | k + 1, m =>
    let r := readBits pin 8 0 0x00 m
    let rest := readAll pin k r.2
    (r.1 :: rest.1, rest.2)

/-- `OW_ReadMultiByte`. -/
def OW_ReadMultiByte (pin : Nat) (dataPtrNull : Bool) (dataLen : Nat) (m : Machine) :
    List Nat × Machine :=
  let g := IC_GetInterruptState m
  let m0 := IC_DisableInterrupts g.2
  if dataPtrNull then ([], IC_SetInterruptState g.1 m0)
  else
    let r := readAll pin (dataLen % 256) m0
    (r.1, IC_SetInterruptState g.1 r.2)

/-- The delay table `OW_ConfigSpeedMode` sets for `OW_STANDARD_SPEED`. -/
def standardDelay : OwDelay :=
  { a := 6, b := 64, c := 60, d := 10, e := 9, f := 55, g := 0, h := 480, i := 70, j := 410 }

/-- A machine with interrupts enabled, the standard delays, an idle line and no
events yet. -/
def idle : Machine :=
  { intr := true, owDelay := standardDelay, levels := [], trace := [] }

/-- Every pin operation in `events` happened with interrupts disabled. -/
def Guarded (events : List (Event × Bool)) : Prop :=
  ∀ x ∈ events, x.1.isPinOp = true → x.2 = false

/-- From `m` to `m1` the interrupt state does not change: the events added
all happened in the interrupt state of `m`, which is also that of `m1`. -/
def Steady (m m1 : Machine) : Prop :=
  m1.intr = m.intr ∧ ∃ added, m1.trace = m.trace ++ added ∧ ∀ x ∈ added, x.2 = m.intr

/-- What the claim asks of a primitive that takes the machine from `m` to `m1`:
every pin operation it adds to the trace happened with interrupts disabled, and
the interrupt state on exit is the one on entry. -/
def Bracketed (m m1 : Machine) : Prop :=
  m1.intr = m.intr ∧ ∃ added, m1.trace = m.trace ++ added ∧ Guarded added

end Pins

/-! ## A bus stuck low -/

/-- The line levels of one conversion-done slot that finds the line high, two
scratch-pads of nine bytes 0xFF and 256 scratch-pads of nine zero bytes; after
them the replaying bus returns a high line, that is bytes 0xFF. -/
def wrapLevels : List Bool :=
  true :: (List.replicate 144 true ++ List.replicate (256 * 72) false)

/-! ## The bit-serial CRC-8 and the polynomial division of the specification -/

/-- One message bit shifted into an 8-bit register, most significant bit first,
for the generator `x^8 + P`: the register moves left by one place, and `P` is
added when the bit moved out differs from the message bit. -/
def crc8Bit (P : Nat) (crc : Nat) (bit : Bool) : Nat :=
  let out := (crc >>> 7) &&& 1 != 0
  let moved := (crc <<< 1) &&& 0xFF
  if out != bit then moved ^^^ (P &&& 0xFF) else moved

/-- One message byte, bit 7 first. -/
def crc8Byte (P : Nat) (crc : Nat) (byte : Nat) : Nat :=
  ([7, 6, 5, 4, 3, 2, 1, 0].map (fun i => byte.testBit i)).foldl (crc8Bit P) crc

/-- The bit-serial CRC-8 with generator `x^8 + P`, initial value 0 and no final
XOR, over the bytes of `data`. -/
def crc8Serial (P : Nat) (data : List Nat) : Nat :=
  data.foldl (crc8Byte P) 0

/-- Bit reversal of an 8-bit value, bit `i` going to bit `7 - i`. -/
def reverse8 (x : Nat) : Nat :=
  (List.range 8).foldl (fun acc i => if x.testBit i then acc ||| (1 <<< (7 - i)) else acc) 0

/-- The CRC-8 of the specification: the bit-serial CRC over the input bytes,
each bit-reversed when input reflection is configured, with the result
bit-reversed when output reflection is configured. -/
def crc8Spec (P : Nat) (isInputRefl isCrcRefl : Bool) (data : List Nat) : Nat :=
  let r := crc8Serial P (data.map (fun b => if isInputRefl then reverse8 (b % 256) else b % 256))
  if isCrcRefl then reverse8 r else r

/-- Product over GF(2) of the polynomial whose coefficients are the `k` low bits
of `a` and the polynomial `b`: the sum (XOR) of `b * x^i` over the set bits `i`
of `a`. -/
def gf2Mul (a b : Nat) : Nat → Nat
  | 0 => 0
  | k + 1 => (if a.testBit k then b <<< k else 0) ^^^ gf2Mul a b k

/-- Remainder over GF(2) of the polynomial `a` of degree below `d + k` modulo
the polynomial `m` of degree `d`, by long division: the terms `x^(d+k-1)` down
to `x^d` are cancelled in turn by adding `m * x^j`. -/
def gf2Mod (m d : Nat) : Nat → Nat → Nat
  | 0, a => a
  | k + 1, a => gf2Mod m d k (if a.testBit (d + k) then a ^^^ (m <<< k) else a)

/-- The quotient of the same long division. -/
def gf2Div (m d : Nat) : Nat → Nat → Nat
  | 0, _ => 0
  | k + 1, a =>
    if a.testBit (d + k) then (1 <<< k) ||| gf2Div m d k (a ^^^ (m <<< k))
    else gf2Div m d k a

/-- The `k` message bits that `crc8Byte` takes first, read at the top of a byte
that moves left by one place per bit. -/
def topBits (y : Nat) : Nat → List Bool
  | 0 => []
  | k + 1 => y.testBit 7 :: topBits ((y <<< 1) &&& 0xFF) k

/-- A configuration of width 8 with the polynomial 0x07, no reflection. -/
def smbusConfig : CrcConfig_t :=
  { poly := 0x07, polySize := 8, isInputReflected := false, isCrcReflected := false }

/-! ## The simulated bus inside a pass -/

/-- The simulated bus right before ROM bit `idx` is read, with the devices `sel`
still selected. -/
def simAt (roms sel : List Nat) (idx : Nat) : SimBus :=
  { roms := roms, selected := sel, cmdLeft := 0, phase := 0, pos := idx }

/-- The first position at which two ROM words differ, searched among the `k`
positions from `idx` on; `idx + k` when there is none. -/
def firstDiff (a b : Nat) : Nat → Nat → Nat
  | 0, idx => idx
  | k + 1, idx => if a.testBit idx != b.testBit idx then idx else firstDiff a b k (idx + 1)

/-- The 48-bit serial number in bits 8..55 of a ROM word. -/
def serialOf (r : Nat) : Nat :=
  (r >>> 8) &&& 0xFFFFFFFFFFFF

/-- A valid ROM word: 64 bits with the family byte 0x28 in the low byte and with
CRC-8 zero (generator `x^8 + x^5 + x^4 + 1`, input and output reflected) over
its eight bytes, least significant byte first. -/
def ValidRom (r : Nat) : Prop :=
  r < 2 ^ 64 ∧ r &&& 0xFF = 0x28 ∧ crc8Spec 0x31 true true (bytesLE r 8) = 0

/-- The loop variables `SearchDevice` starts with. -/
def searchVars0 (romIdBuff : Nat → Nat) : SearchVars :=
  { romIdBuff := romIdBuff, deviceCount := 0, lastDiscrepancy := -1, isLastDevice := false,
    isResetSearch := false, repeatSearchCount := 0, accepted := [] }

/-! ## Theorems -/

/-! ### The scan loop -/

theorem scanFrom_some {p : Nat → Bool} :
    ∀ (k i j : Nat), scanFrom p k i = some j →
      i ≤ j ∧ j < i + k ∧ p j = true ∧ ∀ l, i ≤ l → l < j → p l = false := by
  intro k
  induction k with
  | zero => intro i j h; simp [scanFrom] at h
  | succ k ih =>
    intro i j h
    unfold scanFrom at h
    by_cases hp : p i = true
    · simp only [hp, if_true, Option.some.injEq] at h
      subst h
      exact ⟨le_refl _, by omega, hp, fun l h1 h2 => by omega⟩
    · simp only [hp] at h
      obtain ⟨h1, h2, h3, h4⟩ := ih (i + 1) j h
      refine ⟨by omega, by omega, h3, ?_⟩
      intro l hl1 hl2
      by_cases hli : l = i
      · subst hli; simpa using hp
      · exact h4 l (by omega) hl2

theorem scanFrom_none {p : Nat → Bool} :
    ∀ (k i : Nat), scanFrom p k i = none → ∀ l, i ≤ l → l < i + k → p l = false := by
  intro k
  induction k with
  | zero => intro i _ l h1 h2; omega
  | succ k ih =>
    intro i h l h1 h2
    unfold scanFrom at h
    by_cases hp : p i = true
    · simp [hp] at h
    · simp only [hp] at h
      by_cases hli : l = i
      · subst hli; simpa using hp
      · exact ih (i + 1) h l (by omega) (by omega)

theorem scanFrom_first {p : Nat → Bool} :
    ∀ (k i j : Nat), i ≤ j → j < i + k → p j = true →
      (∀ l, i ≤ l → l < j → p l = false) → scanFrom p k i = some j := by
  intro k
  induction k with
  | zero => intro i j h1 h2; omega
  | succ k ih =>
    intro i j h1 h2 hp hl
    unfold scanFrom
    by_cases hij : i = j
    · subst hij; simp [hp]
    · have : p i = false := hl i (le_refl _) (by omega)
      simp only [this]
      exact ih (i + 1) j (by omega) (by omega) hp (fun l a b => hl l (by omega) b)

/-! ### The registry -/

theorem getD_set_self {α : Type} (l : List α) (i : Nat) (a d : α) (h : i < l.length) :
    (l.set i a).getD i d = a := by
  simp [List.getD_eq_getElem?_getD, List.getElem?_set, h]

theorem getD_set_other {α : Type} (l : List α) (i j : Nat) (a d : α) (h : i ≠ j) :
    (l.set i a).getD j d = l.getD j d := by
  simp [List.getD_eq_getElem?_getD, List.getElem?_set, h]

theorem generate_fail (n : Nat) (st : EdcState) (cfg : CrcConfig_t)
    (h : (EDC_GenerateCrcLut n st cfg).1 = false) : (EDC_GenerateCrcLut n st cfg).2 = st := by
  unfold EDC_GenerateCrcLut at h ⊢
  simp only at h ⊢
  split_ifs at h ⊢ <;> simp_all

theorem generate_ok (n : Nat) (st : EdcState) (cfg : CrcConfig_t)
    (h : (EDC_GenerateCrcLut n st cfg).1 = true) :
    cfg.poly % 256 ≠ 0 ∧
      (cfg.polySize % 256 = 8 ∨ cfg.polySize % 256 = 16 ∨ cfg.polySize % 256 = 32) ∧
      (∀ idx, idx < n → st.idAt idx 0 ≠ cfg.poly % 256) ∧
      st.deviceIdx < n ∧
      (EDC_GenerateCrcLut n st cfg).2 =
        { crcLutId := st.crcLutId.set st.deviceIdx
            [cfg.poly % 256, cfg.polySize % 256, flagVal cfg.isInputReflected,
              flagVal cfg.isCrcReflected]
          crcLut := st.crcLut.set st.deviceIdx (crcLutRow (cfg.poly % 256) (cfg.polySize % 256))
          deviceIdx := st.deviceIdx + 1 } := by
  unfold EDC_GenerateCrcLut at h ⊢
  simp only at h ⊢
  split_ifs at h ⊢ with h1 h2 h3 h4
  · refine ⟨h1, by omega, ?_, by omega, rfl⟩
    intro idx hidx heq
    have hnone : scanFrom (fun idx => cfg.poly % 256 == st.idAt idx 0) n 0 = none := by
      cases hs : scanFrom (fun idx => cfg.poly % 256 == st.idAt idx 0) n 0 with
      | none => rfl
      | some v => simp [hs] at h3
    have := scanFrom_none n 0 hnone idx (Nat.zero_le _) (by omega)
    simp [heq] at this

theorem init_wf (n : Nat) : (EdcState.init n).WF n := by
  refine ⟨by simp [EdcState.init], by simp [EdcState.init], by simp [EdcState.init], ?_, ?_, ?_⟩
  · intro i hi; simp [EdcState.init] at hi
  · intro i _
    simp only [EdcState.idAt, EdcState.init, List.getD_eq_getElem?_getD]
    by_cases hi : i < n
    · simp [List.getElem?_replicate, hi]
    · simp [List.getElem?_replicate, hi]
  · intro i j hi; simp [EdcState.init] at hi

theorem idAt_generate (n : Nat) (st : EdcState) (cfg : CrcConfig_t) (hwf : st.WF n)
    (h : (EDC_GenerateCrcLut n st cfg).1 = true) (i : Nat) :
    (EDC_GenerateCrcLut n st cfg).2.idAt i 0 =
      if i = st.deviceIdx then cfg.poly % 256 else st.idAt i 0 := by
  obtain ⟨_, _, _, hlt, heq⟩ := generate_ok n st cfg h
  rw [heq]
  by_cases hi : i = st.deviceIdx
  · subst hi
    simp only [EdcState.idAt, if_true]
    rw [getD_set_self _ _ _ _ (by rw [hwf.lenId]; exact hlt)]
    rfl
  · simp only [EdcState.idAt, if_neg hi]
    rw [getD_set_other _ _ _ _ _ (Ne.symm hi)]

theorem generate_wf (n : Nat) (st : EdcState) (cfg : CrcConfig_t) (hwf : st.WF n) :
    (EDC_GenerateCrcLut n st cfg).2.WF n := by
  cases hres : (EDC_GenerateCrcLut n st cfg).1 with
  | false => rw [generate_fail n st cfg hres]; exact hwf
  | true =>
    have hid := idAt_generate n st cfg hwf hres
    obtain ⟨hp, _, hnd, hlt, heq⟩ := generate_ok n st cfg hres
    have hdev : (EDC_GenerateCrcLut n st cfg).2.deviceIdx = st.deviceIdx + 1 := by rw [heq]
    refine ⟨?_, ?_, ?_, ?_, ?_, ?_⟩
    · rw [heq]; simp [hwf.lenId]
    · rw [heq]; simp [hwf.lenLut]
    · rw [hdev]; omega
    · intro i hi
      rw [hdev] at hi
      rw [hid i]
      split_ifs with h1
      · exact hp
      · exact hwf.used i (by omega)
    · intro i hi
      rw [hdev] at hi
      rw [hid i, if_neg (by omega)]
      exact hwf.unused i (by omega)
    · intro i j hi hj hij
      rw [hdev] at hi hj
      rw [hid i, hid j] at hij
      split_ifs at hij with h1 h2 h2
      · omega
      · exact absurd hij.symm (hnd j (by omega))
      · exact absurd hij (hnd i (by omega))
      · exact hwf.inj i j (by omega) (by omega) hij

theorem runGenerate_wf (n : Nat) (cfgs : List CrcConfig_t) :
    ∀ st : EdcState, st.WF n → (runGenerate n st cfgs).WF n := by
  induction cfgs with
  | nil => intro st h; exact h
  | cons c cs ih =>
    intro st h
    exact ih _ (generate_wf n st c h)

theorem generate_holds_new (n : Nat) (st : EdcState) (cfg : CrcConfig_t) (hwf : st.WF n)
    (h : (EDC_GenerateCrcLut n st cfg).1 = true) :
    (EDC_GenerateCrcLut n st cfg).2.Holds st.deviceIdx cfg := by
  obtain ⟨_, _, _, hlt, heq⟩ := generate_ok n st cfg h
  rw [heq]
  constructor
  · exact getD_set_self _ _ _ _ (by rw [hwf.lenId]; exact hlt)
  · exact getD_set_self _ _ _ _ (by rw [hwf.lenLut]; exact hlt)

theorem generate_holds_keep (n : Nat) (st : EdcState) (c cfg : CrcConfig_t) (k : Nat)
    (hk : k < st.deviceIdx) (hh : st.Holds k cfg) :
    k < (EDC_GenerateCrcLut n st c).2.deviceIdx ∧ (EDC_GenerateCrcLut n st c).2.Holds k cfg := by
  cases hres : (EDC_GenerateCrcLut n st c).1 with
  | false => rw [generate_fail n st c hres]; exact ⟨hk, hh⟩
  | true =>
    obtain ⟨_, _, _, _, heq⟩ := generate_ok n st c hres
    rw [heq]
    refine ⟨by simp; omega, ?_, ?_⟩
    · simp only
      rw [getD_set_other _ _ _ _ _ (by omega)]
      exact hh.1
    · simp only
      rw [getD_set_other _ _ _ _ _ (by omega)]
      exact hh.2

theorem runGenerate_holds (n : Nat) (cfg : CrcConfig_t) (k : Nat) (cfgs : List CrcConfig_t) :
    ∀ st : EdcState, k < st.deviceIdx → st.Holds k cfg →
      k < (runGenerate n st cfgs).deviceIdx ∧ (runGenerate n st cfgs).Holds k cfg := by
  induction cfgs with
  | nil => intro st h1 h2; exact ⟨h1, h2⟩
  | cons c cs ih =>
    intro st h1 h2
    obtain ⟨h3, h4⟩ := generate_holds_keep n st c cfg k h1 h2
    exact ih _ h3 h4

theorem runGenerate_append (n : Nat) (st : EdcState) (a b : List CrcConfig_t) :
    runGenerate n st (a ++ b) = runGenerate n (runGenerate n st a) b := by
  simp [runGenerate, List.foldl_append]

/-- A registered configuration occupies a row below `deviceIdx` of a well-formed
registry, and it was accepted with a non-zero polynomial byte and a width byte
of 8, 16 or 32. -/
theorem registered_row (n : Nat) (st : EdcState) (cfg : CrcConfig_t)
    (h : Registered n st cfg) :
    st.WF n ∧ cfg.poly % 256 ≠ 0 ∧
      (cfg.polySize % 256 = 8 ∨ cfg.polySize % 256 = 16 ∨ cfg.polySize % 256 = 32) ∧
      ∃ k, k < st.deviceIdx ∧ st.Holds k cfg := by
  obtain ⟨pre, post, hok, hst⟩ := h
  have hwf0 := runGenerate_wf n pre _ (init_wf n)
  obtain ⟨hp, hw, _, hlt, _⟩ := generate_ok n _ cfg hok
  have hnew := generate_holds_new n _ cfg hwf0 hok
  have hdev : (runGenerate n (EdcState.init n) pre).deviceIdx <
      (EDC_GenerateCrcLut n (runGenerate n (EdcState.init n) pre) cfg).2.deviceIdx := by
    rw [(generate_ok n _ cfg hok).2.2.2.2]; simp
  have hst2 : st = runGenerate n (EDC_GenerateCrcLut n (runGenerate n (EdcState.init n) pre) cfg).2
      post := by
    rw [hst, runGenerate_append]; rfl
  refine ⟨?_, hp, hw, (runGenerate n (EdcState.init n) pre).deviceIdx, ?_⟩
  · rw [hst2]; exact runGenerate_wf n post _ (generate_wf n _ cfg hwf0)
  · rw [hst2]; exact runGenerate_holds n cfg _ post _ hdev hnew

theorem holds_idAt (st : EdcState) (k : Nat) (cfg : CrcConfig_t) (h : st.Holds k cfg) :
    st.idAt k 0 = cfg.poly % 256 ∧ st.idAt k 1 = cfg.polySize % 256 ∧
      st.idAt k 2 = flagVal cfg.isInputReflected ∧ st.idAt k 3 = flagVal cfg.isCrcReflected := by
  unfold EdcState.idAt
  rw [h.1]
  exact ⟨rfl, rfl, rfl, rfl⟩

theorem findLutIdx_holds (n : Nat) (st : EdcState) (cfg : CrcConfig_t) (k u : Nat)
    (hwf : st.WF n) (hk : k < st.deviceIdx) (hh : st.Holds k cfg) :
    findLutIdx n st u (cfg.poly % 256) = k := by
  have hid := (holds_idAt st k cfg hh).1
  have hscan : scanFrom (fun idx => st.idAt idx 0 == cfg.poly % 256) n 0 = some k := by
    apply scanFrom_first
    · exact Nat.zero_le _
    · have := hwf.idxLe; omega
    · simp [hid]
    · intro l _ hl
      have hne : st.idAt l 0 ≠ cfg.poly % 256 := by
        intro heq
        have := hwf.inj l k (by omega) hk (by rw [heq, hid])
        omega
      simpa using hne
  simp [findLutIdx, hscan]

theorem decide_flagVal (b : Bool) : decide (flagVal b ≠ 0) = b := by
  cases b <;> simp [flagVal]

/-- For a registered configuration `EDC_CalculateCrc`, called with the
polynomial byte the registry holds for it, runs the table-driven computation
on the table generated for that configuration, whatever `lutIdx` held before
the search loop. -/
theorem calculate_registered (n : Nat) (st : EdcState) (cfg : CrcConfig_t) (u : Nat)
    (mem : List Nat) (dataLen : Nat) (h : Registered n st cfg) (h0 : dataLen ≠ 0)
    (hlen : dataLen ≤ mem.length) :
    EDC_CalculateCrc n st u (cfg.poly % 256) (some mem) dataLen =
      some (crcCompute (fun i => (crcLutRow (cfg.poly % 256) (cfg.polySize % 256)).getD i 0)
        (cfg.polySize % 256) cfg.isInputReflected cfg.isCrcReflected (mem.take dataLen)) := by
  obtain ⟨hwf, _, _, k, hk, hh⟩ := registered_row n st cfg h
  have hfind := findLutIdx_holds n st cfg k u hwf hk hh
  obtain ⟨_, h1, h2, h3⟩ := holds_idAt st k cfg hh
  have hkn : ¬ n ≤ k := by have := hwf.idxLe; omega
  have hlut : st.lutAt k = fun i => (crcLutRow (cfg.poly % 256) (cfg.polySize % 256)).getD i 0 := by
    funext i; unfold EdcState.lutAt; rw [hh.2]
  simp only [EDC_CalculateCrc, h0, if_false, hfind, hkn, not_lt.mpr hlen, h1, h2, h3,
    decide_flagVal, hlut]

theorem runGenerate_deviceIdx (n : Nat) (cfgs : List CrcConfig_t) :
    ∀ st : EdcState,
      (runGenerate n st cfgs).deviceIdx = st.deviceIdx + successCount n st cfgs := by
  induction cfgs with
  | nil => intro st; rfl
  | cons c cs ih =>
    intro st
    have hstep : runGenerate n st (c :: cs) = runGenerate n (EDC_GenerateCrcLut n st c).2 cs := rfl
    have hs : successCount n st (c :: cs) =
        (if (EDC_GenerateCrcLut n st c).1 then 1 else 0) +
          successCount n (EDC_GenerateCrcLut n st c).2 cs := rfl
    rw [hstep, ih, hs]
    cases hres : (EDC_GenerateCrcLut n st c).1 with
    | false => rw [generate_fail n st c hres]; simp
    | true =>
      have hd : (EDC_GenerateCrcLut n st c).2.deviceIdx = st.deviceIdx + 1 := by
        rw [(generate_ok n st c hres).2.2.2.2]
      rw [hd]
      simp only [if_true]
      omega

theorem generate_false_of_poly_zero (n : Nat) (st : EdcState) (cfg : CrcConfig_t)
    (h : cfg.poly % 256 = 0) : (EDC_GenerateCrcLut n st cfg).1 = false := by
  simp [EDC_GenerateCrcLut, h]

theorem generate_false_of_width (n : Nat) (st : EdcState) (cfg : CrcConfig_t)
    (h : cfg.polySize % 256 ≠ 8 ∧ cfg.polySize % 256 ≠ 16 ∧ cfg.polySize % 256 ≠ 32) :
    (EDC_GenerateCrcLut n st cfg).1 = false := by
  unfold EDC_GenerateCrcLut
  simp only
  split_ifs <;> simp_all

theorem generate_false_of_duplicate (n : Nat) (st : EdcState) (cfg : CrcConfig_t) (k : Nat)
    (hk : k < n) (h : st.idAt k 0 = cfg.poly % 256) :
    (EDC_GenerateCrcLut n st cfg).1 = false := by
  cases hres : (EDC_GenerateCrcLut n st cfg).1 with
  | false => rfl
  | true => exact absurd h ((generate_ok n st cfg hres).2.2.1 k hk)

theorem generate_false_of_full (n : Nat) (st : EdcState) (cfg : CrcConfig_t)
    (h : n ≤ st.deviceIdx) : (EDC_GenerateCrcLut n st cfg).1 = false := by
  cases hres : (EDC_GenerateCrcLut n st cfg).1 with
  | false => rfl
  | true => have := (generate_ok n st cfg hres).2.2.2.1; omega

/-! ### Bit reflection -/

theorem and_ff (x : Nat) : x &&& 0xFF = x % 256 :=
  Nat.and_pow_two_sub_one_eq_mod x 8

theorem and_ffff (x : Nat) : x &&& 0xFFFF = x % 65536 :=
  Nat.and_pow_two_sub_one_eq_mod x 16

theorem and_ffffffff (x : Nat) : x &&& 0xFFFFFFFF = x % 4294967296 :=
  Nat.and_pow_two_sub_one_eq_mod x 32

theorem swapByte_lt (n : Nat) : swapByte n < 256 :=
  Nat.mod_lt _ (by decide)

theorem swapByte_swapByte : ∀ x, x < 256 → swapByte (swapByte x) = x := by
  decide!

theorem BitSwap8_lt (x : Nat) : BitSwap8 x < 256 := swapByte_lt _

theorem BitSwap8_BitSwap8 (x : Nat) (h : x < 256) : BitSwap8 (BitSwap8 x) = x := by
  unfold BitSwap8
  rw [Nat.mod_eq_of_lt (swapByte_lt _), Nat.mod_eq_of_lt h]
  exact swapByte_swapByte x h

theorem mul_or_eq (a b k : Nat) (hb : b < 2 ^ k) : a * 2 ^ k ||| b = a * 2 ^ k + b := by
  rw [Nat.mul_comm a, Nat.mul_add_lt_is_or hb]

theorem or2_bytes (a b : Nat) (hb : b < 256) : a <<< 8 ||| b = a * 256 + b := by
  rw [Nat.shiftLeft_eq]
  exact mul_or_eq a b 8 (by omega)

theorem or4_bytes (a b c d : Nat) (hb : b < 256) (hc : c < 256) (hd : d < 256) :
    a <<< 24 ||| b <<< 16 ||| c <<< 8 ||| d = a * 16777216 + b * 65536 + c * 256 + d := by
  rw [Nat.shiftLeft_eq, Nat.shiftLeft_eq, Nat.shiftLeft_eq]
  rw [mul_or_eq a (b * 2 ^ 16) 24 (by omega)]
  have e1 : a * 2 ^ 24 + b * 2 ^ 16 = (a * 256 + b) * 2 ^ 16 := by omega
  rw [e1, mul_or_eq _ (c * 2 ^ 8) 16 (by omega)]
  have e2 : (a * 256 + b) * 2 ^ 16 + c * 2 ^ 8 = (a * 65536 + b * 256 + c) * 2 ^ 8 := by omega
  rw [e2, mul_or_eq _ d 8 (by omega)]
  omega

theorem BitSwap16_eq (x : Nat) (h : x < 65536) :
    BitSwap16 x = swapByte (x % 256) * 256 + swapByte (x / 256) := by
  have h1 := swapByte_lt (x % 256)
  have h2 := swapByte_lt (x / 256)
  unfold BitSwap16
  simp only [Nat.shiftRight_zero, Nat.shiftLeft_zero, and_ff, Nat.shiftRight_eq_div_pow,
    Nat.mod_eq_of_lt h]
  have e : x / 2 ^ 8 % 256 = x / 256 := by omega
  have e0 : x / 2 ^ 0 % 256 = x % 256 := by simp
  rw [e, e0, or2_bytes _ _ h2]
  omega

theorem BitSwap32_eq (x : Nat) (h : x < 4294967296) :
    BitSwap32 x = swapByte (x % 256) * 16777216 + swapByte (x / 256 % 256) * 65536 +
      swapByte (x / 65536 % 256) * 256 + swapByte (x / 16777216) := by
  have h1 := swapByte_lt (x % 256)
  have h2 := swapByte_lt (x / 256 % 256)
  have h3 := swapByte_lt (x / 65536 % 256)
  have h4 := swapByte_lt (x / 16777216)
  unfold BitSwap32
  simp only [Nat.shiftRight_zero, Nat.shiftLeft_zero, and_ff, Nat.shiftRight_eq_div_pow,
    Nat.mod_eq_of_lt h]
  have e2 : x / 2 ^ 8 % 256 = x / 256 % 256 := by omega
  have e3 : x / 2 ^ 16 % 256 = x / 65536 % 256 := by omega
  have e4 : x / 2 ^ 24 % 256 = x / 16777216 := by omega
  have e0 : x / 2 ^ 0 % 256 = x % 256 := by simp
  rw [e0, e2, e3, e4, or4_bytes _ _ _ _ h2 h3 h4]
  omega

theorem BitSwap16_lt (x : Nat) : BitSwap16 x < 65536 := by
  unfold BitSwap16; exact Nat.mod_lt _ (by decide)

theorem BitSwap32_lt (x : Nat) : BitSwap32 x < 4294967296 := by
  unfold BitSwap32; exact Nat.mod_lt _ (by decide)

theorem BitSwap16_BitSwap16 (x : Nat) (h : x < 65536) : BitSwap16 (BitSwap16 x) = x := by
  have h1 := swapByte_lt (x % 256)
  have h2 := swapByte_lt (x / 256)
  rw [BitSwap16_eq _ (BitSwap16_lt x), BitSwap16_eq x h]
  have a1 : (swapByte (x % 256) * 256 + swapByte (x / 256)) % 256 = swapByte (x / 256) := by
    omega
  have a2 : (swapByte (x % 256) * 256 + swapByte (x / 256)) / 256 = swapByte (x % 256) := by
    omega
  rw [a1, a2, swapByte_swapByte _ (by omega), swapByte_swapByte _ (by omega)]
  omega

theorem BitSwap32_BitSwap32 (x : Nat) (h : x < 4294967296) : BitSwap32 (BitSwap32 x) = x := by
  have h1 := swapByte_lt (x % 256)
  have h2 := swapByte_lt (x / 256 % 256)
  have h3 := swapByte_lt (x / 65536 % 256)
  have h4 := swapByte_lt (x / 16777216)
  have s1 := swapByte_swapByte (x % 256) (by omega)
  have s2 := swapByte_swapByte (x / 256 % 256) (by omega)
  have s3 := swapByte_swapByte (x / 65536 % 256) (by omega)
  have s4 := swapByte_swapByte (x / 16777216) (by omega)
  rw [BitSwap32_eq _ (BitSwap32_lt x), BitSwap32_eq x h]
  generalize swapByte (x % 256) = a at *
  generalize swapByte (x / 256 % 256) = b at *
  generalize swapByte (x / 65536 % 256) = c at *
  generalize swapByte (x / 16777216) = d at *
  have a1 : (a * 16777216 + b * 65536 + c * 256 + d) % 256 = d := by omega
  have a2 : (a * 16777216 + b * 65536 + c * 256 + d) / 256 % 256 = c := by omega
  have a3 : (a * 16777216 + b * 65536 + c * 256 + d) / 65536 % 256 = b := by omega
  have a4 : (a * 16777216 + b * 65536 + c * 256 + d) / 16777216 = a := by omega
  rw [a1, a2, a3, a4, s1, s2, s3, s4]
  omega

/-! ### Zero residue of a message that carries its own checksum -/

theorem crcBitLoop_zero : ∀ (k pm am : Nat), crcBitLoop k 0 pm am = 0 := by
  intro k
  induction k with
  | zero => intro pm am; rfl
  | succ k ih =>
    intro pm am
    unfold crcBitLoop
    simp only [Nat.zero_and, ne_eq, not_true_eq_false, if_false]
    exact ih _ _

theorem crcLutEntry_zero (poly polySize : Nat) : crcLutEntry poly polySize 0 = 0 := by
  unfold crcLutEntry shl32
  simp only [Nat.zero_shiftLeft, Nat.zero_mod]
  exact crcBitLoop_zero _ _ _

theorem crcLutRow_getD (poly polySize i : Nat) (hi : i < 256) :
    (crcLutRow poly polySize).getD i 0 = crcLutEntry poly polySize i := by
  unfold crcLutRow CRC_LUT_SIZE
  rw [List.getD_eq_getElem?_getD, List.getElem?_map, List.getElem?_range hi]
  rfl

theorem crcLutRow_zero (poly polySize : Nat) : (crcLutRow poly polySize).getD 0 0 = 0 := by
  rw [crcLutRow_getD _ _ 0 (by decide), crcLutEntry_zero]

theorem crcStep8_lt (lut : Nat → Nat) (s b : Nat) : crcStep8 lut s b < 256 := by
  unfold crcStep8; rw [and_ff]; exact Nat.mod_lt _ (by decide)

theorem crcStep16_lt (lut : Nat → Nat) (s b : Nat) : crcStep16 lut s b < 65536 := by
  unfold crcStep16; rw [and_ffff]; exact Nat.mod_lt _ (by decide)

theorem crcStep32_lt (lut : Nat → Nat) (s b : Nat) : crcStep32 lut s b < 4294967296 := by
  unfold crcStep32; rw [and_ffffffff]; exact Nat.mod_lt _ (by decide)

theorem foldl_lt {f : Nat → Nat → Nat} {m : Nat} (hf : ∀ s b, f s b < m) :
    ∀ (l : List Nat) (s : Nat), s < m → l.foldl f s < m := by
  intro l
  induction l with
  | nil => intro s h; exact h
  | cons b bs ih => intro s _; exact ih _ (hf s b)

theorem crcStep8_cancel (lut : Nat → Nat) (h0 : lut 0 = 0) (s : Nat) :
    crcStep8 lut s s = 0 := by
  unfold crcStep8; simp [h0]

theorem crcStep16_cancel (lut : Nat → Nat) (h0 : lut 0 = 0) (s b : Nat) (hb : b = s / 256) :
    crcStep16 lut s b = s * 256 % 65536 := by
  unfold crcStep16
  simp only [Nat.shiftRight_eq_div_pow, Nat.shiftLeft_eq, and_ffff]
  have : s / 2 ^ 8 = b := by omega
  rw [this, Nat.xor_self, h0, Nat.xor_zero]

theorem crcStep32_cancel (lut : Nat → Nat) (h0 : lut 0 = 0) (s b : Nat)
    (hb : b = s / 16777216) : crcStep32 lut s b = s * 256 % 4294967296 := by
  unfold crcStep32
  simp only [Nat.shiftRight_eq_div_pow, Nat.shiftLeft_eq, and_ffffffff]
  have : s / 2 ^ 24 = b := by omega
  rw [this, Nat.xor_self, h0, Nat.xor_zero]

theorem bytesBE_one (r : Nat) : bytesBE r 1 = [r % 256] := rfl

theorem bytesBE_two (r : Nat) : bytesBE r 2 = [r / 256 % 256, r % 256] := rfl

theorem bytesBE_four (r : Nat) :
    bytesBE r 4 = [r / 256 / 256 / 256 % 256, r / 256 / 256 % 256, r / 256 % 256, r % 256] := rfl

theorem residue8 (lut : Nat → Nat) (h0 : lut 0 = 0) (r : Nat) (hr : r < 256) :
    (bytesBE r 1).foldl (crcStep8 lut) r = 0 := by
  rw [bytesBE_one, Nat.mod_eq_of_lt hr]
  exact crcStep8_cancel lut h0 r

theorem residue16 (lut : Nat → Nat) (h0 : lut 0 = 0) (r : Nat) (hr : r < 65536) :
    (bytesBE r 2).foldl (crcStep16 lut) r = 0 := by
  rw [bytesBE_two]
  simp only [List.foldl_cons, List.foldl_nil]
  rw [crcStep16_cancel lut h0 r _ (by omega),
    crcStep16_cancel lut h0 (r * 256 % 65536) _ (by omega)]
  omega

theorem residue32 (lut : Nat → Nat) (h0 : lut 0 = 0) (r : Nat) (hr : r < 4294967296) :
    (bytesBE r 4).foldl (crcStep32 lut) r = 0 := by
  rw [bytesBE_four]
  simp only [List.foldl_cons, List.foldl_nil]
  rw [crcStep32_cancel lut h0 r _ (by omega),
    crcStep32_cancel lut h0 (r * 256 % 4294967296) _ (by omega),
    crcStep32_cancel lut h0 (r * 256 % 4294967296 * 256 % 4294967296) _ (by omega),
    crcStep32_cancel lut h0 (r * 256 % 4294967296 * 256 % 4294967296 * 256 % 4294967296) _
      (by omega)]
  omega

theorem bytesLE_lt : ∀ (k v b : Nat), b ∈ bytesLE v k → b < 256 := by
  intro k
  induction k with
  | zero => intro v b h; simp [bytesLE] at h
  | succ k ih =>
    intro v b h
    simp only [bytesLE, List.mem_cons] at h
    rcases h with h | h
    · omega
    · exact ih _ _ h

theorem bytesBE_lt (k v b : Nat) (h : b ∈ bytesBE v k) : b < 256 :=
  bytesLE_lt k v b (List.mem_reverse.mp h)

theorem map_mod_bytes (l : List Nat) (h : ∀ b ∈ l, b < 256) :
    l.map (fun b => b % 256) = l := by
  induction l with
  | nil => rfl
  | cons a as ih =>
    simp only [List.map_cons]
    rw [Nat.mod_eq_of_lt (h a (List.mem_cons_self _ _)),
      ih (fun b hb => h b (List.mem_cons_of_mem _ hb))]

theorem map_BitSwap8_twice (l : List Nat) (h : ∀ b ∈ l, b < 256) :
    (l.map BitSwap8).map BitSwap8 = l := by
  induction l with
  | nil => rfl
  | cons a as ih =>
    simp only [List.map_cons]
    rw [BitSwap8_BitSwap8 a (h a (List.mem_cons_self _ _)),
      ih (fun b hb => h b (List.mem_cons_of_mem _ hb))]

theorem map_swapByte_BitSwap8 (l : List Nat) (h : ∀ b ∈ l, b < 256) :
    (l.map swapByte).map BitSwap8 = l := by
  induction l with
  | nil => rfl
  | cons a as ih =>
    simp only [List.map_cons]
    have e : BitSwap8 (swapByte a) = a := by
      unfold BitSwap8
      rw [Nat.mod_eq_of_lt (swapByte_lt a)]
      exact swapByte_swapByte a (h a (List.mem_cons_self _ _))
    rw [e, ih (fun b hb => h b (List.mem_cons_of_mem _ hb))]

/-- After the input reflection of `EDC_CalculateCrc` the appended checksum
bytes are the bytes of the raw accumulator `r`, most significant first. -/
theorem trailer_after_input_reflection (cfg : CrcConfig_t) (r k : Nat) (W : Nat → Nat)
    (hk : cfg.polySize / 8 = k)
    (hW : bytesLE (W r) k = (bytesBE r k).map swapByte) :
    (crcTrailer cfg (if cfg.isCrcReflected then W r else r)).map
        (fun b => if cfg.isInputReflected then BitSwap8 b else b % 256) = bytesBE r k := by
  have hlt : ∀ b ∈ bytesBE r k, b < 256 := fun b hb => bytesBE_lt k r b hb
  unfold crcTrailer
  rw [hk]
  cases hi : cfg.isInputReflected <;> cases ho : cfg.isCrcReflected
  · simp only [if_true, Bool.false_eq_true, if_false]
    exact map_mod_bytes _ hlt
  · simp only [if_true, Bool.false_eq_true, if_false, Bool.false_eq, Bool.true_eq_false]
    rw [hW, map_swapByte_BitSwap8 _ hlt]
    exact map_mod_bytes _ hlt
  · simp only [if_true, Bool.false_eq_true, if_false, Bool.true_eq, Bool.false_eq_true]
    exact map_BitSwap8_twice _ hlt
  · simp only [if_true]
    rw [hW]
    exact map_swapByte_BitSwap8 _ hlt

theorem bytesLE_BitSwap8 (r : Nat) (_hr : r < 256) :
    bytesLE (BitSwap8 r) 1 = (bytesBE r 1).map swapByte := by
  rw [bytesBE_one]
  simp only [bytesLE, List.map_cons, List.map_nil]
  rw [Nat.mod_eq_of_lt (BitSwap8_lt r)]
  rfl

theorem bytesLE_BitSwap16 (r : Nat) (hr : r < 65536) :
    bytesLE (BitSwap16 r) 2 = (bytesBE r 2).map swapByte := by
  have h1 := swapByte_lt (r % 256)
  have h2 := swapByte_lt (r / 256)
  rw [bytesBE_two, BitSwap16_eq r hr]
  simp only [bytesLE, List.map_cons, List.map_nil]
  have e : r / 256 % 256 = r / 256 := by omega
  rw [e]
  congr 1
  · omega
  · congr 1; omega

theorem bytesLE_BitSwap32 (r : Nat) (hr : r < 4294967296) :
    bytesLE (BitSwap32 r) 4 = (bytesBE r 4).map swapByte := by
  have h1 := swapByte_lt (r % 256)
  have h2 := swapByte_lt (r / 256 % 256)
  have h3 := swapByte_lt (r / 65536 % 256)
  have h4 := swapByte_lt (r / 16777216)
  rw [bytesBE_four, BitSwap32_eq r hr]
  simp only [bytesLE, List.map_cons, List.map_nil]
  have e3 : r / 256 / 256 / 256 % 256 = r / 16777216 := by omega
  have e2 : r / 256 / 256 % 256 = r / 65536 % 256 := by omega
  rw [e3, e2]
  congr 1
  · omega
  · congr 1
    · omega
    · congr 1
      · omega
      · congr 1; omega

theorem compute_residue8 (cfg : CrcConfig_t) (lut : Nat → Nat) (h0 : lut 0 = 0)
    (hw : cfg.polySize = 8) (payload : List Nat) :
    crcCompute lut 8 cfg.isInputReflected cfg.isCrcReflected
      (payload ++ crcTrailer cfg
        (crcCompute lut 8 cfg.isInputReflected cfg.isCrcReflected payload)) = 0 := by
  have hr : (payload.map (fun b => if cfg.isInputReflected then BitSwap8 b else b % 256)).foldl
      (crcStep8 lut) 0 < 256 := foldl_lt (crcStep8_lt lut) _ 0 (by decide)
  generalize hrdef : (payload.map
    (fun b => if cfg.isInputReflected then BitSwap8 b else b % 256)).foldl (crcStep8 lut) 0 = r
    at hr
  have hc : crcCompute lut 8 cfg.isInputReflected cfg.isCrcReflected payload =
      if cfg.isCrcReflected then BitSwap8 r else r := by
    simp only [crcCompute, CRC_POLY_SIZE_8, CRC_POLY_SIZE_16, CRC_POLY_SIZE_32,
      if_true, hrdef]
    have := BitSwap8_lt r
    split_ifs <;> omega
  have ht := trailer_after_input_reflection cfg r 1 BitSwap8 (by rw [hw])
    (bytesLE_BitSwap8 r hr)
  rw [hc]
  simp only [crcCompute, CRC_POLY_SIZE_8, CRC_POLY_SIZE_16, CRC_POLY_SIZE_32,
      if_true, List.map_append, List.foldl_append, hrdef, ht,
    residue8 lut h0 r hr]
  cases cfg.isCrcReflected <;> decide

theorem compute_residue16 (cfg : CrcConfig_t) (lut : Nat → Nat) (h0 : lut 0 = 0)
    (hw : cfg.polySize = 16) (payload : List Nat) :
    crcCompute lut 16 cfg.isInputReflected cfg.isCrcReflected
      (payload ++ crcTrailer cfg
        (crcCompute lut 16 cfg.isInputReflected cfg.isCrcReflected payload)) = 0 := by
  have hr : (payload.map (fun b => if cfg.isInputReflected then BitSwap8 b else b % 256)).foldl
      (crcStep16 lut) 0 < 65536 := foldl_lt (crcStep16_lt lut) _ 0 (by decide)
  generalize hrdef : (payload.map
    (fun b => if cfg.isInputReflected then BitSwap8 b else b % 256)).foldl (crcStep16 lut) 0 = r
    at hr
  have hc : crcCompute lut 16 cfg.isInputReflected cfg.isCrcReflected payload =
      if cfg.isCrcReflected then BitSwap16 r else r := by
    simp only [crcCompute, CRC_POLY_SIZE_8, CRC_POLY_SIZE_16, CRC_POLY_SIZE_32,
      if_true, hrdef, show ¬ (16 = 8) by decide, if_false]
    have := BitSwap16_lt r
    split_ifs <;> omega
  have ht := trailer_after_input_reflection cfg r 2 BitSwap16 (by rw [hw])
    (bytesLE_BitSwap16 r hr)
  rw [hc]
  simp only [crcCompute, CRC_POLY_SIZE_8, CRC_POLY_SIZE_16, CRC_POLY_SIZE_32,
      if_true, List.map_append, List.foldl_append, hrdef, ht,
    residue16 lut h0 r hr, show ¬ (16 = 8) by decide, if_false]
  cases cfg.isCrcReflected <;> decide

theorem compute_residue32 (cfg : CrcConfig_t) (lut : Nat → Nat) (h0 : lut 0 = 0)
    (hw : cfg.polySize = 32) (payload : List Nat) :
    crcCompute lut 32 cfg.isInputReflected cfg.isCrcReflected
      (payload ++ crcTrailer cfg
        (crcCompute lut 32 cfg.isInputReflected cfg.isCrcReflected payload)) = 0 := by
  have hr : (payload.map (fun b => if cfg.isInputReflected then BitSwap8 b else b % 256)).foldl
      (crcStep32 lut) 0 < 4294967296 := foldl_lt (crcStep32_lt lut) _ 0 (by decide)
  generalize hrdef : (payload.map
    (fun b => if cfg.isInputReflected then BitSwap8 b else b % 256)).foldl (crcStep32 lut) 0 = r
    at hr
  have hc : crcCompute lut 32 cfg.isInputReflected cfg.isCrcReflected payload =
      if cfg.isCrcReflected then BitSwap32 r else r := by
    simp only [crcCompute, CRC_POLY_SIZE_8, CRC_POLY_SIZE_16, CRC_POLY_SIZE_32,
      if_true, hrdef, show ¬ (32 = 8) by decide,
      show ¬ (32 = 16) by decide, if_false]
    have := BitSwap32_lt r
    split_ifs <;> omega
  have ht := trailer_after_input_reflection cfg r 4 BitSwap32 (by rw [hw])
    (bytesLE_BitSwap32 r hr)
  rw [hc]
  simp only [crcCompute, CRC_POLY_SIZE_8, CRC_POLY_SIZE_16, CRC_POLY_SIZE_32,
      if_true, List.map_append, List.foldl_append, hrdef, ht,
    residue32 lut h0 r hr, show ¬ (32 = 8) by decide, show ¬ (32 = 16) by decide, if_false]
  cases cfg.isCrcReflected <;> decide

theorem compute_residue (cfg : CrcConfig_t) (lut : Nat → Nat) (h0 : lut 0 = 0)
    (hw : cfg.polySize = 8 ∨ cfg.polySize = 16 ∨ cfg.polySize = 32) (payload : List Nat) :
    crcCompute lut cfg.polySize cfg.isInputReflected cfg.isCrcReflected
      (payload ++ crcTrailer cfg
        (crcCompute lut cfg.polySize cfg.isInputReflected cfg.isCrcReflected payload)) = 0 := by
  rcases hw with h | h | h
  · rw [h]; exact compute_residue8 cfg lut h0 h payload
  · rw [h]; exact compute_residue16 cfg lut h0 h payload
  · rw [h]; exact compute_residue32 cfg lut h0 h payload

theorem bytesLE_length : ∀ (k v : Nat), (bytesLE v k).length = k := by
  intro k
  induction k with
  | zero => intro v; rfl
  | succ k ih => intro v; simp [bytesLE, ih]

theorem crcTrailer_length (cfg : CrcConfig_t) (crc : Nat) :
    (crcTrailer cfg crc).length = cfg.polySize / 8 := by
  unfold crcTrailer bytesBE
  simp only
  split_ifs <;> simp [bytesLE_length]

/-! ### Range of a computed checksum -/

theorem crcCompute_lt_of_width8 (lut : Nat → Nat) (i o : Bool) (data : List Nat) :
    crcCompute lut 8 i o data < 2 ^ 8 := by
  have hr : (data.map (fun b => if i then BitSwap8 b else b % 256)).foldl (crcStep8 lut) 0 < 256 :=
    foldl_lt (crcStep8_lt lut) _ 0 (by decide)
  simp only [crcCompute, CRC_POLY_SIZE_8, CRC_POLY_SIZE_16, CRC_POLY_SIZE_32,
      if_true]
  generalize (data.map (fun b => if i then BitSwap8 b else b % 256)).foldl (crcStep8 lut) 0 = r
    at hr
  have := BitSwap8_lt r
  split_ifs <;> omega

theorem crcCompute_lt_of_width16 (lut : Nat → Nat) (i o : Bool) (data : List Nat) :
    crcCompute lut 16 i o data < 2 ^ 16 := by
  have hr : (data.map (fun b => if i then BitSwap8 b else b % 256)).foldl (crcStep16 lut) 0 <
      65536 := foldl_lt (crcStep16_lt lut) _ 0 (by decide)
  simp only [crcCompute, CRC_POLY_SIZE_8, CRC_POLY_SIZE_16, CRC_POLY_SIZE_32,
      show ¬ (16 = 8) by decide, if_false, if_true]
  generalize (data.map (fun b => if i then BitSwap8 b else b % 256)).foldl (crcStep16 lut) 0 = r
    at hr
  have := BitSwap16_lt r
  split_ifs <;> omega

/-! ### The device search -/

theorem searchBits_romData_lt {σ : Type} (hw : Hw σ) (pinCode : Nat) (ld : Int) (prevId : Nat) :
    ∀ (k idx romData : Nat) (lz : Int) (rs : Bool) (s : σ), romData < 2 ^ 64 →
      (searchBits hw pinCode ld prevId k idx romData lz rs s).romData < 2 ^ 64 := by
  intro k
  induction k with
  | zero => intro idx romData lz rs s h; exact h
  | succ k ih =>
    intro idx romData lz rs s h
    unfold searchBits
    simp only
    split_ifs
    all_goals first
      | exact h
      | (apply ih
         exact Nat.or_lt_two_pow h (Nat.mod_lt _ (by decide)))

theorem entriesAccepted_nil {σ : Type} (env : Env σ) (edc : EdcState) (buff : Nat → Nat) :
    EntriesAccepted env edc 0 buff [] :=
  ⟨rfl, fun i hi => absurd hi (Nat.not_lt_zero i)⟩

theorem entriesAccepted_push {σ : Type} (env : Env σ) (edc : EdcState) (count : Nat)
    (buff : Nat → Nat) (accepted : List Nat) (r : Nat)
    (h : EntriesAccepted env edc count buff accepted) (hr : r < 2 ^ 64)
    (hfam : r &&& 0xFF = DS18B20_FAMILY_CODE)
    (hcrc : EDC_CalculateCrc env.crcMax edc env.lutIdxInit CRC_POLY_CODE
      (some (bytesLE r 8)) 8 = some 0) :
    EntriesAccepted env edc (count + 1)
      (fun i => if i = count then (r >>> 8) &&& 0xFFFFFFFFFFFF else buff i)
      (accepted ++ [r]) := by
  obtain ⟨hlen, hall⟩ := h
  refine ⟨by simp [hlen], ?_⟩
  intro i hi
  by_cases hic : i = count
  · subst hic
    refine ⟨r, ?_, hr, hfam, by simp, ?_, hcrc⟩
    · rw [← hlen]; simp
    · simp only [if_true]
      exact Nat.and_lt_two_pow _ (by decide)
  · obtain ⟨r0, h1, h2⟩ := hall i (by omega)
    refine ⟨r0, ?_, ?_⟩
    · rw [List.getElem?_append_left (by omega)]; exact h1
    · simpa [hic] using h2

theorem searchPass_keeps {σ : Type} (env : Env σ) (pinCode searchCmd : Nat) (st : DsState σ)
    (v : SearchVars) (s : σ)
    (hinv : EntriesAccepted env st.edc v.deviceCount v.romIdBuff v.accepted) :
    match searchPass env pinCode searchCmd st v s with
    | PassOutcome.undefined => True
    | PassOutcome.returned r =>
        EntriesAccepted env st.edc r.count r.romIdBuff r.accepted ∧ r.st.edc = st.edc
    | PassOutcome.atCondition v1 _ =>
        EntriesAccepted env st.edc v1.deviceCount v1.romIdBuff v1.accepted := by
  unfold searchPass
  simp only
  generalize hp : searchBits env.ops pinCode v.lastDiscrepancy (v.romIdBuff (v.deviceCount - 1))
    64 0 0 (-1) v.isResetSearch (OW_WriteByte env.ops pinCode searchCmd s) = p
  have hlt : p.romData < 2 ^ 64 := by
    rw [← hp]; exact searchBits_romData_lt _ _ _ _ _ _ _ _ _ _ (by decide)
  by_cases hfam : p.romData &&& 0xFF = DS18B20_FAMILY_CODE
  · simp only [hfam, if_true]
    by_cases hrs : p.isResetSearch = false
    · simp only [hrs, if_true]
      cases hcrc : EDC_CalculateCrc env.crcMax st.edc env.lutIdxInit CRC_POLY_CODE
          (some (bytesLE p.romData 8)) 8 with
      | none => simp
      | some c =>
        by_cases hc : c = 0
        · subst hc
          have hpush := entriesAccepted_push env st.edc v.deviceCount v.romIdBuff v.accepted
            p.romData hinv hlt hfam hcrc
          simp only [Option.map_some', beq_self_eq_true]
          split_ifs
          · exact hpush
          · exact ⟨entriesAccepted_nil env st.edc _, rfl⟩
          · exact hpush
        · have : (c == 0) = false := by simpa using hc
          simp only [Option.map_some', this]
          exact entriesAccepted_nil env st.edc _
    · simp only [hrs, if_false]
      exact entriesAccepted_nil env st.edc _
  · simp only [hfam, if_false]
    exact hinv

theorem searchExit_accepted {σ : Type} (env : Env σ) (st : DsState σ) (v : SearchVars) (s : σ)
    (hinv : EntriesAccepted env st.edc v.deviceCount v.romIdBuff v.accepted) :
    EntriesAccepted env st.edc (searchExit st v s).count (searchExit st v s).romIdBuff
        (searchExit st v s).accepted ∧ (searchExit st v s).st.edc = st.edc := by
  unfold searchExit
  cases v.isLastDevice
  · exact ⟨entriesAccepted_nil env st.edc _, rfl⟩
  · exact ⟨hinv, rfl⟩

theorem searchLoop_accepted {σ : Type} (env : Env σ) (pinCode searchCmd timeout : Nat)
    (st : DsState σ) :
    ∀ (fuel : Nat) (v : SearchVars) (s : σ) (res : SearchResult σ),
      EntriesAccepted env st.edc v.deviceCount v.romIdBuff v.accepted →
      searchLoop env pinCode searchCmd timeout st fuel v s = some res →
      EntriesAccepted env st.edc res.count res.romIdBuff res.accepted ∧ res.st.edc = st.edc := by
  intro fuel
  induction fuel with
  | zero => intro v s res _ h; simp [searchLoop] at h
  | succ fuel ih =>
    intro v s res hinv h
    unfold searchLoop at h
    have hk := searchPass_keeps env pinCode searchCmd st v s hinv
    cases hpass : searchPass env pinCode searchCmd st v s with
    | undefined => simp [hpass] at h
    | returned r =>
      simp only [hpass, Option.some.injEq] at h hk
      subst h
      exact hk
    | atCondition v1 s1 =>
      simp only [hpass] at h hk
      by_cases hc : (searchCond env timeout v1 s1).1 = true
      · simp only [hc, if_true] at h
        exact ih v1 _ res hk h
      · simp only [hc, Bool.false_eq_true, if_false, Option.some.injEq] at h
        subst h
        exact searchExit_accepted env st v1 _ hk

theorem searchDevice_accepted {σ : Type} (env : Env σ) (fuel : Nat) (st : DsState σ)
    (pinCode : Nat) (romIdBuff : Nat → Nat) (searchMode : SearchMode_t) (res : SearchResult σ)
    (h : SearchDevice env fuel st pinCode romIdBuff searchMode = some res) :
    EntriesAccepted env res.st.edc res.count res.romIdBuff res.accepted := by
  unfold SearchDevice at h
  simp only at h
  split_ifs at h
  all_goals first
    | (simp only [Option.some.injEq] at h
       subst h
       exact entriesAccepted_nil _ _ _)
    | (obtain ⟨ha, he⟩ := searchLoop_accepted env pinCode _ _ _ fuel _ _ res
         (entriesAccepted_nil _ _ _) h
       rw [he]
       exact ha)

/-! ### Reading a scratch-pad from a replaying bus -/

/-- The byte the read loop assembles from a list of line levels, starting at
bit `idx` with accumulator `acc`. -/
theorem readByteLoop_replay (pin : Nat) :
    ∀ (bits : List Bool) (idx acc : Nat) (rest : List Bool),
      readByteLoop replayHw pin bits.length idx acc (bits ++ rest) =
        ((bits.foldl (fun (p : Nat × Nat) b => ((p.1 ||| (pinVal b <<< p.2)) % 256, p.2 + 1))
          (acc, idx)).1, rest) := by
  intro bits
  induction bits with
  | nil => intro idx acc rest; rfl
  | cons b bs ih =>
    intro idx acc rest
    simp only [List.length_cons, readByteLoop, ReadBit, replayHw, List.cons_append,
      List.headD_cons, List.tail_cons, List.foldl_cons]
    exact ih _ _ _

theorem assemble_byteLevels :
    ∀ b, b < 256 →
      ((byteLevels b).foldl
        (fun (p : Nat × Nat) l => ((p.1 ||| (pinVal l <<< p.2)) % 256, p.2 + 1))
        (0, 0)).1 = b := by
  decide!

theorem readByte_replay (pin b : Nat) (hb : b < 256) (rest : List Bool) :
    readByteLoop replayHw pin 8 0 0 (byteLevels b ++ rest) = (b, rest) := by
  have h := readByteLoop_replay pin (byteLevels b) 0 0 rest
  have hl : (byteLevels b).length = 8 := by simp [byteLevels]
  rw [hl] at h
  rw [h, assemble_byteLevels b hb]

theorem readBytes_replay (pin : Nat) :
    ∀ (bytes : List Nat) (rest : List Bool), (∀ b ∈ bytes, b < 256) →
      readBytes replayHw pin bytes.length (bytesLevels bytes ++ rest) = (bytes, rest) := by
  intro bytes
  induction bytes with
  | nil => intro rest _; rfl
  | cons b bs ih =>
    intro rest hb
    have e : bytesLevels (b :: bs) ++ rest = byteLevels b ++ (bytesLevels bs ++ rest) := by
      simp [bytesLevels]
    simp only [List.length_cons, readBytes]
    rw [e, readByte_replay pin b (hb b (List.mem_cons_self _ _))]
    simp only
    rw [ih rest (fun x hx => hb x (List.mem_cons_of_mem _ hx))]

theorem writeByteLoop_replay (pin byte : Nat) :
    ∀ (k idx : Nat) (s : List Bool), writeByteLoop replayHw pin byte k idx s = s := by
  intro k
  induction k with
  | zero => intro idx s; rfl
  | succ k ih => intro idx s; simp only [writeByteLoop]; exact ih _ _

theorem writeBytes_replay (pin : Nat) :
    ∀ (bytes : List Nat) (s : List Bool), writeBytes replayHw pin bytes s = s := by
  intro bytes
  induction bytes with
  | nil => intro s; rfl
  | cons b bs ih => intro s; simp only [writeBytes, writeByteLoop_replay]; exact ih s

theorem romFrame_registered {σ : Type} (env : Env σ) (edc : EdcState) (id : Nat)
    (hreg : Registered env.crcMax edc dallasConfig) : ∃ f, romFrame env edc id = some f := by
  unfold romFrame
  simp only
  have h := calculate_registered env.crcMax edc dallasConfig env.lutIdxInit
    (bytesLE (((id <<< 8) % 18446744073709551616) ||| DS18B20_FAMILY_CODE) 8) 7 hreg (by decide)
    (by rw [bytesLE_length]; decide)
  have hp : dallasConfig.poly % 256 = CRC_POLY_CODE := rfl
  rw [hp] at h
  rw [h]
  exact ⟨_, rfl⟩

/-- On a bus that answers the reset with a presence pulse, reports the
conversion as done and then plays back the nine bytes of a scratch-pad whose
CRC is zero, `DS18B20_ReadTemp` for one device succeeds on the first pass and
stores the decoding of that scratch-pad. -/
theorem readTemp_replay (env : Env (List Bool)) (st : DsState (List Bool)) (rom : Nat → Nat)
    (sp : List Nat) (rxInit : Nat → List Nat) (henv : env.ops = replayHw)
    (hreg : Registered env.crcMax st.edc dallasConfig) (hrom : rom 0 ≠ 0)
    (hhw : st.hw = true :: bytesLevels sp) (hlen : sp.length = 9) (hb : ∀ b ∈ sp, b < 256)
    (hcrc : EDC_CalculateCrc env.crcMax st.edc env.lutIdxInit CRC_POLY_CODE (some sp) 9 = some 0) :
    (DS18B20_ReadTemp env st (some rom) false 1 rxInit).map (fun r => (r.1, r.2.1)) =
      some (true, [decodeTemp sp st.tempCorr]) := by
  obtain ⟨f, hf⟩ := romFrame_registered env st.edc (rom 0) hreg
  have hread : readBytes replayHw st.owPinCode 9 (bytesLevels sp) = (sp, []) := by
    have := readBytes_replay st.owPinCode sp [] hb
    rw [hlen, List.append_nil] at this
    exact this
  have hres : ∀ (pin : Nat) (l : List Bool), replayHw.resetLevel pin l = (false, l) :=
    fun _ _ => rfl
  have hrl : ∀ (pin : Nat) (l : List Bool), replayHw.readLevel pin l = (l.headD true, l.tail) :=
    fun _ _ => rfl
  have hdev : readDevices env st rom 1 1 0 0 rxInit (bytesLevels sp) =
      ReadOutcome.left 1 1 (fun i => if i = 0 then sp else rxInit i) [] := by
    simp only [readDevices, OW_Reset, Reset, henv, hf, OW_WriteByte, OW_WriteMultiByte,
      writeByteLoop_replay, writeBytes_replay, OW_ReadMultiByte, show (9 % 256) = 9 from rfl,
      hres, hread, hcrc]
    simp [pinVal]
  simp only [DS18B20_ReadTemp, OW_ReadBit, ReadBit, henv, hhw, hrl, List.headD_cons,
    List.tail_cons]
  simp [pinVal, hrom, readPasses, DS_READ_RAM_REPEAT_COUNT, hdev]
  rfl

theorem msb_low_bits : ∀ m, m < 8 → (m &&& 0x07 = m ∧ m &&& 0x08 = 0) := by
  decide

theorem decodeTemp_nonnegative (rx : List Nat) (corr : ℚ) (h0 : rx.getD 0 0 < 256)
    (h1 : rx.getD 1 0 < 8) :
    decodeTemp rx corr = ((256 * rx.getD 1 0 + rx.getD 0 0 : ℕ) : ℚ) / 16 + corr := by
  unfold decodeTemp
  generalize rx.getD 0 0 = lsb at h0 ⊢
  generalize rx.getD 1 0 = msb at h1 ⊢
  obtain ⟨m1, m2⟩ := msb_low_bits msb h1
  have hq : lsb >>> 4 = lsb / 16 := Nat.shiftRight_eq_div_pow lsb 4
  have hi : (((msb &&& 0x07) <<< 4) ||| (lsb >>> 4)) % 256 = msb * 16 + lsb / 16 := by
    rw [m1, hq, Nat.shiftLeft_eq, mul_or_eq msb (lsb / 16) 4 (by omega)]
    omega
  have hf : (lsb &&& 0x0F) % 256 = lsb % 16 := by
    rw [show (0x0F : Nat) = 2 ^ 4 - 1 from rfl, Nat.and_pow_two_sub_one_eq_mod]
    omega
  rw [hi, hf, m2]
  have hsplit : (lsb : ℚ) = 16 * ((lsb / 16 : ℕ) : ℚ) + ((lsb % 16 : ℕ) : ℚ) := by
    have := Nat.div_add_mod lsb 16
    exact_mod_cast this.symm
  simp only [ne_eq, not_true_eq_false, if_false]
  push_cast
  rw [hsplit]
  ring

/-! ### The search on a bus where no device answers -/

theorem writeByteLoop_quiet (tick pin byte : Nat) :
    ∀ (k idx c : Nat), writeByteLoop (quietHw tick) pin byte k idx c = c := by
  intro k
  induction k with
  | zero => intro idx c; rfl
  | succ k ih => intro idx c; simp only [writeByteLoop]; exact ih _ _

theorem searchPass_quiet (tick pin cmd : Nat) (st : DsState Nat) (v : SearchVars) (c : Nat) :
    searchPass (quietEnv tick) pin cmd st v c =
      PassOutcome.atCondition { v with isResetSearch := true } c := by
  have hw : OW_WriteByte (quietEnv tick).ops pin cmd c = c := writeByteLoop_quiet tick pin _ 8 0 c
  have hb : searchBits (quietEnv tick).ops pin v.lastDiscrepancy (v.romIdBuff (v.deviceCount - 1))
      64 0 0 (-1) v.isResetSearch c =
      { romData := 0, lastZero := -1, isResetSearch := true, hw := c } := by
    simp [searchBits, OW_ReadBit, ReadBit, quietEnv, quietHw, pinVal]
  unfold searchPass
  simp only [hw, hb]
  simp [DS18B20_FAMILY_CODE]

/-- On the quiet bus no pass changes `isLastDevice` or `repeatSearchCount`; as
long as the counter stays below the deadline the loop starts pass after pass. -/
theorem searchLoop_quiet (tick pin cmd timeout : Nat) (st : DsState Nat)
    (ht : timeout ≤ 4294967296) :
    ∀ (fuel : Nat) (v : SearchVars) (c : Nat), v.isLastDevice = false →
      v.repeatSearchCount < DS_SEARCH_DEVICE_REPEAT_COUNT → c + fuel * tick < timeout →
      searchLoop (quietEnv tick) pin cmd timeout st fuel v c = none := by
  intro fuel
  induction fuel with
  | zero => intro v c _ _ _; rfl
  | succ fuel ih =>
    intro v c hl hr hc
    have hc1 : c < timeout := by
      have : c ≤ c + (fuel + 1) * tick := Nat.le_add_right _ _
      omega
    have hmod : c % 4294967296 = c := Nat.mod_eq_of_lt (by omega)
    have hnext : c + tick + fuel * tick < timeout := by
      have : (fuel + 1) * tick = fuel * tick + tick := by ring
      omega
    unfold searchLoop
    rw [searchPass_quiet]
    simp only [searchCond, hl, hr, and_self, if_true, quietEnv, quietHw, hmod, gt_iff_lt, hc1,
      decide_True]
    exact ih _ _ rfl (by simpa using hr) hnext

theorem generateCrcLut_quietStart (tick : Nat) :
    GenerateCrcLut (quietEnv tick) quietStart =
      (true, { quietStart with
        isCrcLutGenerated := true,
        edc := (EDC_GenerateCrcLut 1 (EdcState.init 1) dallasConfig).2 }) := by
  have e : (EDC_GenerateCrcLut 1 (EdcState.init 1) dallasConfig).1 = true := by decide
  simp [GenerateCrcLut, quietStart, quietEnv, e]

theorem searchDevice_quiet (tick fuel : Nat) (romIdBuff : Nat → Nat) (searchMode : SearchMode_t)
    (h : (fuel + 1) * tick < 4000000) :
    SearchDevice (quietEnv tick) fuel quietStart 1 romIdBuff searchMode = none := by
  have hsum : (fuel + 1) * tick = tick + fuel * tick := by ring
  unfold SearchDevice
  rw [generateCrcLut_quietStart]
  simp only [OW_ConfigBus, OW_Reset, Reset, quietEnv, quietHw, pinVal, quietStart,
    show ¬ (1 = 0) by decide, if_false, Bool.not_true, Bool.false_eq_true,
    beq_self_eq_true, Bool.not_false, DS_CONV_TEMP_TIMEOUT_MS]
  exact searchLoop_quiet tick 1 _ _ _ (by norm_num) fuel _ _ rfl
    (by simp [DS_SEARCH_DEVICE_REPEAT_COUNT]) (by norm_num; omega)

/-! ### The bit loop of the search: what the candidate determines -/

theorem searchBits_succ {σ : Type} (hw : Hw σ) (pinCode : Nat) (ld : Int) (prevId : Nat)
    (k idx romData : Nat) (lz : Int) (rs : Bool) (s : σ) :
    searchBits hw pinCode ld prevId (k + 1) idx romData lz rs s =
      if (OW_ReadBit hw pinCode s).1 = (OW_ReadBit hw pinCode (OW_ReadBit hw pinCode s).2).1 ∧
          (OW_ReadBit hw pinCode s).1 = 1 then
        { romData := romData, lastZero := lz, isResetSearch := true,
          hw := (OW_ReadBit hw pinCode (OW_ReadBit hw pinCode s).2).2 }
      else
        searchBits hw pinCode ld prevId k (idx + 1)
          (romData ||| ((searchNextBit ld prevId idx (OW_ReadBit hw pinCode s).1
            (OW_ReadBit hw pinCode (OW_ReadBit hw pinCode s).2).1 <<< idx) %
              18446744073709551616))
          (if (OW_ReadBit hw pinCode s).1 =
                (OW_ReadBit hw pinCode (OW_ReadBit hw pinCode s).2).1 ∧
              (OW_ReadBit hw pinCode s).1 = 0 ∧
              searchNextBit ld prevId idx (OW_ReadBit hw pinCode s).1
                (OW_ReadBit hw pinCode (OW_ReadBit hw pinCode s).2).1 = 0
            then (idx : Int) else lz)
          rs
          (OW_WriteBit hw pinCode (searchNextBit ld prevId idx (OW_ReadBit hw pinCode s).1
            (OW_ReadBit hw pinCode (OW_ReadBit hw pinCode s).2).1)
            (OW_ReadBit hw pinCode (OW_ReadBit hw pinCode s).2).2) := rfl

theorem readBit_le_one {σ : Type} (hw : Hw σ) (pinCode : Nat) (s : σ) :
    (OW_ReadBit hw pinCode s).1 ≤ 1 := by
  unfold OW_ReadBit ReadBit pinVal
  simp only
  split_ifs <;> omega

theorem searchNextBit_le_one (ld : Int) (prevId idx b c : Nat) (hb : b ≤ 1) :
    searchNextBit ld prevId idx b c ≤ 1 := by
  unfold searchNextBit
  split_ifs <;> omega

theorem or_shifted_bit (romData nb idx : Nat) (h : romData < 2 ^ idx) (hnb : nb ≤ 1)
    (hidx : idx < 64) :
    romData ||| ((nb <<< idx) % 18446744073709551616) = romData + nb * 2 ^ idx := by
  have hp : 2 ^ idx < 18446744073709551616 := by
    have : (2 : Nat) ^ idx < 2 ^ 64 := Nat.pow_lt_pow_right (by decide) hidx
    simpa using this
  have hle : nb * 2 ^ idx ≤ 2 ^ idx := by
    calc nb * 2 ^ idx ≤ 1 * 2 ^ idx := Nat.mul_le_mul_right _ hnb
      _ = 2 ^ idx := Nat.one_mul _
  rw [Nat.shiftLeft_eq, Nat.mod_eq_of_lt (by omega), Nat.lor_comm, mul_or_eq nb romData idx h,
    Nat.add_comm]

theorem searchBits_mod {σ : Type} (hw : Hw σ) (pinCode : Nat) (ld : Int) (prevId : Nat) :
    ∀ (k idx romData : Nat) (lz : Int) (rs : Bool) (s : σ), idx + k ≤ 64 → romData < 2 ^ idx →
      (searchBits hw pinCode ld prevId k idx romData lz rs s).romData % 2 ^ idx = romData := by
  intro k
  induction k with
  | zero => intro idx romData lz rs s _ h; exact Nat.mod_eq_of_lt h
  | succ k ih =>
    intro idx romData lz rs s hk h
    rw [searchBits_succ]
    by_cases hb : (OW_ReadBit hw pinCode s).1 =
        (OW_ReadBit hw pinCode (OW_ReadBit hw pinCode s).2).1 ∧ (OW_ReadBit hw pinCode s).1 = 1
    · rw [if_pos hb]; exact Nat.mod_eq_of_lt h
    · rw [if_neg hb]
      have hnb := searchNextBit_le_one ld prevId idx (OW_ReadBit hw pinCode s).1
        (OW_ReadBit hw pinCode (OW_ReadBit hw pinCode s).2).1 (readBit_le_one hw pinCode s)
      generalize searchNextBit ld prevId idx (OW_ReadBit hw pinCode s).1
        (OW_ReadBit hw pinCode (OW_ReadBit hw pinCode s).2).1 = nb at hnb ⊢
      rw [or_shifted_bit romData nb idx h hnb (by omega)]
      have hlt : romData + nb * 2 ^ idx < 2 ^ (idx + 1) := by
        have : nb * 2 ^ idx ≤ 1 * 2 ^ idx := Nat.mul_le_mul_right _ hnb
        rw [Nat.pow_succ]; omega
      generalize (if (OW_ReadBit hw pinCode s).1 =
                (OW_ReadBit hw pinCode (OW_ReadBit hw pinCode s).2).1 ∧
              (OW_ReadBit hw pinCode s).1 = 0 ∧ nb = 0 then (idx : Int) else lz) = lz1
      generalize OW_WriteBit hw pinCode nb
        (OW_ReadBit hw pinCode (OW_ReadBit hw pinCode s).2).2 = s1
      have h1 := ih (idx + 1) (romData + nb * 2 ^ idx) lz1 rs s1 (by omega) hlt
      have h2 : ∀ x : Nat, x % 2 ^ idx = (x % 2 ^ (idx + 1)) % 2 ^ idx := by
        intro x
        rw [Nat.mod_mod_of_dvd _ (pow_dvd_pow 2 (Nat.le_succ idx))]
      rw [h2, h1, Nat.add_mul_mod_self_right, Nat.mod_eq_of_lt h]

/-- Two runs of the bit loop from the same bus state that end with the same
candidate made the same choice at every bit: they end with the same
`lastZero`, flag and bus state, whatever the discrepancy marker and the stored
identifier they worked from. -/
theorem searchBits_determined {σ : Type} (hw : Hw σ) (pinCode : Nat) (ld1 ld2 : Int)
    (prev1 prev2 : Nat) :
    ∀ (k idx romData : Nat) (lz : Int) (rs : Bool) (s : σ), idx + k ≤ 64 → romData < 2 ^ idx →
      (searchBits hw pinCode ld1 prev1 k idx romData lz rs s).romData =
        (searchBits hw pinCode ld2 prev2 k idx romData lz rs s).romData →
      searchBits hw pinCode ld1 prev1 k idx romData lz rs s =
        searchBits hw pinCode ld2 prev2 k idx romData lz rs s := by
  intro k
  induction k with
  | zero => intro idx romData lz rs s _ _ _; rfl
  | succ k ih =>
    intro idx romData lz rs s hk h heq
    rw [searchBits_succ, searchBits_succ] at heq ⊢
    by_cases hb : (OW_ReadBit hw pinCode s).1 =
        (OW_ReadBit hw pinCode (OW_ReadBit hw pinCode s).2).1 ∧ (OW_ReadBit hw pinCode s).1 = 1
    · rw [if_pos hb, if_pos hb]
    · rw [if_neg hb, if_neg hb] at heq ⊢
      have hn1 := searchNextBit_le_one ld1 prev1 idx (OW_ReadBit hw pinCode s).1
        (OW_ReadBit hw pinCode (OW_ReadBit hw pinCode s).2).1 (readBit_le_one hw pinCode s)
      have hn2 := searchNextBit_le_one ld2 prev2 idx (OW_ReadBit hw pinCode s).1
        (OW_ReadBit hw pinCode (OW_ReadBit hw pinCode s).2).1 (readBit_le_one hw pinCode s)
      generalize searchNextBit ld1 prev1 idx (OW_ReadBit hw pinCode s).1
        (OW_ReadBit hw pinCode (OW_ReadBit hw pinCode s).2).1 = nb1 at hn1 heq ⊢
      generalize searchNextBit ld2 prev2 idx (OW_ReadBit hw pinCode s).1
        (OW_ReadBit hw pinCode (OW_ReadBit hw pinCode s).2).1 = nb2 at hn2 heq ⊢
      rw [or_shifted_bit romData nb1 idx h hn1 (by omega),
        or_shifted_bit romData nb2 idx h hn2 (by omega)] at heq ⊢
      have hpos : 0 < 2 ^ idx := Nat.two_pow_pos idx
      have hlt1 : romData + nb1 * 2 ^ idx < 2 ^ (idx + 1) := by
        have : nb1 * 2 ^ idx ≤ 1 * 2 ^ idx := Nat.mul_le_mul_right _ hn1
        rw [Nat.pow_succ]; omega
      have hlt2 : romData + nb2 * 2 ^ idx < 2 ^ (idx + 1) := by
        have : nb2 * 2 ^ idx ≤ 1 * 2 ^ idx := Nat.mul_le_mul_right _ hn2
        rw [Nat.pow_succ]; omega
      have m1 := searchBits_mod hw pinCode ld1 prev1 k (idx + 1) (romData + nb1 * 2 ^ idx)
        (if (OW_ReadBit hw pinCode s).1 =
                (OW_ReadBit hw pinCode (OW_ReadBit hw pinCode s).2).1 ∧
              (OW_ReadBit hw pinCode s).1 = 0 ∧ nb1 = 0 then (idx : Int) else lz) rs
        (OW_WriteBit hw pinCode nb1 (OW_ReadBit hw pinCode (OW_ReadBit hw pinCode s).2).2)
        (by omega) hlt1
      have m2 := searchBits_mod hw pinCode ld2 prev2 k (idx + 1) (romData + nb2 * 2 ^ idx)
        (if (OW_ReadBit hw pinCode s).1 =
                (OW_ReadBit hw pinCode (OW_ReadBit hw pinCode s).2).1 ∧
              (OW_ReadBit hw pinCode s).1 = 0 ∧ nb2 = 0 then (idx : Int) else lz) rs
        (OW_WriteBit hw pinCode nb2 (OW_ReadBit hw pinCode (OW_ReadBit hw pinCode s).2).2)
        (by omega) hlt2
      rw [heq, m2] at m1
      have hnb : nb1 = nb2 := by
        have : nb2 * 2 ^ idx = nb1 * 2 ^ idx := by omega
        exact (Nat.eq_of_mul_eq_mul_right hpos this).symm
      subst hnb
      exact ih _ _ _ _ _ (by omega) hlt1 heq

/-- The body of the loop, written over the result `p` of its pass over the ROM
bits. -/
theorem searchPass_eq {σ : Type} (env : Env σ) (pinCode searchCmd : Nat) (st : DsState σ)
    (v : SearchVars) (s : σ) (p : PassResult σ)
    (hp : searchBits env.ops pinCode v.lastDiscrepancy (v.romIdBuff (v.deviceCount - 1))
      64 0 0 (-1) v.isResetSearch (OW_WriteByte env.ops pinCode searchCmd s) = p) :
    searchPass env pinCode searchCmd st v s =
      if p.romData &&& 0xFF = DS18B20_FAMILY_CODE then
        match (if p.isResetSearch = false then
            (EDC_CalculateCrc env.crcMax st.edc env.lutIdxInit CRC_POLY_CODE
              (some (bytesLE p.romData 8)) 8).map (fun c => c == 0)
          else some false) with
        | none => PassOutcome.undefined
        | some true =>
          if p.lastZero = -1 then
            PassOutcome.atCondition
              { v with romIdBuff := fun i =>
                         if i = v.deviceCount then (p.romData >>> 8) &&& 0xFFFFFFFFFFFF
                         else v.romIdBuff i,
                       lastDiscrepancy := p.lastZero, isLastDevice := true,
                       isResetSearch := p.isResetSearch, deviceCount := v.deviceCount + 1,
                       accepted := v.accepted ++ [p.romData] } p.hw
          else
            if !(OW_Reset env.ops pinCode p.hw).1 then
              PassOutcome.returned
                { count := 0,
                  romIdBuff := fun i =>
                    if i = v.deviceCount then (p.romData >>> 8) &&& 0xFFFFFFFFFFFF
                    else v.romIdBuff i,
                  accepted := [], st := { st with hw := (OW_Reset env.ops pinCode p.hw).2 } }
            else
              PassOutcome.atCondition
                { v with romIdBuff := fun i =>
                           if i = v.deviceCount then (p.romData >>> 8) &&& 0xFFFFFFFFFFFF
                           else v.romIdBuff i,
                         lastDiscrepancy := p.lastZero,
                         isResetSearch := p.isResetSearch, deviceCount := v.deviceCount + 1,
                         accepted := v.accepted ++ [p.romData] }
                (OW_Reset env.ops pinCode p.hw).2
        | some false =>
          PassOutcome.atCondition
            { v with romIdBuff := fun i =>
                       if i = v.deviceCount then (p.romData >>> 8) &&& 0xFFFFFFFFFFFF
                       else v.romIdBuff i,
                     lastDiscrepancy := -1, isLastDevice := false,
                     isResetSearch := false, deviceCount := 0,
                     repeatSearchCount := v.repeatSearchCount + 1, accepted := [] } p.hw
      else
        PassOutcome.atCondition { v with isResetSearch := p.isResetSearch } p.hw := by
  subst hp
  rfl

/-! ### The simulated bus -/

theorem silent_readBit (pin : Nat) (b : SimBus) (h : b.Silent) :
    (OW_ReadBit simHw pin b).1 = 1 ∧ (OW_ReadBit simHw pin b).2.Silent := by
  obtain ⟨hc, hp | hs⟩ := h
  · have hp2 : (64 ≤ b.pos) = True := eq_true hp
    simp [OW_ReadBit, ReadBit, simHw, pinVal, SimBus.Silent, hc, hp2]
  · by_cases h0 : b.phase = 0
    · simp [OW_ReadBit, ReadBit, simHw, pinVal, SimBus.Silent, SimBus.wiredAnd, hc, hs, h0]
      split_ifs <;> simp [hc, hs]
    · by_cases h1 : b.phase = 1
      · simp [OW_ReadBit, ReadBit, simHw, pinVal, SimBus.Silent, SimBus.wiredAnd, hc, hs, h1]
        split_ifs <;> simp [hc, hs]
      · simp [OW_ReadBit, ReadBit, simHw, pinVal, SimBus.Silent, SimBus.wiredAnd, hc, hs, h0, h1]

theorem silent_writeSlot (pin : Nat) (bit : Bool) (b : SimBus) (h : b.Silent) :
    (simHw.writeSlot pin bit b).Silent := by
  obtain ⟨hc, hp | hs⟩ := h
  · have hp2 : ¬ b.pos < 64 := by omega
    simp [simHw, SimBus.Silent, hc, hp2, hp]
  · simp only [simHw, SimBus.Silent, hc]
    split_ifs <;> simp [hc, hs]

theorem silent_writeByteLoop (pin byte : Nat) :
    ∀ (k idx : Nat) (b : SimBus), b.Silent → (writeByteLoop simHw pin byte k idx b).Silent := by
  intro k
  induction k with
  | zero => intro idx b h; exact h
  | succ k ih =>
    intro idx b h
    unfold writeByteLoop
    exact ih _ _ (silent_writeSlot pin _ b h)

theorem searchBits_silent (pin : Nat) (ld : Int) (prev k idx romData : Nat) (lz : Int) (rs : Bool)
    (b : SimBus) (h : b.Silent) (hk : 0 < k) :
    ∃ b2 : SimBus, b2.Silent ∧
      searchBits simHw pin ld prev k idx romData lz rs b =
        { romData := romData, lastZero := lz, isResetSearch := true, hw := b2 } := by
  obtain ⟨h1, hs1⟩ := silent_readBit pin b h
  obtain ⟨h2, hs2⟩ := silent_readBit pin _ hs1
  refine ⟨_, hs2, ?_⟩
  cases k with
  | zero => omega
  | succ k => rw [searchBits_succ, if_pos ⟨by rw [h1, h2], h1⟩]

theorem searchPass_silent (n u pin cmd : Nat) (st : DsState SimBus) (v : SearchVars) (s : SimBus)
    (h : s.Silent) :
    ∃ s2 : SimBus, s2.Silent ∧
      searchPass (simEnv n u) pin cmd st v s =
        PassOutcome.atCondition { v with isResetSearch := true } s2 := by
  have hw8 : (OW_WriteByte simHw pin cmd s).Silent := silent_writeByteLoop pin (cmd % 256) 8 0 s h
  obtain ⟨b2, hb2, he⟩ := searchBits_silent pin v.lastDiscrepancy
    (v.romIdBuff (v.deviceCount - 1)) 64 0 0 (-1) v.isResetSearch _ hw8 (by omega)
  refine ⟨b2, hb2, ?_⟩
  rw [searchPass_eq (simEnv n u) pin cmd st v s _ he]
  simp [DS18B20_FAMILY_CODE]

theorem searchCond_sim (n u timeout : Nat) (v : SearchVars) (s : SimBus) :
    (searchCond (simEnv n u) timeout v s).2 = s := by
  unfold searchCond
  split_ifs <;> rfl

theorem searchLoop_silent (n u pin cmd timeout : Nat) (st : DsState SimBus) :
    ∀ (fuel : Nat) (v : SearchVars) (s : SimBus) (res : SearchResult SimBus),
      s.Silent → v.isLastDevice = false →
      searchLoop (simEnv n u) pin cmd timeout st fuel v s = some res → res.count = 0 := by
  intro fuel
  induction fuel with
  | zero => intro v s res _ _ h; simp [searchLoop] at h
  | succ fuel ih =>
    intro v s res hs hl h
    obtain ⟨s2, hs2, hp⟩ := searchPass_silent n u pin cmd st v s hs
    unfold searchLoop at h
    rw [hp] at h
    simp only at h
    rw [searchCond_sim] at h
    split_ifs at h
    · exact ih _ _ res hs2 (by simpa using hl) h
    · simp only [Option.some.injEq] at h
      subst h
      simp [searchExit, hl]

theorem all_and_all_not {α : Type} (p : α → Bool) :
    ∀ l : List α, l.all p = true → l.all (fun a => !p a) = true → l = [] := by
  intro l h1 h2
  cases l with
  | nil => rfl
  | cons a l =>
    simp only [List.all_cons, Bool.and_eq_true] at h1 h2
    have := h1.1
    have := h2.1
    simp_all

theorem sim_reads (pin : Nat) (b : SimBus) (hc : b.cmdLeft = 0) (hph : b.phase = 0)
    (hpos : b.pos < 64) :
    OW_ReadBit simHw pin b =
        (pinVal (b.selected.all (fun r => r.testBit b.pos)), { b with phase := 1 }) ∧
      OW_ReadBit simHw pin { b with phase := 1 } =
        (pinVal (b.selected.all (fun r => !r.testBit b.pos)), { b with phase := 2 }) := by
  have hp2 : ¬ 64 ≤ b.pos := by omega
  constructor
  · simp [OW_ReadBit, ReadBit, simHw, SimBus.wiredAnd, hc, hph, hp2]
  · simp [OW_ReadBit, ReadBit, simHw, SimBus.wiredAnd, hc, hp2]

theorem sim_write (pin nb : Nat) (b : SimBus) (hc : b.cmdLeft = 0) (hpos : b.pos < 64) :
    OW_WriteBit simHw pin nb { b with phase := 2 } =
      { b with selected := b.selected.filter (fun r => r.testBit b.pos == (nb &&& 0x01 != 0)),
               phase := 0, pos := b.pos + 1 } := by
  simp [OW_WriteBit, simHw, hc, hpos]

theorem searchBits_ends_silent (pin : Nat) (ld : Int) (prev : Nat) :
    ∀ (k idx romData : Nat) (lz : Int) (rs : Bool) (b : SimBus),
      b.cmdLeft = 0 → b.phase = 0 → b.pos = idx → idx + k = 64 →
      (searchBits simHw pin ld prev k idx romData lz rs b).hw.Silent := by
  intro k
  induction k with
  | zero =>
    intro idx romData lz rs b hc _ hpos hk
    exact ⟨hc, Or.inl (by simp only [searchBits]; omega)⟩
  | succ k ih =>
    intro idx romData lz rs b hc hph hpos hk
    obtain ⟨hr1, hr2⟩ := sim_reads pin b hc hph (by omega)
    rw [searchBits_succ]
    rw [hr1]
    simp only
    rw [hr2]
    simp only
    split_ifs with hb
    · obtain ⟨hb1, hb2⟩ := hb
      have ha : b.selected.all (fun r => r.testBit b.pos) = true := by
        unfold pinVal at hb2; split_ifs at hb2 with hx
        · exact hx
      have hb3 : pinVal (b.selected.all (fun r => !r.testBit b.pos)) = 1 := by rw [← hb1, hb2]
      have hn : b.selected.all (fun r => !r.testBit b.pos) = true := by
        unfold pinVal at hb3; split_ifs at hb3 with hx
        · exact hx
      exact ⟨hc, Or.inr (all_and_all_not _ _ ha hn)⟩
    all_goals
      rw [sim_write pin _ b hc (by omega)]
      exact ih _ _ _ _ _ hc rfl (by simp [hpos]) (by omega)

theorem sim_writeCmd (pin cmd : Nat) (roms : List Nat) :
    OW_WriteByte simHw pin cmd (simAfterReset roms) = simAtFirstBit roms := by
  simp [OW_WriteByte, writeByteLoop, simHw, simAfterReset, simAtFirstBit]

theorem sim_reset (pin : Nat) (b : SimBus) :
    OW_Reset simHw pin b = (!b.roms.isEmpty, simAfterReset b.roms) := by
  simp only [OW_Reset, Reset, simHw, simAfterReset, pinVal]
  by_cases h : b.roms.isEmpty = true <;> simp [h]

/-! ### The passes of a search on the simulated bus -/

theorem sim_readBit_roms (pin : Nat) (b : SimBus) : (OW_ReadBit simHw pin b).2.roms = b.roms := by
  simp only [OW_ReadBit, ReadBit, simHw]
  split_ifs <;> rfl

theorem sim_writeBit_roms (pin nb : Nat) (b : SimBus) :
    (OW_WriteBit simHw pin nb b).roms = b.roms := by
  simp only [OW_WriteBit, simHw]
  split_ifs <;> rfl

theorem searchBits_roms (pin : Nat) (ld : Int) (prev : Nat) :
    ∀ (k idx romData : Nat) (lz : Int) (rs : Bool) (b : SimBus),
      (searchBits simHw pin ld prev k idx romData lz rs b).hw.roms = b.roms := by
  intro k
  induction k with
  | zero => intro idx romData lz rs b; rfl
  | succ k ih =>
    intro idx romData lz rs b
    rw [searchBits_succ]
    by_cases hb : (OW_ReadBit simHw pin b).1 =
        (OW_ReadBit simHw pin (OW_ReadBit simHw pin b).2).1 ∧ (OW_ReadBit simHw pin b).1 = 1
    · rw [if_pos hb]
      show (OW_ReadBit simHw pin (OW_ReadBit simHw pin b).2).2.roms = b.roms
      rw [sim_readBit_roms, sim_readBit_roms]
    · rw [if_neg hb, ih, sim_writeBit_roms, sim_readBit_roms, sim_readBit_roms]

theorem simPass_roms (roms : List Nat) (pin : Nat) (x : Int × Nat) :
    (simPass roms pin x).hw.roms = roms :=
  searchBits_roms pin x.1 x.2 64 0 0 (-1) false (simAtFirstBit roms)

theorem simPass_silent (roms : List Nat) (pin : Nat) (x : Int × Nat) :
    (simPass roms pin x).hw.Silent :=
  searchBits_ends_silent pin x.1 x.2 64 0 0 (-1) false (simAtFirstBit roms) rfl rfl rfl rfl

theorem simPass_lt (roms : List Nat) (pin : Nat) (x : Int × Nat) :
    (simPass roms pin x).romData < 2 ^ 64 :=
  searchBits_romData_lt simHw pin x.1 x.2 64 0 0 (-1) false (simAtFirstBit roms) (by decide)

/-- Two passes that end with the same candidate end with the same `lastZero`. -/
theorem simPass_determined (roms : List Nat) (pin : Nat) (x y : Int × Nat)
    (h : (simPass roms pin x).romData = (simPass roms pin y).romData) :
    simPass roms pin x = simPass roms pin y :=
  searchBits_determined simHw pin x.1 y.1 x.2 y.2 64 0 0 (-1) false (simAtFirstBit roms)
    (by decide) (by decide) h

theorem searchPass_sim (n u pin cmd : Nat) (v : SearchVars)
    (roms : List Nat) (hrs : v.isResetSearch = false) :
    searchBits (simEnv n u).ops pin v.lastDiscrepancy (v.romIdBuff (v.deviceCount - 1))
        64 0 0 (-1) v.isResetSearch (OW_WriteByte (simEnv n u).ops pin cmd (simAfterReset roms)) =
      simPass roms pin (v.lastDiscrepancy, v.romIdBuff (v.deviceCount - 1)) := by
  have hops : (simEnv n u).ops = simHw := rfl
  rw [hops, sim_writeCmd, hrs]
  rfl

/-- A loop that has left the simulated bus silent returns the count 0, if it
returns. -/
theorem searchLoop_after_silent (n u pin cmd timeout : Nat) (st : DsState SimBus) (fuel : Nat)
    (v1 : SearchVars) (s1 : SimBus) (res : SearchResult SimBus) (hs : s1.Silent)
    (hl : v1.isLastDevice = false)
    (h : (if (searchCond (simEnv n u) timeout v1 s1).1 then
        searchLoop (simEnv n u) pin cmd timeout st fuel v1 (searchCond (simEnv n u) timeout v1 s1).2
      else some (searchExit st v1 (searchCond (simEnv n u) timeout v1 s1).2)) = some res) :
    res.count = 0 := by
  rw [searchCond_sim] at h
  split_ifs at h
  · exact searchLoop_silent n u pin cmd timeout st fuel v1 s1 res hs hl h
  · simp only [Option.some.injEq] at h
    subst h
    simp [searchExit, hl]

/-- The passes behind a count returned on the simulated bus.  With `x` the pair
of `lastDiscrepancy` and the buffer entry last stored when the loop is entered
after a reset, the search returns `deviceCount + m` only after `m` passes that
were all accepted: pass `d` starts from the `d`-th iterate of `simNext` on `x`,
stores its identifier at position `deviceCount + d`, only the last pass ends
with `lastZero = -1`, and the entries below `deviceCount` are left as they
were. -/
theorem searchLoop_sim (n u pin cmd timeout : Nat) (st : DsState SimBus) (roms : List Nat) :
    ∀ (fuel : Nat) (v : SearchVars) (res : SearchResult SimBus),
      v.isLastDevice = false → v.isResetSearch = false →
      searchLoop (simEnv n u) pin cmd timeout st fuel v (simAfterReset roms) = some res →
      0 < res.count →
      ∃ m, 0 < m ∧ res.count = v.deviceCount + m ∧
        (∀ k, k < v.deviceCount → res.romIdBuff k = v.romIdBuff k) ∧
        (∀ d, d < m →
          res.romIdBuff (v.deviceCount + d) =
            ((simNext roms pin)^[d + 1]
              (v.lastDiscrepancy, v.romIdBuff (v.deviceCount - 1))).2 ∧
          (simPass roms pin ((simNext roms pin)^[d]
              (v.lastDiscrepancy, v.romIdBuff (v.deviceCount - 1)))).romData &&& 0xFF =
            DS18B20_FAMILY_CODE ∧
          EDC_CalculateCrc n st.edc u CRC_POLY_CODE
            (some (bytesLE (simPass roms pin ((simNext roms pin)^[d]
              (v.lastDiscrepancy, v.romIdBuff (v.deviceCount - 1)))).romData 8)) 8 = some 0) ∧
        (∀ d, d + 1 < m →
          ((simNext roms pin)^[d + 1]
            (v.lastDiscrepancy, v.romIdBuff (v.deviceCount - 1))).1 ≠ -1) ∧
        ((simNext roms pin)^[m] (v.lastDiscrepancy, v.romIdBuff (v.deviceCount - 1))).1 = -1 := by
  intro fuel
  induction fuel with
  | zero => intro v res _ _ h; simp [searchLoop] at h
  | succ fuel ih =>
    intro v res hl hrs h hcount
    unfold searchLoop at h
    rw [searchPass_eq (simEnv n u) pin cmd st v _ _ (searchPass_sim n u pin cmd v roms hrs)] at h
    have hsil := simPass_silent roms pin (v.lastDiscrepancy, v.romIdBuff (v.deviceCount - 1))
    have hroms := simPass_roms roms pin (v.lastDiscrepancy, v.romIdBuff (v.deviceCount - 1))
    have hnext : simNext roms pin (v.lastDiscrepancy, v.romIdBuff (v.deviceCount - 1)) =
        ((simPass roms pin (v.lastDiscrepancy, v.romIdBuff (v.deviceCount - 1))).lastZero,
          ((simPass roms pin (v.lastDiscrepancy, v.romIdBuff (v.deviceCount - 1))).romData >>> 8)
            &&& 0xFFFFFFFFFFFF) := rfl
    generalize hx : (v.lastDiscrepancy, v.romIdBuff (v.deviceCount - 1)) = x at h hsil hroms hnext ⊢
    generalize hp : simPass roms pin x = p at h hsil hroms hnext
    have hcm : (simEnv n u).crcMax = n := rfl
    have hli : (simEnv n u).lutIdxInit = u := rfl
    have hops : (simEnv n u).ops = simHw := rfl
    rw [hcm, hli, hops, sim_reset, hroms] at h
    by_cases hfam : p.romData &&& 0xFF = DS18B20_FAMILY_CODE
    · rw [if_pos hfam] at h
      by_cases hprs : p.isResetSearch = false
      · rw [if_pos hprs] at h
        cases hcrc : EDC_CalculateCrc n st.edc u CRC_POLY_CODE (some (bytesLE p.romData 8)) 8 with
        | none => rw [hcrc] at h; simp at h
        | some c =>
          rw [hcrc] at h
          by_cases hc0 : c = 0
          · subst hc0
            simp only [Option.map_some', beq_self_eq_true] at h
            by_cases hlz : p.lastZero = -1
            · rw [if_pos hlz] at h
              simp only [searchCond, Bool.true_eq_false, false_and, if_false,
                Bool.false_eq_true, Option.some.injEq] at h
              subst h
              refine ⟨1, by decide, by simp [searchExit], ?_, ?_, ?_, ?_⟩
              · intro k hk
                have : k ≠ v.deviceCount := by omega
                simp [searchExit, this]
              · intro d hd
                have hd0 : d = 0 := by omega
                subst hd0
                refine ⟨?_, ?_, ?_⟩
                · simp [searchExit, hnext]
                · simpa [hp] using hfam
                · simpa [hp] using hcrc
              · intro d hd; omega
              · simp [hnext, hlz]
            · rw [if_neg hlz] at h
              by_cases hemp : roms.isEmpty = true
              · simp only [hemp, Bool.not_true, Bool.not_false, if_true] at h
                have hres : res.count = 0 := by
                  simp only [Option.some.injEq] at h
                  subst h
                  rfl
                omega
              · have hemp2 : roms.isEmpty = false := by simpa using hemp
                simp only [hemp2, Bool.not_false, Bool.not_true, Bool.false_eq_true,
                  if_false] at h
                rw [searchCond_sim] at h
                split_ifs at h with hcond
                · obtain ⟨m, hm, hcnt, hkeep, hent, hmid, hlast⟩ :=
                    ih _ res (by simpa using hl) (by simpa using hprs) h hcount
                  simp only [Nat.add_sub_cancel, if_true] at hent hmid hlast
                  rw [← hnext] at hent hmid hlast
                  refine ⟨m + 1, by omega, by simp only at hcnt; omega, ?_, ?_, ?_, ?_⟩
                  · intro k hk
                    have hne : k ≠ v.deviceCount := by omega
                    rw [hkeep k (by simp only; omega)]
                    simp [hne]
                  · intro d hd
                    cases d with
                    | zero =>
                      refine ⟨?_, ?_, ?_⟩
                      · rw [Nat.add_zero, hkeep v.deviceCount (by simp)]
                        simp [hnext]
                      · simpa [hp] using hfam
                      · simpa [hp] using hcrc
                    | succ d =>
                      obtain ⟨e1, e2, e3⟩ := hent d (by omega)
                      refine ⟨?_, ?_, ?_⟩
                      · rw [Function.iterate_succ_apply, ← e1]
                        congr 1; omega
                      · rw [Function.iterate_succ_apply]; exact e2
                      · rw [Function.iterate_succ_apply]; exact e3
                  · intro d hd
                    cases d with
                    | zero => simpa [hnext] using hlz
                    | succ d =>
                      rw [Function.iterate_succ_apply]
                      exact hmid d (by omega)
                  · rw [Function.iterate_succ_apply]; exact hlast
                · simp only [Option.some.injEq] at h
                  subst h
                  simp [searchExit, hl] at hcount
          · have hb : (c == 0) = false := by simpa using hc0
            simp only [Option.map_some', hb] at h
            have := searchLoop_after_silent n u pin cmd timeout st fuel _ _ res hsil rfl h
            omega
      · rw [if_neg hprs] at h
        simp only at h
        have := searchLoop_after_silent n u pin cmd timeout st fuel _ _ res hsil rfl h
        omega
    · rw [if_neg hfam] at h
      have := searchLoop_after_silent n u pin cmd timeout st fuel _ _ res hsil
        (by simpa using hl) h
      omega

/-! ### An accepted candidate is determined by its identifier -/

theorem dallas_entry_zero :
    ∀ i, i < 256 → crcLutEntry 0x31 8 i &&& 0xFF = 0 → i = 0 := by
  decide!

theorem BitSwap8_eq_zero (y : Nat) (hy : y < 256) (h : BitSwap8 y = 0) : y = 0 := by
  have := BitSwap8_BitSwap8 y hy
  rw [h] at this
  rw [← this]
  decide

theorem BitSwap8_inj (a b : Nat) (ha : a < 256) (hb : b < 256) (h : BitSwap8 a = BitSwap8 b) :
    a = b := by
  rw [← BitSwap8_BitSwap8 a ha, ← BitSwap8_BitSwap8 b hb, h]

/-- The CRC-8 of the driver over eight bytes is zero only for one value of the
last byte, given the first seven. -/
theorem dallas_crc_last_byte (m : List Nat) (c1 c2 : Nat) (h1 : c1 < 256) (h2 : c2 < 256)
    (e1 : crcCompute (fun i => (crcLutRow 0x31 8).getD i 0) 8 true true (m ++ [c1]) = 0)
    (e2 : crcCompute (fun i => (crcLutRow 0x31 8).getD i 0) 8 true true (m ++ [c2]) = 0) :
    c1 = c2 := by
  have key : ∀ c, c < 256 →
      crcCompute (fun i => (crcLutRow 0x31 8).getD i 0) 8 true true (m ++ [c]) = 0 →
      BitSwap8 c = (m.map BitSwap8).foldl
        (crcStep8 (fun i => (crcLutRow 0x31 8).getD i 0)) 0 := by
    intro c hc e
    have hS : (m.map BitSwap8).foldl (crcStep8 (fun i => (crcLutRow 0x31 8).getD i 0)) 0 < 256 :=
      foldl_lt (crcStep8_lt _) _ 0 (by decide)
    simp only [crcCompute, CRC_POLY_SIZE_8, if_true, List.map_append, List.foldl_append,
      List.map_cons, List.map_nil, List.foldl_cons, List.foldl_nil] at e
    generalize (m.map BitSwap8).foldl
      (crcStep8 (fun i => (crcLutRow 0x31 8).getD i 0)) 0 = S at hS e ⊢
    have hlt := BitSwap8_lt (crcStep8 (fun i => (crcLutRow 0x31 8).getD i 0) S (BitSwap8 c))
    rw [Nat.mod_eq_of_lt (by omega)] at e
    have hz := BitSwap8_eq_zero _ (crcStep8_lt _ _ _) e
    unfold crcStep8 at hz
    simp only at hz
    have hi : S ^^^ BitSwap8 c < 256 := by
      have := BitSwap8_lt c
      exact Nat.xor_lt_two_pow (n := 8) hS this
    rw [crcLutRow_getD _ _ _ hi] at hz
    have h0 := dallas_entry_zero _ hi hz
    exact (Nat.xor_eq_zero.mp h0).symm
  exact BitSwap8_inj c1 c2 h1 h2 ((key c1 h1 e1).trans (key c2 h2 e2).symm)

theorem bytesLE_eight (r : Nat) :
    bytesLE r 8 = [r % 256, r / 256 % 256, r / 256 / 256 % 256, r / 256 / 256 / 256 % 256,
      r / 256 / 256 / 256 / 256 % 256, r / 256 / 256 / 256 / 256 / 256 % 256,
      r / 256 / 256 / 256 / 256 / 256 / 256 % 256] ++
      [r / 256 / 256 / 256 / 256 / 256 / 256 / 256 % 256] := rfl

/-- Two candidates with the family code in the low byte, the same identifier in
bits 8..55 and CRC zero under the registered table of the driver are the same
64-bit value. -/
theorem accepted_determined (n u : Nat) (edc : EdcState) (r1 r2 : Nat)
    (hreg : Registered n edc dallasConfig) (hl1 : r1 < 2 ^ 64) (hl2 : r2 < 2 ^ 64)
    (hf1 : r1 &&& 0xFF = DS18B20_FAMILY_CODE) (hf2 : r2 &&& 0xFF = DS18B20_FAMILY_CODE)
    (hs : (r1 >>> 8) &&& 0xFFFFFFFFFFFF = (r2 >>> 8) &&& 0xFFFFFFFFFFFF)
    (hc1 : EDC_CalculateCrc n edc u CRC_POLY_CODE (some (bytesLE r1 8)) 8 = some 0)
    (hc2 : EDC_CalculateCrc n edc u CRC_POLY_CODE (some (bytesLE r2 8)) 8 = some 0) :
    r1 = r2 := by
  have hp : dallasConfig.poly % 256 = CRC_POLY_CODE := rfl
  have k1 := calculate_registered n edc dallasConfig u (bytesLE r1 8) 8 hreg (by decide)
    (by rw [bytesLE_length])
  have k2 := calculate_registered n edc dallasConfig u (bytesLE r2 8) 8 hreg (by decide)
    (by rw [bytesLE_length])
  rw [hp, hc1] at k1
  rw [hp, hc2] at k2
  have t1 : (bytesLE r1 8).take 8 = bytesLE r1 8 :=
    List.take_of_length_le (by rw [bytesLE_length])
  have t2 : (bytesLE r2 8).take 8 = bytesLE r2 8 :=
    List.take_of_length_le (by rw [bytesLE_length])
  rw [t1, bytesLE_eight] at k1
  rw [t2, bytesLE_eight] at k2
  rw [and_ff] at hf1 hf2
  have a1 : (r1 >>> 8) &&& 0xFFFFFFFFFFFF = r1 / 256 % 281474976710656 := by
    rw [Nat.shiftRight_eq_div_pow]
    exact Nat.and_pow_two_sub_one_eq_mod _ 48
  have a2 : (r2 >>> 8) &&& 0xFFFFFFFFFFFF = r2 / 256 % 281474976710656 := by
    rw [Nat.shiftRight_eq_div_pow]
    exact Nat.and_pow_two_sub_one_eq_mod _ 48
  rw [a1, a2] at hs
  have hl1b : r1 < 18446744073709551616 := by simpa using hl1
  have hl2b : r2 < 18446744073709551616 := by simpa using hl2
  have b0 : r1 % 256 = r2 % 256 := by rw [hf1, hf2]
  have b1 : r1 / 256 % 256 = r2 / 256 % 256 := by omega
  have b2 : r1 / 256 / 256 % 256 = r2 / 256 / 256 % 256 := by omega
  have b3 : r1 / 256 / 256 / 256 % 256 = r2 / 256 / 256 / 256 % 256 := by omega
  have b4 : r1 / 256 / 256 / 256 / 256 % 256 = r2 / 256 / 256 / 256 / 256 % 256 := by omega
  have b5 : r1 / 256 / 256 / 256 / 256 / 256 % 256 =
      r2 / 256 / 256 / 256 / 256 / 256 % 256 := by omega
  have b6 : r1 / 256 / 256 / 256 / 256 / 256 / 256 % 256 =
      r2 / 256 / 256 / 256 / 256 / 256 / 256 % 256 := by omega
  rw [b0, b1, b2, b3, b4, b5, b6] at k1
  have hpc : CRC_POLY_CODE = 0x31 := rfl
  rw [hpc] at k1 k2
  simp only [Option.some.injEq] at k1 k2
  have hb7 := dallas_crc_last_byte _ _ _ (Nat.mod_lt _ (by decide)) (Nat.mod_lt _ (by decide))
    k1.symm k2.symm
  omega

/-! ### No identifier is returned twice -/

theorem iterate_eq_shift {α : Type} (f : α → α) (x : α) (a b : Nat) (h : f^[a] x = f^[b] x)
    (t : Nat) : f^[a + t] x = f^[b + t] x := by
  rw [Nat.add_comm a, Nat.add_comm b, Function.iterate_add_apply, Function.iterate_add_apply, h]

/-- After a successful `GenerateCrcLut` the table of the driver is registered,
when the module state was reached by generator calls and the flag of the driver
is set only if its table is registered. -/
theorem generateCrcLut_registered {σ : Type} (env : Env σ) (st : DsState σ)
    (hedc : ∃ calls, st.edc = runGenerate env.crcMax (EdcState.init env.crcMax) calls)
    (hflag : st.isCrcLutGenerated = true → Registered env.crcMax st.edc dallasConfig)
    (hg : (GenerateCrcLut env st).1 = true) :
    Registered env.crcMax (GenerateCrcLut env st).2.edc dallasConfig := by
  unfold GenerateCrcLut at hg ⊢
  by_cases hf : st.isCrcLutGenerated = false
  · simp only [hf, if_true] at hg ⊢
    obtain ⟨calls, hc⟩ := hedc
    by_cases hr : (EDC_GenerateCrcLut env.crcMax st.edc dallasConfig).1 = true
    · simp only [hr, Bool.not_true, Bool.false_eq_true, if_false]
      refine ⟨calls, [], ?_, ?_⟩
      · rw [← hc]; exact hr
      · rw [runGenerate_append, ← hc]; rfl
    · have hr2 : (EDC_GenerateCrcLut env.crcMax st.edc dallasConfig).1 = false := by
        simpa using hr
      simp [hr2] at hg
  · have hf2 : st.isCrcLutGenerated = true := by simpa using hf
    simp only [hf2, Bool.true_eq_false, if_false]
    exact hflag hf2

/-- The passes of a successful search on the simulated bus store pairwise
different identifiers: a repeated identifier is a repeated candidate, the
passes after it repeat as well, and the search would not have ended with a
pass whose `lastZero` is -1. -/
theorem sim_run_distinct (n u pin : Nat) (edc : EdcState) (roms : List Nat) (x : Int × Nat)
    (m : Nat) (buff : Nat → Nat) (hreg : Registered n edc dallasConfig)
    (hent : ∀ d, d < m →
      buff d = ((simNext roms pin)^[d + 1] x).2 ∧
      (simPass roms pin ((simNext roms pin)^[d] x)).romData &&& 0xFF = DS18B20_FAMILY_CODE ∧
      EDC_CalculateCrc n edc u CRC_POLY_CODE
        (some (bytesLE (simPass roms pin ((simNext roms pin)^[d] x)).romData 8)) 8 = some 0)
    (hmid : ∀ d, d + 1 < m → ((simNext roms pin)^[d + 1] x).1 ≠ -1)
    (hlast : ((simNext roms pin)^[m] x).1 = -1)
    (i j : Nat) (hij : i < j) (hj : j < m) : buff i ≠ buff j := by
  intro heq
  obtain ⟨ei, fi, ci⟩ := hent i (by omega)
  obtain ⟨ej, fj, cj⟩ := hent j hj
  rw [ei, ej, Function.iterate_succ_apply', Function.iterate_succ_apply'] at heq
  have hr := accepted_determined n u edc _ _ hreg (simPass_lt roms pin _) (simPass_lt roms pin _)
    fi fj heq ci cj
  have hpass := simPass_determined roms pin _ _ hr
  have hstep : (simNext roms pin)^[i + 1] x = (simNext roms pin)^[j + 1] x := by
    rw [Function.iterate_succ_apply', Function.iterate_succ_apply']
    show ((simPass roms pin ((simNext roms pin)^[i] x)).lastZero,
        ((simPass roms pin ((simNext roms pin)^[i] x)).romData >>> 8) &&& 0xFFFFFFFFFFFF) =
      ((simPass roms pin ((simNext roms pin)^[j] x)).lastZero,
        ((simPass roms pin ((simNext roms pin)^[j] x)).romData >>> 8) &&& 0xFFFFFFFFFFFF)
    rw [hpass]
  have hshift := iterate_eq_shift (simNext roms pin) x (i + 1) (j + 1) hstep (m - (j + 1))
  have e1 : j + 1 + (m - (j + 1)) = m := by omega
  have e2 : i + 1 + (m - (j + 1)) = (i + (m - (j + 1))) + 1 := by omega
  rw [e1, e2] at hshift
  have := hmid (i + (m - (j + 1))) (by omega)
  rw [hshift] at this
  exact this hlast

/-! ### The ways the search returns the count 0 -/

theorem searchDevice_enters {σ : Type} (env : Env σ) (fuel : Nat) (st : DsState σ)
    (pinCode : Nat) (romIdBuff : Nat → Nat) (searchMode : SearchMode_t) (hpin : pinCode ≠ 0)
    (hg : (GenerateCrcLut env st).1 = true)
    (hr : (OW_Reset env.ops pinCode
      (OW_ConfigBus env.ops pinCode (GenerateCrcLut env st).2.hw)).1 = true) :
    SearchDevice env fuel st pinCode romIdBuff searchMode =
      searchLoop env pinCode (searchCmdOf searchMode) (searchInit env st pinCode romIdBuff).1
        (searchInit env st pinCode romIdBuff).2.1 fuel
        (searchInit env st pinCode romIdBuff).2.2.1 (searchInit env st pinCode romIdBuff).2.2.2 := by
  unfold SearchDevice
  simp only [hpin, if_false, hg, hr, Bool.not_true, Bool.false_eq_true]
  rfl

theorem searchLoop_succ {σ : Type} (env : Env σ) (pinCode searchCmd timeout : Nat)
    (st : DsState σ) (fuel : Nat) (v : SearchVars) (s : σ) :
    searchLoop env pinCode searchCmd timeout st (fuel + 1) v s =
      match searchPass env pinCode searchCmd st v s with
      | PassOutcome.undefined => none
      | PassOutcome.returned r => some r
      | PassOutcome.atCondition v1 s1 =>
        if (searchCond env timeout v1 s1).1 then
          searchLoop env pinCode searchCmd timeout st fuel v1 (searchCond env timeout v1 s1).2
        else some (searchExit st v1 (searchCond env timeout v1 s1).2) := rfl

theorem searchLoop_after {σ : Type} (env : Env σ) (pinCode searchCmd timeout : Nat)
    (st : DsState σ) :
    ∀ (k : Nat) (v : SearchVars) (s : σ) (v1 : SearchVars) (s1 : σ) (fuel : Nat),
      loopAfter env pinCode searchCmd timeout st k v s = some (v1, s1) →
      searchLoop env pinCode searchCmd timeout st (k + fuel) v s =
        searchLoop env pinCode searchCmd timeout st fuel v1 s1 := by
  intro k
  induction k with
  | zero =>
    intro v s v1 s1 fuel h
    simp only [loopAfter, Option.some.injEq, Prod.mk.injEq] at h
    obtain ⟨h1, h2⟩ := h
    subst h1 h2
    rw [Nat.zero_add]
  | succ k ih =>
    intro v s v1 s1 fuel h
    have e : k + 1 + fuel = (k + fuel) + 1 := by omega
    rw [e, searchLoop_succ]
    unfold loopAfter at h
    cases hp : searchPass env pinCode searchCmd st v s with
    | undefined => rw [hp] at h; simp at h
    | returned r => rw [hp] at h; simp at h
    | atCondition v2 s2 =>
      rw [hp] at h
      simp only at h ⊢
      split_ifs at h ⊢ with hc
      exact ih _ _ _ _ _ h

theorem loopAfter_notLast {σ : Type} (env : Env σ) (pinCode searchCmd timeout : Nat)
    (st : DsState σ) :
    ∀ (k : Nat) (v : SearchVars) (s : σ) (v1 : SearchVars) (s1 : σ),
      v.isLastDevice = false →
      loopAfter env pinCode searchCmd timeout st k v s = some (v1, s1) →
      v1.isLastDevice = false := by
  intro k
  induction k with
  | zero =>
    intro v s v1 s1 hl h
    simp only [loopAfter, Option.some.injEq, Prod.mk.injEq] at h
    obtain ⟨h1, _⟩ := h
    subst h1
    exact hl
  | succ k ih =>
    intro v s v1 s1 _ h
    unfold loopAfter at h
    cases hp : searchPass env pinCode searchCmd st v s with
    | undefined => rw [hp] at h; simp at h
    | returned r => rw [hp] at h; simp at h
    | atCondition v2 s2 =>
      rw [hp] at h
      simp only at h
      split_ifs at h with hc
      refine ih _ _ _ _ ?_ h
      unfold searchCond at hc
      split_ifs at hc with hc2
      exact hc2.1

/-- A pass that leaves `isLastDevice` set was accepted and ended with
`lastZero = -1`. -/
theorem searchPass_lastDevice {σ : Type} (env : Env σ) (pinCode searchCmd : Nat)
    (st : DsState σ) (v : SearchVars) (s : σ) (v1 : SearchVars) (s1 : σ)
    (hl : v.isLastDevice = false)
    (hp : searchPass env pinCode searchCmd st v s = PassOutcome.atCondition v1 s1)
    (h1 : v1.isLastDevice = true) :
    PassAccepted env st (searchBits env.ops pinCode v.lastDiscrepancy
        (v.romIdBuff (v.deviceCount - 1)) 64 0 0 (-1) v.isResetSearch
        (OW_WriteByte env.ops pinCode searchCmd s)) ∧
      (searchBits env.ops pinCode v.lastDiscrepancy
        (v.romIdBuff (v.deviceCount - 1)) 64 0 0 (-1) v.isResetSearch
        (OW_WriteByte env.ops pinCode searchCmd s)).lastZero = -1 := by
  rw [searchPass_eq env pinCode searchCmd st v s _ rfl] at hp
  generalize searchBits env.ops pinCode v.lastDiscrepancy
        (v.romIdBuff (v.deviceCount - 1)) 64 0 0 (-1) v.isResetSearch
        (OW_WriteByte env.ops pinCode searchCmd s) = p at hp ⊢
  unfold PassAccepted
  by_cases hfam : p.romData &&& 0xFF = DS18B20_FAMILY_CODE
  · rw [if_pos hfam] at hp
    by_cases hprs : p.isResetSearch = false
    · rw [if_pos hprs] at hp
      cases hcrc : EDC_CalculateCrc env.crcMax st.edc env.lutIdxInit CRC_POLY_CODE
          (some (bytesLE p.romData 8)) 8 with
      | none => rw [hcrc] at hp; simp at hp
      | some c =>
        rw [hcrc] at hp
        by_cases hc0 : c = 0
        · subst hc0
          simp only [Option.map_some', beq_self_eq_true] at hp
          by_cases hlz : p.lastZero = -1
          · exact ⟨⟨hfam, hprs, rfl⟩, hlz⟩
          · rw [if_neg hlz] at hp
            split_ifs at hp
            simp only [PassOutcome.atCondition.injEq] at hp
            obtain ⟨e, _⟩ := hp
            subst e
            simp [hl] at h1
        · have hb : (c == 0) = false := by simpa using hc0
          simp only [Option.map_some', hb, PassOutcome.atCondition.injEq] at hp
          obtain ⟨e, _⟩ := hp
          subst e
          simp at h1
    · rw [if_neg hprs] at hp
      simp only [PassOutcome.atCondition.injEq] at hp
      obtain ⟨e, _⟩ := hp
      subst e
      simp at h1
  · rw [if_neg hfam] at hp
    simp only [PassOutcome.atCondition.injEq] at hp
    obtain ⟨e, _⟩ := hp
    subst e
    simp [hl] at h1

/-- A pass that is accepted with `lastZero ≠ -1` and whose reset finds no
presence pulse returns the count 0 from inside the loop. -/
theorem searchPass_lost {σ : Type} (env : Env σ) (pinCode searchCmd : Nat)
    (st : DsState σ) (v : SearchVars) (s : σ)
    (hacc : PassAccepted env st (searchBits env.ops pinCode v.lastDiscrepancy
        (v.romIdBuff (v.deviceCount - 1)) 64 0 0 (-1) v.isResetSearch
        (OW_WriteByte env.ops pinCode searchCmd s)))
    (hlz : (searchBits env.ops pinCode v.lastDiscrepancy
        (v.romIdBuff (v.deviceCount - 1)) 64 0 0 (-1) v.isResetSearch
        (OW_WriteByte env.ops pinCode searchCmd s)).lastZero ≠ -1)
    (hr : (OW_Reset env.ops pinCode (searchBits env.ops pinCode v.lastDiscrepancy
        (v.romIdBuff (v.deviceCount - 1)) 64 0 0 (-1) v.isResetSearch
        (OW_WriteByte env.ops pinCode searchCmd s)).hw).1 = false) :
    ∃ r, searchPass env pinCode searchCmd st v s = PassOutcome.returned r ∧ r.count = 0 := by
  rw [searchPass_eq env pinCode searchCmd st v s _ rfl]
  generalize searchBits env.ops pinCode v.lastDiscrepancy
        (v.romIdBuff (v.deviceCount - 1)) 64 0 0 (-1) v.isResetSearch
        (OW_WriteByte env.ops pinCode searchCmd s) = p at hacc hlz hr ⊢
  obtain ⟨hfam, hprs, hcrc⟩ := hacc
  rw [if_pos hfam, if_pos hprs, hcrc]
  simp only [Option.map_some', beq_self_eq_true]
  rw [if_neg hlz, hr]
  exact ⟨_, rfl, rfl⟩

/-! ### The retry loops of the scratch-pad reads -/

/-- A pass of `DS18B20_ReadTemp` that is left by the loop condition is left with
`idxb = deviceCount`; any other pass is left at a row whose CRC is not zero. -/
theorem readDevices_early {σ : Type} (env : Env σ) (st : DsState σ) (romId : Nat → Nat)
    (deviceCount : Nat) :
    ∀ (k idxb0 romOff : Nat) (rx : Nat → List Nat) (s : σ) (idxb romOff1 : Nat)
      (rx1 : Nat → List Nat) (s1 : σ), idxb0 ≤ deviceCount →
      readDevices env st romId deviceCount k idxb0 romOff rx s =
        ReadOutcome.left idxb romOff1 rx1 s1 →
      idxb = deviceCount ∨
        (idxb < deviceCount ∧ ∃ c, c ≠ 0 ∧
          EDC_CalculateCrc env.crcMax st.edc env.lutIdxInit CRC_POLY_CODE
            (some (rx1 idxb)) 9 = some c) := by
  intro k
  induction k with
  | zero =>
    intro idxb0 romOff rx s idxb romOff1 rx1 s1 hle h
    unfold readDevices at h
    split_ifs at h with hlt
    simp only [ReadOutcome.left.injEq] at h
    exact Or.inl (by omega)
  | succ k ih =>
    intro idxb0 romOff rx s idxb romOff1 rx1 s1 hle h
    unfold readDevices at h
    by_cases hlt : idxb0 < deviceCount
    · rw [if_pos hlt] at h
      simp only at h
      split at h
      · cases h
      · split at h
        · cases h
        · rename_i romData _
          split at h
          · cases h
          · rename_i c hc
            split_ifs at h with hc0
            · simp only [ReadOutcome.left.injEq] at h
              obtain ⟨e1, _, e3, _⟩ := h
              subst e1 e3
              refine Or.inr ⟨hlt, c, hc0, ?_⟩
              simpa using hc
            · exact ih _ _ _ _ _ _ _ _
                (Nat.le_trans (Nat.mod_le _ _) hlt) h
    · rw [if_neg hlt] at h
      simp only [ReadOutcome.left.injEq] at h
      exact Or.inl (by omega)

/-- The same for `DS18B20_ReadRam`. -/
theorem ramDevices_early {σ : Type} (env : Env σ) (st : DsState σ) (romId : Nat → Nat)
    (deviceCount : Nat) :
    ∀ (k idxb0 romOff : Nat) (rx : Nat → List Nat) (buff : Nat → Int) (s : σ)
      (idxb romOff1 : Nat) (rx1 : Nat → List Nat) (buff1 : Nat → Int) (s1 : σ),
      idxb0 ≤ deviceCount →
      ramDevices env st romId deviceCount k idxb0 romOff rx buff s =
        RamOutcome.left idxb romOff1 rx1 buff1 s1 →
      idxb = deviceCount ∨
        (idxb < deviceCount ∧ ∃ c, c ≠ 0 ∧
          EDC_CalculateCrc env.crcMax st.edc env.lutIdxInit CRC_POLY_CODE
            (some (rx1 idxb)) 9 = some c) := by
  intro k
  induction k with
  | zero =>
    intro idxb0 romOff rx buff s idxb romOff1 rx1 buff1 s1 hle h
    unfold ramDevices at h
    split_ifs at h with hlt
    simp only [RamOutcome.left.injEq] at h
    exact Or.inl (by omega)
  | succ k ih =>
    intro idxb0 romOff rx buff s idxb romOff1 rx1 buff1 s1 hle h
    unfold ramDevices at h
    by_cases hlt : idxb0 < deviceCount
    · rw [if_pos hlt] at h
      simp only at h
      split at h
      · cases h
      · split at h
        · cases h
        · rename_i romData _
          split at h
          · cases h
          · rename_i c hc
            split_ifs at h with hc0
            · simp only [RamOutcome.left.injEq] at h
              obtain ⟨e1, _, e3, _⟩ := h
              subst e1 e3
              refine Or.inr ⟨hlt, c, hc0, ?_⟩
              simpa using hc
            · exact ih _ _ _ _ _ _ _ _ _ _
                (Nat.le_trans (Nat.mod_le _ _) hlt) h
    · rw [if_neg hlt] at h
      simp only [RamOutcome.left.injEq] at h
      exact Or.inl (by omega)

theorem readPasses_succ {σ : Type} (env : Env σ) (st : DsState σ) (romId : Nat → Nat)
    (deviceCount left idxa romOff : Nat) (rx : Nat → List Nat) (s : σ) :
    readPasses env st romId deviceCount (left + 1) idxa romOff rx s =
      match readDevices env st romId deviceCount deviceCount 0 romOff rx s with
      | ReadOutcome.undefined => none
      | ReadOutcome.noPresence s1 => some (none, s1)
      | ReadOutcome.left idxb romOff1 rxData1 s1 =>
        if idxb = deviceCount then some (some (idxa, idxb, rxData1), s1)
        else if idxa + 1 < DS_READ_RAM_REPEAT_COUNT then
          readPasses env st romId deviceCount left (idxa + 1) romOff1 rxData1 s1
        else some (some (idxa + 1, idxb, rxData1), s1) := rfl

theorem ramPasses_succ {σ : Type} (env : Env σ) (st : DsState σ) (romId : Nat → Nat)
    (deviceCount left idxa romOff : Nat) (rx : Nat → List Nat) (buff : Nat → Int) (s : σ) :
    ramPasses env st romId deviceCount (left + 1) idxa romOff rx buff s =
      match ramDevices env st romId deviceCount deviceCount 0 romOff rx buff s with
      | RamOutcome.undefined => none
      | RamOutcome.noPresence dataBuff1 s1 =>
        some { vars := none, dataBuff := dataBuff1, hw := s1 }
      | RamOutcome.left idxb romOff1 rxData1 dataBuff1 s1 =>
        if idxb = deviceCount then
          some { vars := some (idxa, idxb, rxData1), dataBuff := dataBuff1, hw := s1 }
        else if idxa + 1 < DS_READ_RAM_REPEAT_COUNT then
          ramPasses env st romId deviceCount left (idxa + 1) romOff1 rxData1 dataBuff1 s1
        else some { vars := some (idxa + 1, idxb, rxData1), dataBuff := dataBuff1, hw := s1 } :=
  rfl

/-- One more pass allowed changes nothing once the passes allowed reach the
repeat count. -/
theorem readPasses_more {σ : Type} (env : Env σ) (st : DsState σ) (romId : Nat → Nat)
    (deviceCount : Nat) :
    ∀ (left idxa romOff : Nat) (rx : Nat → List Nat) (s : σ), 0 < left →
      DS_READ_RAM_REPEAT_COUNT ≤ idxa + left →
      readPasses env st romId deviceCount (left + 1) idxa romOff rx s =
        readPasses env st romId deviceCount left idxa romOff rx s := by
  intro left
  induction left with
  | zero => intro idxa romOff rx s h; omega
  | succ l ih =>
    intro idxa romOff rx s _ h3
    rw [readPasses_succ env st romId deviceCount (l + 1), readPasses_succ env st romId deviceCount l]
    cases readDevices env st romId deviceCount deviceCount 0 romOff rx s with
    | undefined => rfl
    | noPresence s1 => rfl
    | left idxb romOff1 rx1 s1 =>
      simp only
      split_ifs with h1 h2
      · rfl
      · unfold DS_READ_RAM_REPEAT_COUNT at h2 h3
        exact ih _ _ _ _ (by omega) (by unfold DS_READ_RAM_REPEAT_COUNT; omega)
      · rfl

theorem ramPasses_more {σ : Type} (env : Env σ) (st : DsState σ) (romId : Nat → Nat)
    (deviceCount : Nat) :
    ∀ (left idxa romOff : Nat) (rx : Nat → List Nat) (buff : Nat → Int) (s : σ), 0 < left →
      DS_READ_RAM_REPEAT_COUNT ≤ idxa + left →
      ramPasses env st romId deviceCount (left + 1) idxa romOff rx buff s =
        ramPasses env st romId deviceCount left idxa romOff rx buff s := by
  intro left
  induction left with
  | zero => intro idxa romOff rx buff s h; omega
  | succ l ih =>
    intro idxa romOff rx buff s _ h3
    rw [ramPasses_succ env st romId deviceCount (l + 1), ramPasses_succ env st romId deviceCount l]
    cases ramDevices env st romId deviceCount deviceCount 0 romOff rx buff s with
    | undefined => rfl
    | noPresence b1 s1 => rfl
    | left idxb romOff1 rx1 b1 s1 =>
      simp only
      split_ifs with h1 h2
      · rfl
      · unfold DS_READ_RAM_REPEAT_COUNT at h2 h3
        exact ih _ _ _ _ _ (by omega) (by unfold DS_READ_RAM_REPEAT_COUNT; omega)
      · rfl

theorem readPasses_enough {σ : Type} (env : Env σ) (st : DsState σ) (romId : Nat → Nat)
    (deviceCount : Nat) (rx : Nat → List Nat) (s : σ) :
    ∀ m : Nat, readPasses env st romId deviceCount (DS_READ_RAM_REPEAT_COUNT + m) 0 0 rx s =
      readPasses env st romId deviceCount DS_READ_RAM_REPEAT_COUNT 0 0 rx s := by
  intro m
  have h3 : DS_READ_RAM_REPEAT_COUNT = 3 := rfl
  rw [h3]
  induction m with
  | zero => rfl
  | succ m ih =>
    rw [← ih]
    exact readPasses_more env st romId deviceCount (3 + m) 0 0 rx s (by omega)
      (by rw [h3]; omega)

theorem ramPasses_enough {σ : Type} (env : Env σ) (st : DsState σ) (romId : Nat → Nat)
    (deviceCount : Nat) (rx : Nat → List Nat) (buff : Nat → Int) (s : σ) :
    ∀ m : Nat, ramPasses env st romId deviceCount (DS_READ_RAM_REPEAT_COUNT + m) 0 0 rx buff s =
      ramPasses env st romId deviceCount DS_READ_RAM_REPEAT_COUNT 0 0 rx buff s := by
  intro m
  have h3 : DS_READ_RAM_REPEAT_COUNT = 3 := rfl
  rw [h3]
  induction m with
  | zero => rfl
  | succ m ih =>
    rw [← ih]
    exact ramPasses_more env st romId deviceCount (3 + m) 0 0 rx buff s (by omega)
      (by rw [h3]; omega)

/-- How the retry loop of `DS18B20_ReadTemp` ends when no reset fails: with all
rows valid in one of the passes, or after the last pass, which then ended at a
row whose CRC is not zero. -/
theorem readPasses_end {σ : Type} (env : Env σ) (st : DsState σ) (romId : Nat → Nat)
    (deviceCount : Nat) :
    ∀ (left idxa romOff : Nat) (rx : Nat → List Nat) (s : σ) (a b : Nat)
      (rx1 : Nat → List Nat) (s1 : σ),
      idxa + left = DS_READ_RAM_REPEAT_COUNT →
      readPasses env st romId deviceCount left idxa romOff rx s = some (some (a, b, rx1), s1) →
      (b = deviceCount ∧ a < DS_READ_RAM_REPEAT_COUNT) ∨
        (b < deviceCount ∧ a = DS_READ_RAM_REPEAT_COUNT ∧ ∃ c, c ≠ 0 ∧
          EDC_CalculateCrc env.crcMax st.edc env.lutIdxInit CRC_POLY_CODE
            (some (rx1 b)) 9 = some c) := by
  intro left
  induction left with
  | zero => intro idxa romOff rx s a b rx1 s1 _ h; simp [readPasses] at h
  | succ l ih =>
    intro idxa romOff rx s a b rx1 s1 h3 h
    rw [readPasses_succ] at h
    cases hd : readDevices env st romId deviceCount deviceCount 0 romOff rx s with
    | undefined => rw [hd] at h; simp at h
    | noPresence s2 => rw [hd] at h; simp at h
    | left idxb romOff1 rx2 s2 =>
      rw [hd] at h
      simp only at h
      have he := readDevices_early env st romId deviceCount deviceCount 0 romOff rx s idxb
        romOff1 rx2 s2 (Nat.zero_le _) hd
      split_ifs at h with h1 h2
      · simp only [Option.some.injEq, Prod.mk.injEq] at h
        obtain ⟨⟨e1, e2, _⟩, _⟩ := h
        subst e1 e2
        exact Or.inl ⟨h1, by omega⟩
      · exact ih _ _ _ _ _ _ _ _ (by omega) h
      · simp only [Option.some.injEq, Prod.mk.injEq] at h
        obtain ⟨⟨e1, e2, e3⟩, _⟩ := h
        subst e1 e2 e3
        rcases he with e | ⟨e, hx⟩
        · exact absurd e h1
        · exact Or.inr ⟨e, by omega, hx⟩

theorem ramPasses_end {σ : Type} (env : Env σ) (st : DsState σ) (romId : Nat → Nat)
    (deviceCount : Nat) :
    ∀ (left idxa romOff : Nat) (rx : Nat → List Nat) (buff : Nat → Int) (s : σ)
      (e : RamLoopEnd σ) (a b : Nat) (rx1 : Nat → List Nat),
      idxa + left = DS_READ_RAM_REPEAT_COUNT →
      ramPasses env st romId deviceCount left idxa romOff rx buff s = some e →
      e.vars = some (a, b, rx1) →
      (b = deviceCount ∧ a < DS_READ_RAM_REPEAT_COUNT) ∨
        (b < deviceCount ∧ a = DS_READ_RAM_REPEAT_COUNT ∧ ∃ c, c ≠ 0 ∧
          EDC_CalculateCrc env.crcMax st.edc env.lutIdxInit CRC_POLY_CODE
            (some (rx1 b)) 9 = some c) := by
  intro left
  induction left with
  | zero => intro idxa romOff rx buff s e a b rx1 _ h; simp [ramPasses] at h
  | succ l ih =>
    intro idxa romOff rx buff s e a b rx1 h3 h hv
    rw [ramPasses_succ] at h
    cases hd : ramDevices env st romId deviceCount deviceCount 0 romOff rx buff s with
    | undefined => rw [hd] at h; simp at h
    | noPresence b2 s2 =>
      rw [hd] at h
      simp only [Option.some.injEq] at h
      subst h
      simp at hv
    | left idxb romOff1 rx2 b2 s2 =>
      rw [hd] at h
      simp only at h
      have he := ramDevices_early env st romId deviceCount deviceCount 0 romOff rx buff s idxb
        romOff1 rx2 b2 s2 (Nat.zero_le _) hd
      split_ifs at h with h1 h2
      · simp only [Option.some.injEq] at h
        subst h
        simp only [Option.some.injEq, Prod.mk.injEq] at hv
        obtain ⟨e1, e2, _⟩ := hv
        subst e1 e2
        exact Or.inl ⟨h1, by omega⟩
      · exact ih _ _ _ _ _ _ _ _ _ (by omega) h hv
      · simp only [Option.some.injEq] at h
        subst h
        simp only [Option.some.injEq, Prod.mk.injEq] at hv
        obtain ⟨e1, e2, e3⟩ := hv
        subst e1 e2 e3
        rcases he with e | ⟨e, hx⟩
        · exact absurd e h1
        · exact Or.inr ⟨e, by omega, hx⟩

/-! ### Byte framing -/

theorem testBit_shift (b i : Nat) : ((b >>> i) &&& 0x01 != 0) = b.testBit i := by
  rw [Nat.testBit, Nat.and_comm]

/-- The write loop issues one write slot per bit, from bit `idx` upwards. -/
theorem writeByteLoop_slots {σ : Type} (hw : Hw σ) (pin byte : Nat) :
    ∀ (k idx : Nat) (s : σ),
      writeByteLoop hw pin byte k idx s =
        ((List.range k).map (fun i => byte.testBit (idx + i))).foldl
          (fun t bit => hw.writeSlot pin bit t) s := by
  intro k
  induction k with
  | zero => intro idx s; rfl
  | succ k ih =>
    intro idx s
    rw [List.range_succ_eq_map]
    simp only [writeByteLoop, List.map_cons, List.map_map, List.foldl_cons, Nat.add_zero,
      testBit_shift]
    rw [ih]
    congr 2
    funext i
    simp only [Function.comp]
    congr 1
    omega

theorem writeByte_slots {σ : Type} (hw : Hw σ) (pin b : Nat) (s : σ) :
    OW_WriteByte hw pin b s =
      (byteLevels (b % 256)).foldl (fun t bit => hw.writeSlot pin bit t) s := by
  unfold OW_WriteByte byteLevels
  rw [writeByteLoop_slots]
  simp only [Nat.zero_add]

theorem writeBytes_slots {σ : Type} (hw : Hw σ) (pin : Nat) :
    ∀ (bytes : List Nat) (s : σ),
      writeBytes hw pin bytes s =
        (bytesLevels (bytes.map (fun b => b % 256))).foldl (fun t bit => hw.writeSlot pin bit t)
          s := by
  intro bytes
  induction bytes with
  | nil => intro s; rfl
  | cons b bs ih =>
    intro s
    have e : bytesLevels ((b :: bs).map (fun b => b % 256)) =
        byteLevels (b % 256) ++ bytesLevels (bs.map (fun b => b % 256)) := by
      simp [bytesLevels]
    rw [e, List.foldl_append]
    simp only [writeBytes]
    rw [ih]
    congr 1
    have := writeByte_slots hw pin b s
    unfold OW_WriteByte at this
    exact this

theorem writtenBits_append (l1 l2 : List BusEvent) :
    writtenBits (l1 ++ l2) = writtenBits l1 ++ writtenBits l2 := by
  induction l1 with
  | nil => rfl
  | cons e es ih =>
    cases e <;> simp [writtenBits, ih]

/-- On the logging bus a run of write slots adds its bits to the log. -/
theorem record_slots (pin : Nat) :
    ∀ (bits : List Bool) (s : RecBus),
      writtenBits (bits.foldl (fun t bit => recordHw.writeSlot pin bit t) s).log =
        writtenBits s.log ++ bits := by
  intro bits
  induction bits with
  | nil => intro s; simp
  | cons b bs ih =>
    intro s
    simp only [List.foldl_cons]
    rw [ih]
    simp [recordHw, writtenBits_append, writtenBits]

theorem map_mod_of_lt (d : List Nat) (hb : ∀ b ∈ d, b < 256) : d.map (fun b => b % 256) = d := by
  induction d with
  | nil => rfl
  | cons b bs ih =>
    simp only [List.map_cons]
    rw [Nat.mod_eq_of_lt (hb b (List.mem_cons_self _ _)),
      ih (fun x hx => hb x (List.mem_cons_of_mem _ hx))]

/-! ### Interrupt state and pin operations of the transport primitives -/

theorem Pins.steady_refl (m : Pins.Machine) : Pins.Steady m m :=
  ⟨rfl, [], by simp, by simp⟩

theorem Pins.steady_trans (m m1 m2 : Pins.Machine) (h1 : Pins.Steady m m1)
    (h2 : Pins.Steady m1 m2) : Pins.Steady m m2 := by
  obtain ⟨i1, a1, t1, g1⟩ := h1
  obtain ⟨i2, a2, t2, g2⟩ := h2
  refine ⟨i2.trans i1, a1 ++ a2, by rw [t2, t1, List.append_assoc], ?_⟩
  intro x hx
  rcases List.mem_append.mp hx with h | h
  · exact g1 x h
  · rw [← i1]; exact g2 x h

theorem Pins.steady_emit (e : Pins.Event) (m : Pins.Machine) : Pins.Steady m (Pins.emit e m) :=
  ⟨rfl, [(e, m.intr)], rfl, by simp⟩

theorem Pins.steady_readPin (pin : Nat) (m : Pins.Machine) :
    Pins.Steady m (Pins.PIO_ReadPin pin m).2 :=
  ⟨rfl, [(Pins.Event.readPin pin, m.intr)], rfl, by simp⟩

theorem Pins.steady_SetBit (pin : Nat) (m : Pins.Machine) : Pins.Steady m (Pins.SetBit pin m) := by
  unfold Pins.SetBit Pins.PIO_ClearPin Pins.PIO_ConfigGpioPinDir Pins.TMR_DelayUs
  simp only
  exact Pins.steady_trans _ _ _ (Pins.steady_trans _ _ _ (Pins.steady_trans _ _ _
    (Pins.steady_trans _ _ _ (Pins.steady_emit _ _) (Pins.steady_emit _ _))
    (Pins.steady_emit _ _)) (Pins.steady_emit _ _)) (Pins.steady_emit _ _)

theorem Pins.steady_ClearBit (pin : Nat) (m : Pins.Machine) :
    Pins.Steady m (Pins.ClearBit pin m) := by
  unfold Pins.ClearBit Pins.PIO_ClearPin Pins.PIO_ConfigGpioPinDir Pins.TMR_DelayUs
  simp only
  exact Pins.steady_trans _ _ _ (Pins.steady_trans _ _ _ (Pins.steady_trans _ _ _
    (Pins.steady_trans _ _ _ (Pins.steady_emit _ _) (Pins.steady_emit _ _))
    (Pins.steady_emit _ _)) (Pins.steady_emit _ _)) (Pins.steady_emit _ _)

theorem Pins.steady_ReadBit (pin : Nat) (m : Pins.Machine) :
    Pins.Steady m (Pins.ReadBit pin m).2 := by
  unfold Pins.ReadBit Pins.PIO_ClearPin Pins.PIO_ConfigGpioPinDir Pins.TMR_DelayUs
  simp only
  exact Pins.steady_trans _ _ _ (Pins.steady_trans _ _ _ (Pins.steady_trans _ _ _
    (Pins.steady_trans _ _ _ (Pins.steady_trans _ _ _ (Pins.steady_trans _ _ _
    (Pins.steady_emit _ _) (Pins.steady_emit _ _)) (Pins.steady_emit _ _))
    (Pins.steady_emit _ _)) (Pins.steady_emit _ _)) (Pins.steady_readPin _ _))
    (Pins.steady_emit _ _)

theorem Pins.steady_writeSlot (pin bit : Nat) (m : Pins.Machine) :
    Pins.Steady m (Pins.writeSlot pin bit m) := by
  unfold Pins.writeSlot
  split_ifs
  · exact Pins.steady_SetBit pin m
  · exact Pins.steady_ClearBit pin m

theorem Pins.steady_writeBits (pin byte : Nat) :
    ∀ (k idx : Nat) (m : Pins.Machine), Pins.Steady m (Pins.writeBits pin byte k idx m) := by
  intro k
  induction k with
  | zero => intro idx m; exact Pins.steady_refl m
  | succ k ih =>
    intro idx m
    exact Pins.steady_trans _ _ _ (Pins.steady_writeSlot pin _ m) (ih _ _)

theorem Pins.steady_writeAll (pin : Nat) :
    ∀ (bytes : List Nat) (m : Pins.Machine), Pins.Steady m (Pins.writeAll pin bytes m) := by
  intro bytes
  induction bytes with
  | nil => intro m; exact Pins.steady_refl m
  | cons b bs ih =>
    intro m
    exact Pins.steady_trans _ _ _ (Pins.steady_writeBits pin _ 8 0 m) (ih _)

theorem Pins.steady_readBits (pin : Nat) :
    ∀ (k idx acc : Nat) (m : Pins.Machine), Pins.Steady m (Pins.readBits pin k idx acc m).2 := by
  intro k
  induction k with
  | zero => intro idx acc m; exact Pins.steady_refl m
  | succ k ih =>
    intro idx acc m
    exact Pins.steady_trans _ _ _ (Pins.steady_ReadBit pin m) (ih _ _ _)

theorem Pins.steady_readAll (pin : Nat) :
    ∀ (k : Nat) (m : Pins.Machine), Pins.Steady m (Pins.readAll pin k m).2 := by
  intro k
  induction k with
  | zero => intro m; exact Pins.steady_refl m
  | succ k ih =>
    intro m
    exact Pins.steady_trans _ _ _ (Pins.steady_readBits pin 8 0 0 m) (ih _)

/-- A body that keeps the interrupt state, run between
`IC_GetInterruptState`, `IC_DisableInterrupts` and `IC_SetInterruptState` with
the saved state, is bracketed. -/
theorem Pins.bracket (m body : Pins.Machine)
    (h : Pins.Steady (Pins.IC_DisableInterrupts (Pins.IC_GetInterruptState m).2) body) :
    Pins.Bracketed m (Pins.IC_SetInterruptState (Pins.IC_GetInterruptState m).1 body) := by
  obtain ⟨hi, added, ht, hg⟩ := h
  refine ⟨rfl, [(Pins.Event.getInterruptState, m.intr), (Pins.Event.disableInterrupts, m.intr)] ++
    added ++ [(Pins.Event.setInterruptState m.intr, false)], ?_, ?_⟩
  · simp only [Pins.IC_SetInterruptState, Pins.emit, Pins.IC_GetInterruptState, ht, hi,
      Pins.IC_DisableInterrupts, List.append_assoc, List.cons_append, List.nil_append]
  · intro x hx
    simp only [List.append_assoc, List.cons_append, List.nil_append, List.mem_cons,
      List.mem_append, List.mem_singleton] at hx
    rcases hx with h | h | h | h
    · subst h; intro hp; cases hp
    · subst h; intro hp; cases hp
    · intro _; exact hg x h
    · rcases h with h | h
      · subst h; intro hp; cases hp
      · exact absurd h (List.not_mem_nil _)

/-! ### Zero bytes -/

/-- The frame built from a 48-bit identifier: its value, and the CRC of the
driver over its eight bytes. -/
theorem romFrame_value {σ : Type} (env : Env σ) (edc : EdcState) (s : Nat)
    (hreg : Registered env.crcMax edc dallasConfig) (hs : s < 2 ^ 48) :
    ∃ c, c < 256 ∧ romFrame env edc s = some (s * 256 + 40 + c * 2 ^ 56) ∧
      EDC_CalculateCrc env.crcMax edc env.lutIdxInit CRC_POLY_CODE
        (some (bytesLE (s * 256 + 40 + c * 2 ^ 56) 8)) 8 = some 0 := by
  have hsb : s < 281474976710656 := by simpa using hs
  have hrd : ((s <<< 8) % 18446744073709551616) ||| DS18B20_FAMILY_CODE = s * 256 + 40 := by
    rw [Nat.shiftLeft_eq, Nat.mod_eq_of_lt (by omega)]
    exact mul_or_eq s 40 8 (by decide)
  have h7 : EDC_CalculateCrc env.crcMax edc env.lutIdxInit CRC_POLY_CODE
      (some (bytesLE (s * 256 + 40) 8)) 7 =
      some (crcCompute (fun i => (crcLutRow 0x31 8).getD i 0) 8 true true
        ((bytesLE (s * 256 + 40) 8).take 7)) :=
    calculate_registered env.crcMax edc dallasConfig env.lutIdxInit
      (bytesLE (s * 256 + 40) 8) 7 hreg (by decide) (by rw [bytesLE_length]; decide)
  generalize hc : crcCompute (fun i => (crcLutRow 0x31 8).getD i 0) 8 true true
    ((bytesLE (s * 256 + 40) 8).take 7) = c at h7
  have hclt : c < 256 := by
    rw [← hc]
    exact crcCompute_lt_of_width8 _ _ _ _
  have hp56 : (2 : Nat) ^ 56 = 72057594037927936 := by norm_num
  refine ⟨c, hclt, ?_, ?_⟩
  · unfold romFrame
    rw [hrd]
    simp only [h7]
    congr 1
    rw [Nat.shiftLeft_eq, Nat.mod_eq_of_lt (by omega), Nat.add_comm (s * 256 + 40),
      Nat.or_comm]
    exact mul_or_eq c (s * 256 + 40) 56 (by omega)
  · have h8 : EDC_CalculateCrc env.crcMax edc env.lutIdxInit CRC_POLY_CODE
        (some (bytesLE (s * 256 + 40 + c * 2 ^ 56) 8)) 8 =
        some (crcCompute (fun i => (crcLutRow 0x31 8).getD i 0) 8 true true
          ((bytesLE (s * 256 + 40 + c * 2 ^ 56) 8).take 8)) :=
      calculate_registered env.crcMax edc dallasConfig env.lutIdxInit
        (bytesLE (s * 256 + 40 + c * 2 ^ 56) 8) 8 hreg (by decide) (by rw [bytesLE_length])
    rw [h8]
    refine congrArg some ?_
    have hsplit : (bytesLE (s * 256 + 40 + c * 2 ^ 56) 8).take 8 =
        (bytesLE (s * 256 + 40) 8).take 7 ++ crcTrailer dallasConfig c := by
      rw [List.take_of_length_le (by rw [bytesLE_length]), bytesLE_eight, bytesLE_eight]
      have t : crcTrailer dallasConfig c = [c % 256] := rfl
      rw [t, hp56]
      simp only [List.take_succ_cons, List.cons_append, List.nil_append, List.take_zero,
        List.cons.injEq, and_true]
      omega
    rw [hsplit, ← hc]
    exact compute_residue8 dallasConfig (fun i => (crcLutRow 0x31 8).getD i 0)
      (crcLutRow_zero _ _) rfl _

/-! ### The table generator as polynomial division -/

theorem shl_xor (a b k : Nat) : (a ^^^ b) <<< k = (a <<< k) ^^^ (b <<< k) := by
  apply Nat.eq_of_testBit_eq
  intro i
  simp only [Nat.testBit_shiftLeft, Nat.testBit_xor]
  cases decide (i ≥ k) <;> simp

theorem or_eq_xor_256 : ∀ P, P < 256 → 0x100 ||| P = 0x100 ^^^ P := by
  decide!

theorem and_two_pow_ne_zero (a i : Nat) : a &&& 2 ^ i ≠ 0 ↔ a.testBit i = true := by
  rw [Nat.and_two_pow]
  have hp : 0 < 2 ^ i := Nat.two_pow_pos i
  cases a.testBit i
  · simp
  · simp only [Bool.toNat_true, Nat.one_mul, ne_eq, iff_true]
    omega

/-- The divisor `x^8 + P` moved up by `k` places. -/
theorem divisor_shift (P : Nat) (hP : P < 256) (k : Nat) :
    (0x100 ||| P) <<< k = 2 ^ (8 + k) ^^^ (P <<< k) := by
  rw [or_eq_xor_256 P hP, shl_xor, Nat.shiftLeft_eq, Nat.pow_add]

theorem drop_top_bit (a n : Nat) (b : Nat) (ha : a < 2 ^ (n + 1)) (hb : b < 2 ^ (n + 1))
    (h : a.testBit n = b.testBit n) : a ^^^ b < 2 ^ n := by
  apply Nat.lt_pow_two_of_testBit
  intro i hi
  rw [Nat.testBit_xor]
  rcases Nat.eq_or_lt_of_le hi with e | e
  · subst e
    rw [h]
    cases b.testBit n <;> rfl
  · have h1 : a.testBit i = false :=
      Nat.testBit_lt_two_pow (Nat.lt_of_lt_of_le ha (Nat.pow_le_pow_right (by decide) e))
    have h2 : b.testBit i = false :=
      Nat.testBit_lt_two_pow (Nat.lt_of_lt_of_le hb (Nat.pow_le_pow_right (by decide) e))
    rw [h1, h2]
    rfl

theorem lt_of_top_bit_clear (a n : Nat) (ha : a < 2 ^ (n + 1)) (h : a.testBit n = false) :
    a < 2 ^ n := by
  have := drop_top_bit a n 0 ha (Nat.two_pow_pos _) (by rw [h]; simp)
  simpa using this

theorem shl_lt (P k : Nat) (hP : P < 256) : P <<< k < 2 ^ (8 + k) := by
  rw [Nat.shiftLeft_eq, Nat.pow_add]
  exact Nat.mul_lt_mul_of_pos_right hP (Nat.two_pow_pos k)

theorem divisor_top_bit (P : Nat) (k : Nat) :
    ((0x100 ||| P) <<< k).testBit (8 + k) = true := by
  rw [Nat.testBit_shiftLeft]
  have h8 : Nat.testBit 0x100 8 = true := by decide
  have : (0x100 ||| P).testBit 8 = true := by
    rw [Nat.testBit_or, h8]
    rfl
  simp [this]

theorem divisor_lt (P : Nat) (hP : P < 256) (k : Nat) :
    (0x100 ||| P) <<< k < 2 ^ (8 + k + 1) := by
  rw [divisor_shift P hP]
  apply Nat.xor_lt_two_pow
  · exact Nat.pow_lt_pow_right (by decide) (by omega)
  · exact Nat.lt_of_lt_of_le (shl_lt P k hP) (Nat.pow_le_pow_right (by decide) (by omega))

/-- The bit loop of the generator is the long division by `x^8 + P`. -/
theorem crcBitLoop_eq_gf2Mod (P : Nat) (hP : P < 256) :
    ∀ (k a : Nat), k ≤ 8 → a < 2 ^ (8 + k) →
      crcBitLoop k a ((P <<< k) >>> 1) ((1 <<< (8 + k)) >>> 1) =
        gf2Mod (0x100 ||| P) 8 k a := by
  intro k
  induction k with
  | zero => intro a _ _; rfl
  | succ k ih =>
    intro a hk ha
    have hpm : (P <<< (k + 1)) >>> 1 = P <<< k := by
      rw [Nat.shiftLeft_add, Nat.shiftLeft_shiftRight]
    have ham : (1 <<< (8 + (k + 1))) >>> 1 = 2 ^ (8 + k) := by
      rw [← Nat.add_assoc, Nat.shiftLeft_add, Nat.shiftLeft_shiftRight, Nat.one_shiftLeft]
    have ham2 : 2 ^ (8 + k) >>> 1 = (1 <<< (8 + k)) >>> 1 := by rw [Nat.one_shiftLeft]
    rw [hpm, ham]
    have hstep : ∀ (c pm am : Nat), crcBitLoop (k + 1) c pm am =
        crcBitLoop k (if c &&& am ≠ 0 then
          (((c ^^^ pm) % 4294967296) ^^^ am) % 4294967296 else c) (pm >>> 1) (am >>> 1) :=
      fun _ _ _ => rfl
    have hdiv : gf2Mod (0x100 ||| P) 8 (k + 1) a =
        gf2Mod (0x100 ||| P) 8 k
          (if a.testBit (8 + k) then a ^^^ ((0x100 ||| P) <<< k) else a) := rfl
    rw [hstep, hdiv, ham2]
    have h32 : (2 : Nat) ^ (8 + (k + 1)) ≤ 4294967296 := by
      have : (2 : Nat) ^ (8 + (k + 1)) ≤ 2 ^ 32 := Nat.pow_le_pow_right (by decide) (by omega)
      simpa using this
    by_cases hb : a.testBit (8 + k) = true
    · rw [if_pos ((and_two_pow_ne_zero a (8 + k)).2 hb), if_pos hb]
      have hpk : P <<< k < 2 ^ (8 + (k + 1)) :=
        Nat.lt_of_lt_of_le (shl_lt P k hP) (Nat.pow_le_pow_right (by decide) (by omega))
      have h1 : a ^^^ (P <<< k) < 2 ^ (8 + (k + 1)) := Nat.xor_lt_two_pow ha hpk
      have h2 : a ^^^ (P <<< k) ^^^ 2 ^ (8 + k) < 2 ^ (8 + (k + 1)) :=
        Nat.xor_lt_two_pow h1 (Nat.pow_lt_pow_right (by decide) (by omega))
      rw [Nat.mod_eq_of_lt (Nat.lt_of_lt_of_le h1 h32),
        Nat.mod_eq_of_lt (Nat.lt_of_lt_of_le h2 h32)]
      have hval : a ^^^ (P <<< k) ^^^ 2 ^ (8 + k) = a ^^^ ((0x100 ||| P) <<< k) := by
        rw [divisor_shift P hP, Nat.xor_assoc, Nat.xor_comm (P <<< k)]
      rw [hval]
      apply ih _ (by omega)
      exact drop_top_bit a (8 + k) _ ha (divisor_lt P hP k)
        (by rw [hb, divisor_top_bit P])
    · have hb2 : a.testBit (8 + k) = false := by simpa using hb
      rw [if_neg (fun h => hb ((and_two_pow_ne_zero a (8 + k)).1 h)), if_neg hb]
      exact ih a (by omega) (lt_of_top_bit_clear a (8 + k) ha hb2)

/-- Entry `i` of the table generated for width 8 and the polynomial `P` is the
remainder of `i * x^8` divided by `x^8 + P`. -/
theorem crcLutEntry_eq_gf2Mod (P i : Nat) (hP : P < 256) (hi : i < 256) :
    crcLutEntry P 8 i = gf2Mod (0x100 ||| P) 8 8 (i <<< 8) := by
  have h := crcBitLoop_eq_gf2Mod P hP 8 (i <<< 8) (by decide)
    (by rw [Nat.shiftLeft_eq]; omega)
  have hpm : (P <<< 8) >>> 1 = P <<< 7 := by
    rw [show (8 : Nat) = 7 + 1 from rfl, Nat.shiftLeft_add, Nat.shiftLeft_shiftRight]
  have ham : (1 <<< (8 + 8)) >>> 1 = 32768 := by decide
  rw [hpm, ham] at h
  rw [← h]
  have e1 : shl32 i 8 = i <<< 8 := by
    show (i <<< 8) % 4294967296 = i <<< 8
    rw [Nat.shiftLeft_eq]
    exact Nat.mod_eq_of_lt (by omega)
  have e2 : intToU64 (shl32 1 (CRC_MSG_SIZE + 8 - 1)) = 32768 := by decide
  unfold crcLutEntry
  simp only [e1, e2]
  rfl

theorem gf2Mul_congr (a a2 b : Nat) : ∀ k : Nat, (∀ i, i < k → a.testBit i = a2.testBit i) →
    gf2Mul a b k = gf2Mul a2 b k := by
  intro k
  induction k with
  | zero => intro _; rfl
  | succ k ih =>
    intro h
    show (if a.testBit k then b <<< k else 0) ^^^ gf2Mul a b k =
      (if a2.testBit k then b <<< k else 0) ^^^ gf2Mul a2 b k
    rw [h k (Nat.lt_succ_self k), ih (fun i hi => h i (Nat.lt_succ_of_lt hi))]

/-- The long division by `x^8 + P` yields a quotient `q` and a remainder `r` of
degree below 8 with `a = q * (x^8 + P) + r`. -/
theorem gf2_division (P : Nat) (hP : P < 256) :
    ∀ (k a : Nat), a < 2 ^ (8 + k) →
      gf2Div (0x100 ||| P) 8 k a < 2 ^ k ∧ gf2Mod (0x100 ||| P) 8 k a < 2 ^ 8 ∧
        a = gf2Mul (gf2Div (0x100 ||| P) 8 k a) (0x100 ||| P) k ^^^
          gf2Mod (0x100 ||| P) 8 k a := by
  intro k
  induction k with
  | zero =>
    intro a ha
    refine ⟨Nat.two_pow_pos 0, ha, ?_⟩
    show a = 0 ^^^ a
    rw [Nat.zero_xor]
  | succ k ih =>
    intro a ha
    have hdiv : gf2Div (0x100 ||| P) 8 (k + 1) a =
        if a.testBit (8 + k) then
          (1 <<< k) ||| gf2Div (0x100 ||| P) 8 k (a ^^^ ((0x100 ||| P) <<< k))
        else gf2Div (0x100 ||| P) 8 k a := rfl
    have hmod : gf2Mod (0x100 ||| P) 8 (k + 1) a =
        gf2Mod (0x100 ||| P) 8 k
          (if a.testBit (8 + k) then a ^^^ ((0x100 ||| P) <<< k) else a) := rfl
    have hmul : ∀ q, gf2Mul q (0x100 ||| P) (k + 1) =
        (if q.testBit k then (0x100 ||| P) <<< k else 0) ^^^ gf2Mul q (0x100 ||| P) k :=
      fun _ => rfl
    rw [hdiv, hmod, hmul]
    by_cases hb : a.testBit (8 + k) = true
    · simp only [hb, if_true]
      obtain ⟨h1, h2, h3⟩ := ih (a ^^^ ((0x100 ||| P) <<< k))
        (drop_top_bit a (8 + k) _ ha (divisor_lt P hP k) (by rw [hb, divisor_top_bit P]))
      generalize gf2Div (0x100 ||| P) 8 k (a ^^^ ((0x100 ||| P) <<< k)) = q at h1 h3 ⊢
      generalize gf2Mod (0x100 ||| P) 8 k (a ^^^ ((0x100 ||| P) <<< k)) = r at h2 h3 ⊢
      rw [Nat.one_shiftLeft]
      have hq : q.testBit k = false := Nat.testBit_lt_two_pow h1
      have htop : (2 ^ k ||| q).testBit k = true := by
        rw [Nat.testBit_or, Nat.testBit_two_pow_self]
        rfl
      have hlow : ∀ i, i < k → (2 ^ k ||| q).testBit i = q.testBit i := by
        intro i hi
        rw [Nat.testBit_or, Nat.testBit_two_pow_of_ne (by omega)]
        rfl
      refine ⟨Nat.or_lt_two_pow (Nat.pow_lt_pow_right (by decide) (by omega))
        (Nat.lt_of_lt_of_le h1 (Nat.pow_le_pow_right (by decide) (by omega))), h2, ?_⟩
      rw [htop, if_pos rfl, gf2Mul_congr _ q _ k hlow, Nat.xor_assoc, ← h3,
        ← Nat.xor_assoc, Nat.xor_comm _ a, Nat.xor_assoc, Nat.xor_self, Nat.xor_zero]
    · have hb2 : a.testBit (8 + k) = false := by simpa using hb
      simp only [hb2, Bool.false_eq_true, if_false]
      obtain ⟨h1, h2, h3⟩ := ih a (lt_of_top_bit_clear a (8 + k) ha hb2)
      refine ⟨Nat.lt_of_lt_of_le h1 (Nat.pow_le_pow_right (by decide) (by omega)), h2, ?_⟩
      rw [Nat.testBit_lt_two_pow h1]
      simp only [Bool.false_eq_true, if_false, Nat.zero_xor]
      exact h3

/-! ### The bit-serial CRC-8 and the table-driven loop -/

theorem top_bit_eq (x : Nat) : ((x >>> 7) &&& 1 != 0) = x.testBit 7 := by
  rw [Nat.testBit, Nat.and_comm]

theorem moved_cases : ∀ s, s < 256 →
    (s.testBit 7 = true → (s <<< 1) &&& 0xFF = (s <<< 1) ^^^ 0x100) ∧
      (s.testBit 7 = false → (s <<< 1) &&& 0xFF = s <<< 1) := by
  decide!

theorem crc8Bit_lt (P s : Nat) (b : Bool) : crc8Bit P s b < 256 := by
  have h1 : (s <<< 1) &&& 0xFF < 2 ^ 8 := Nat.and_lt_two_pow _ (by decide)
  have h2 : P &&& 0xFF < 2 ^ 8 := Nat.and_lt_two_pow _ (by decide)
  have h3 := Nat.xor_lt_two_pow h1 h2
  unfold crc8Bit
  simp only
  split_ifs
  · exact h3
  · exact h1

/-- The register with no message bit coming in. -/
theorem crc8Bit_false (P s : Nat) :
    crc8Bit P s false =
      if s.testBit 7 then ((s <<< 1) &&& 0xFF) ^^^ (P &&& 0xFF) else (s <<< 1) &&& 0xFF := by
  unfold crc8Bit
  simp only [top_bit_eq]
  cases s.testBit 7 <;> rfl

/-- A message bit coming in at the top is the same as a bit added to the top of
the register beforehand. -/
theorem crc8Bit_step (P s y : Nat) :
    crc8Bit P s (y.testBit 7) ^^^ ((y <<< 1) &&& 0xFF) = crc8Bit P (s ^^^ y) false := by
  have hm : ((s ^^^ y) <<< 1) &&& 0xFF = ((s <<< 1) &&& 0xFF) ^^^ ((y <<< 1) &&& 0xFF) := by
    rw [shl_xor, Nat.and_xor_distrib_right]
  rw [crc8Bit_false, Nat.testBit_xor, hm]
  unfold crc8Bit
  simp only [top_bit_eq]
  cases s.testBit 7 <;> cases y.testBit 7 <;>
    simp only [bne_self_eq_false, Bool.false_eq_true, if_false, if_true, Bool.xor_false,
      Bool.xor_true, Bool.not_false, Bool.not_true, Bool.false_bne, Bool.true_bne,
      Bool.bne_false, Bool.bne_true, Bool.xor_self] <;>
    first
      | rfl
      | (rw [Nat.xor_assoc, Nat.xor_assoc, Nat.xor_comm (P &&& 0xFF)])

theorem shifted_byte (y k : Nat) :
    ((((y <<< 1) &&& 0xFF) <<< k) &&& 0xFF) = (y <<< (k + 1)) &&& 0xFF := by
  rw [and_ff, and_ff, and_ff, Nat.shiftLeft_eq, Nat.shiftLeft_eq, Nat.shiftLeft_eq]
  have e : y * 2 ^ (k + 1) = (y * 2 ^ 1) * 2 ^ k := by
    rw [Nat.mul_assoc, ← Nat.pow_add, Nat.add_comm]
  rw [e, Nat.mul_mod (y * 2 ^ 1 % 256), Nat.mod_mod, ← Nat.mul_mod]

theorem iterate_crc8Bit_lt (P : Nat) : ∀ (k s : Nat), s < 256 →
    (fun t => crc8Bit P t false)^[k] s < 256 := by
  intro k
  induction k with
  | zero => intro s hs; exact hs
  | succ k ih =>
    intro s _
    rw [Function.iterate_succ_apply]
    exact ih _ (crc8Bit_lt P s false)

/-- Eight message bits taken one by one are the same as the byte added to the
register, followed by eight empty shifts. -/
theorem topBits_fold (P : Nat) : ∀ (k s y : Nat),
    (topBits y k).foldl (crc8Bit P) s ^^^ ((y <<< k) &&& 0xFF) =
      (fun t => crc8Bit P t false)^[k] (s ^^^ (y &&& 0xFF)) := by
  intro k
  induction k with
  | zero =>
    intro s y
    rfl
  | succ k ih =>
    intro s y
    show (topBits ((y <<< 1) &&& 0xFF) k).foldl (crc8Bit P) (crc8Bit P s (y.testBit 7)) ^^^
      ((y <<< (k + 1)) &&& 0xFF) = _
    rw [← shifted_byte y k, ih, Function.iterate_succ_apply]
    have hy : (y &&& 0xFF).testBit 7 = y.testBit 7 := by
      rw [Nat.testBit_and]
      have : Nat.testBit 0xFF 7 = true := by decide
      rw [this, Bool.and_true]
    have hs : ((y &&& 0xFF) <<< 1) &&& 0xFF = (y <<< 1) &&& 0xFF := by
      have := shifted_byte y 0
      rw [and_ff, and_ff, and_ff, Nat.shiftLeft_eq, Nat.shiftLeft_eq]
      omega
    have hand : ((y <<< 1) &&& 0xFF) &&& 0xFF = (y <<< 1) &&& 0xFF := by
      rw [Nat.and_assoc, Nat.and_self]
    rw [hand, ← hs, ← hy, crc8Bit_step]

theorem topBits_eight : ∀ y, y < 256 →
    [7, 6, 5, 4, 3, 2, 1, 0].map (fun i => y.testBit i) = topBits y 8 := by
  decide!

/-- One byte of the bit-serial CRC-8: the byte added to the register, then eight
empty shifts. -/
theorem crc8Byte_eq_iterate (P s y : Nat) (hy : y < 256) :
    crc8Byte P s y = (fun t => crc8Bit P t false)^[8] (s ^^^ y) := by
  have h := topBits_fold P 8 s y
  have h0 : (y <<< 8) &&& 0xFF = 0 := by
    rw [and_ff, Nat.shiftLeft_eq]
    omega
  have h1 : y &&& 0xFF = y := by
    rw [and_ff]
    exact Nat.mod_eq_of_lt hy
  rw [h0, Nat.xor_zero, h1] at h
  rw [← h]
  unfold crc8Byte
  rw [topBits_eight y hy]

/-- The long division of `s * x^k` by `x^8 + P` as `k` empty shifts of the
register. -/
theorem gf2Mod_eq_iterate (P : Nat) (hP : P < 256) : ∀ (k s : Nat), s < 256 →
    gf2Mod (0x100 ||| P) 8 k (s <<< k) = (fun t => crc8Bit P t false)^[k] s := by
  intro k
  induction k with
  | zero => intro s _; rfl
  | succ k ih =>
    intro s hs
    have hmod : gf2Mod (0x100 ||| P) 8 (k + 1) (s <<< (k + 1)) =
        gf2Mod (0x100 ||| P) 8 k
          (if (s <<< (k + 1)).testBit (8 + k) then
            (s <<< (k + 1)) ^^^ ((0x100 ||| P) <<< k) else s <<< (k + 1)) := rfl
    have hbit : (s <<< (k + 1)).testBit (8 + k) = s.testBit 7 := by
      rw [Nat.testBit_shiftLeft]
      have e : 8 + k - (k + 1) = 7 := by omega
      have d : decide (8 + k ≥ k + 1) = true := decide_eq_true (by omega)
      rw [e, d, Bool.true_and]
    have hsh : s <<< (k + 1) = (s <<< 1) <<< k := by
      rw [Nat.add_comm k 1, Nat.shiftLeft_add]
    have hPa : P &&& 0xFF = P := by
      rw [and_ff]
      exact Nat.mod_eq_of_lt hP
    have harg : (if (s <<< (k + 1)).testBit (8 + k) then
        (s <<< (k + 1)) ^^^ ((0x100 ||| P) <<< k) else s <<< (k + 1)) =
        (crc8Bit P s false) <<< k := by
      rw [hbit, crc8Bit_false, hPa, hsh]
      obtain ⟨m1, m2⟩ := moved_cases s hs
      by_cases hb : s.testBit 7 = true
      · rw [if_pos hb, if_pos hb, m1 hb, or_eq_xor_256 P hP, ← shl_xor, Nat.xor_assoc]
      · have hb2 : s.testBit 7 = false := by simpa using hb
        rw [if_neg hb, if_neg hb, m2 hb2]
    rw [hmod, harg, ih _ (crc8Bit_lt P s false), Function.iterate_succ_apply]

/-! ### The table-driven CRC-8 against the bit-serial CRC-8 -/

theorem swapByte_eq_reverse8 : ∀ x, x < 256 → swapByte x = reverse8 x := by
  decide!

theorem BitSwap8_eq_reverse8 (b : Nat) : BitSwap8 b = reverse8 (b % 256) :=
  swapByte_eq_reverse8 (b % 256) (Nat.mod_lt _ (by decide))

/-- One step of the 8-bit loop of `EDC_CalculateCrc` over the table generated for
`P` is one byte of the bit-serial CRC-8. -/
theorem crcStep8_eq_crc8Byte (P s b : Nat) (hP : P < 256) (hs : s < 256) (hb : b < 256) :
    crcStep8 (fun i => (crcLutRow P 8).getD i 0) s b = crc8Byte P s b := by
  have hx : s ^^^ b < 256 := Nat.xor_lt_two_pow (n := 8) hs hb
  have ht : (crcLutRow P 8).getD (s ^^^ b) 0 =
      (fun t => crc8Bit P t false)^[8] (s ^^^ b) := by
    rw [crcLutRow_getD P 8 _ hx, crcLutEntry_eq_gf2Mod P _ hP hx, gf2Mod_eq_iterate P hP 8 _ hx]
  unfold crcStep8
  simp only [ht]
  rw [and_ff, Nat.mod_eq_of_lt (iterate_crc8Bit_lt P 8 _ hx), crc8Byte_eq_iterate P s b hb]

theorem foldl_congr_lt (f g : Nat → Nat → Nat)
    (hfg : ∀ s b, s < 256 → b < 256 → f s b = g s b) (hf : ∀ s b, f s b < 256) :
    ∀ (l : List Nat) (s : Nat), s < 256 → (∀ b ∈ l, b < 256) →
      l.foldl f s = l.foldl g s := by
  intro l
  induction l with
  | nil => intro s _ _; rfl
  | cons b bs ih =>
    intro s hs hl
    rw [List.foldl_cons, List.foldl_cons,
      ← hfg s b hs (hl b (List.mem_cons_self b bs))]
    exact ih _ (hf s b) (fun c hc => hl c (List.mem_cons_of_mem b hc))

/-- The part of `EDC_CalculateCrc` after the table lookup, for width 8, is the
CRC-8 of the specification. -/
theorem crcCompute_eq_crc8Spec (P : Nat) (hP : P < 256) (inR outR : Bool) (data : List Nat) :
    crcCompute (fun i => (crcLutRow P 8).getD i 0) 8 inR outR data =
      crc8Spec P inR outR data := by
  have hmap : data.map (fun b => if inR then BitSwap8 b else b % 256) =
      data.map (fun b => if inR then reverse8 (b % 256) else b % 256) := by
    apply List.map_congr_left
    intro b _
    rw [BitSwap8_eq_reverse8]
  have hbytes : ∀ b ∈ data.map (fun b => if inR then BitSwap8 b else b % 256), b < 256 := by
    intro b hb
    rw [List.mem_map] at hb
    obtain ⟨a, _, rfl⟩ := hb
    split_ifs
    · exact BitSwap8_lt a
    · exact Nat.mod_lt _ (by decide)
  have hfold := foldl_congr_lt (crcStep8 (fun i => (crcLutRow P 8).getD i 0)) (crc8Byte P)
    (fun s b hs hb => crcStep8_eq_crc8Byte P s b hP hs hb) (crcStep8_lt _)
    (data.map (fun b => if inR then BitSwap8 b else b % 256)) 0 (by decide) hbytes
  have hr : (data.map (fun b => if inR then BitSwap8 b else b % 256)).foldl
      (crcStep8 (fun i => (crcLutRow P 8).getD i 0)) 0 < 256 :=
    foldl_lt (crcStep8_lt _) _ 0 (by decide)
  unfold crcCompute crc8Spec crc8Serial
  simp only [CRC_POLY_SIZE_8, if_true]
  rw [← hmap, ← hfold]
  generalize (data.map (fun b => if inR then BitSwap8 b else b % 256)).foldl
      (crcStep8 (fun i => (crcLutRow P 8).getD i 0)) 0 = r at hr
  cases outR
  · simp only [Bool.false_eq_true, if_false]
    exact Nat.mod_eq_of_lt (by omega)
  · simp only [if_true]
    rw [BitSwap8_eq_reverse8, Nat.mod_eq_of_lt hr]
    have := BitSwap8_lt r
    rw [BitSwap8_eq_reverse8, Nat.mod_eq_of_lt hr] at this
    exact Nat.mod_eq_of_lt (by omega)

/-! ### One pass of the search over one or two devices -/

theorem all_agree (S : List Nat) (idx : Nat) (t : Bool) (hne : S ≠ [])
    (h : ∀ x ∈ S, x.testBit idx = t) :
    S.all (fun r => r.testBit idx) = t ∧ S.all (fun r => !r.testBit idx) = !t := by
  cases S with
  | nil => exact absurd rfl hne
  | cons a l =>
    have ha := h a (List.mem_cons_self a l)
    cases t
    · constructor
      · simp only [List.all_cons, ha, Bool.false_and]
      · show ((a :: l).all fun r => !r.testBit idx) = true
        rw [List.all_eq_true]
        intro x hx
        rw [h x hx]
        rfl
    · constructor
      · show ((a :: l).all fun r => r.testBit idx) = true
        rw [List.all_eq_true]
        intro x hx
        exact h x hx
      · simp only [List.all_cons, ha, Bool.not_true, Bool.false_and]

theorem pinVal_and_one (t : Bool) : (pinVal t &&& 0x01 != 0) = t := by
  cases t <;> rfl

theorem mod_succ_bit (r idx : Nat) (hidx : idx < 64) :
    r % 2 ^ idx ||| ((pinVal (r.testBit idx) <<< idx) % 18446744073709551616) =
      r % 2 ^ (idx + 1) := by
  have hle : pinVal (r.testBit idx) ≤ 1 := by
    unfold pinVal
    split_ifs <;> omega
  rw [or_shifted_bit _ _ idx (Nat.mod_lt _ (Nat.two_pow_pos idx)) hle hidx, Nat.mod_pow_succ,
    Nat.mul_comm]
  congr 2
  rw [Nat.testBit_to_div_mod]
  unfold pinVal
  have := Nat.mod_two_eq_zero_or_one (r / 2 ^ idx)
  by_cases h : r / 2 ^ idx % 2 = 1
  · simp [h]
  · have h0 : r / 2 ^ idx % 2 = 0 := by omega
    simp [h0]

/-- A bit position at which all selected devices carry the bit of `r`. -/
theorem sim_step_agree (pin : Nat) (ld : Int) (prev k idx r : Nat) (lz : Int) (rs : Bool)
    (R S : List Nat) (hidx : idx < 64) (hne : S ≠ [])
    (h : ∀ x ∈ S, x.testBit idx = r.testBit idx) :
    searchBits simHw pin ld prev (k + 1) idx (r % 2 ^ idx) lz rs (simAt R S idx) =
      searchBits simHw pin ld prev k (idx + 1) (r % 2 ^ (idx + 1)) lz rs
        (simAt R S (idx + 1)) := by
  obtain ⟨h1, h2⟩ := sim_reads pin (simAt R S idx) rfl rfl hidx
  obtain ⟨a1, a2⟩ := all_agree S idx (r.testBit idx) hne h
  have hw := sim_write pin (pinVal (r.testBit idx)) (simAt R S idx) rfl hidx
  have hsel : (simAt R S idx).selected = S := rfl
  have hpos : (simAt R S idx).pos = idx := rfl
  rw [hsel, hpos] at h1 h2 hw
  rw [a1] at h1
  rw [a2] at h2
  have hfilter : S.filter (fun x => x.testBit idx == (pinVal (r.testBit idx) &&& 0x01 != 0)) =
      S := by
    rw [List.filter_eq_self]
    intro x hx
    rw [pinVal_and_one, h x hx]
    exact beq_self_eq_true _
  rw [hfilter] at hw
  have hnb : searchNextBit ld prev idx (pinVal (r.testBit idx)) (pinVal (!r.testBit idx)) =
      pinVal (r.testBit idx) := by
    unfold searchNextBit pinVal
    cases r.testBit idx <;> simp
  have hne2 : ¬ (pinVal (r.testBit idx) = pinVal (!r.testBit idx) ∧
      pinVal (r.testBit idx) = 1) := by
    unfold pinVal
    cases r.testBit idx <;> simp
  have hne3 : ¬ (pinVal (r.testBit idx) = pinVal (!r.testBit idx) ∧
      pinVal (r.testBit idx) = 0 ∧ pinVal (r.testBit idx) = 0) := by
    unfold pinVal
    cases r.testBit idx <;> simp
  rw [searchBits_succ, h1]
  simp only [h2, hnb, if_neg hne2, if_neg hne3, hw, mod_succ_bit r idx hidx]
  rfl

/-- A run of bit positions at which all selected devices carry the bits of `r`. -/
theorem sim_run_agree (pin : Nat) (ld : Int) (prev r : Nat) (rs : Bool) (R S : List Nat)
    (hne : S ≠ []) :
    ∀ (k1 k2 idx : Nat) (lz : Int), idx + k1 ≤ 64 →
      (∀ x ∈ S, ∀ i, idx ≤ i → i < idx + k1 → x.testBit i = r.testBit i) →
      searchBits simHw pin ld prev (k1 + k2) idx (r % 2 ^ idx) lz rs (simAt R S idx) =
        searchBits simHw pin ld prev k2 (idx + k1) (r % 2 ^ (idx + k1)) lz rs
          (simAt R S (idx + k1)) := by
  intro k1
  induction k1 with
  | zero =>
    intro k2 idx lz _ _
    rw [Nat.zero_add, Nat.add_zero]
  | succ k1 ih =>
    intro k2 idx lz hk h
    have e : k1 + 1 + k2 = (k1 + k2) + 1 := by omega
    have e2 : idx + (k1 + 1) = (idx + 1) + k1 := by omega
    rw [e, sim_step_agree pin ld prev (k1 + k2) idx r lz rs R S (by omega) hne
      (fun x hx => h x hx idx (Nat.le_refl _) (by omega)), e2]
    exact ih k2 (idx + 1) lz (by omega) (fun x hx i hi1 hi2 => h x hx i (by omega) (by omega))

/-- A bit position at which the selected devices disagree: the master takes the
branch of `r` when its choice is the bit of `r`. -/
theorem sim_step_choice (pin : Nat) (ld : Int) (prev k idx r : Nat) (lz : Int) (rs : Bool)
    (R S : List Nat) (hidx : idx < 64) (h0 : ∃ x ∈ S, x.testBit idx = false)
    (h1 : ∃ x ∈ S, x.testBit idx = true)
    (hc : searchNextBit ld prev idx 0 0 = pinVal (r.testBit idx)) :
    searchBits simHw pin ld prev (k + 1) idx (r % 2 ^ idx) lz rs (simAt R S idx) =
      searchBits simHw pin ld prev k (idx + 1) (r % 2 ^ (idx + 1))
        (if r.testBit idx then lz else (idx : Int)) rs
        (simAt R (S.filter (fun x => x.testBit idx == r.testBit idx)) (idx + 1)) := by
  obtain ⟨r1, r2⟩ := sim_reads pin (simAt R S idx) rfl rfl hidx
  have hw := sim_write pin (pinVal (r.testBit idx)) (simAt R S idx) rfl hidx
  have hsel : (simAt R S idx).selected = S := rfl
  have hpos : (simAt R S idx).pos = idx := rfl
  rw [hsel, hpos] at r1 r2 hw
  have a1 : S.all (fun x => x.testBit idx) = false := by
    rw [Bool.eq_false_iff]
    intro h
    rw [List.all_eq_true] at h
    obtain ⟨x, hx, hb⟩ := h0
    have := h x hx
    rw [hb] at this
    exact Bool.false_ne_true this
  have a2 : S.all (fun x => !x.testBit idx) = false := by
    rw [Bool.eq_false_iff]
    intro h
    rw [List.all_eq_true] at h
    obtain ⟨x, hx, hb⟩ := h1
    have := h x hx
    rw [hb] at this
    exact Bool.false_ne_true this
  rw [a1] at r1
  rw [a2] at r2
  have p0 : pinVal false = 0 := rfl
  rw [p0] at r1 r2
  have hfilter : (fun x : Nat => x.testBit idx == (pinVal (r.testBit idx) &&& 0x01 != 0)) =
      (fun x : Nat => x.testBit idx == r.testBit idx) := by
    funext x
    rw [pinVal_and_one]
  rw [hfilter] at hw
  have hlz : (if True ∧ True ∧ pinVal (r.testBit idx) = 0 then (idx : Int)
      else lz) = if r.testBit idx then lz else (idx : Int) := by
    unfold pinVal
    cases r.testBit idx <;> simp
  rw [searchBits_succ, r1]
  simp only [r2, hc, hw, mod_succ_bit r idx hidx]
  rw [if_neg (by simp), hlz]
  rfl

/-- The pass over a bus with one device reads the ROM word of that device and
finds no discrepancy. -/
theorem simPass_one (pin : Nat) (x : Int × Nat) (r : Nat) (hr : r < 2 ^ 64) :
    simPass [r] pin x =
      { romData := r, lastZero := -1, isResetSearch := false, hw := simAt [r] [r] 64 } := by
  have h := sim_run_agree pin x.1 x.2 r false [r] [r] (List.cons_ne_nil _ _) 64 0 0 (-1)
    (by decide) (fun y hy i _ _ => by rw [List.mem_singleton.1 hy])
  have e0 : r % 2 ^ 0 = 0 := Nat.mod_one r
  have e64 : r % 2 ^ (0 + 64) = r := Nat.mod_eq_of_lt hr
  rw [e0, e64] at h
  exact h

/-- The pass over a bus with the two devices `r` and `o` that first differ at
bit `d`, when the choice of the master at `d` is the bit of `r`: the pass reads
the ROM word of `r`, and leaves `lastZero` at `d` when that choice was 0. -/
theorem simPass_two (roms : List Nat) (pin : Nat) (x : Int × Nat) (r o d : Nat) (hd : d < 64)
    (hr : r < 2 ^ 64) (hmem : ∀ y ∈ roms, y = r ∨ y = o) (hrin : r ∈ roms) (hoin : o ∈ roms)
    (hlow : ∀ i, i < d → o.testBit i = r.testBit i) (hdiff : o.testBit d = !r.testBit d)
    (hc : searchNextBit x.1 x.2 d 0 0 = pinVal (r.testBit d)) :
    ∃ b, simPass roms pin x =
      { romData := r, lastZero := if r.testBit d then -1 else (d : Int),
        isResetSearch := false, hw := b } := by
  have hne : roms ≠ [] := List.ne_nil_of_mem hrin
  have s1 := sim_run_agree pin x.1 x.2 r false roms roms hne d (64 - d) 0 (-1) (by omega)
    (fun y hy i _ hi => by
      rcases hmem y hy with e | e
      · rw [e]
      · rw [e]; exact hlow i (by omega))
  have e0 : r % 2 ^ 0 = 0 := Nat.mod_one r
  have ek : d + (64 - d) = 64 := by omega
  rw [e0, ek, Nat.zero_add] at s1
  have hboth : (∃ y ∈ roms, y.testBit d = false) ∧ (∃ y ∈ roms, y.testBit d = true) := by
    cases hb : r.testBit d
    · exact ⟨⟨r, hrin, hb⟩, ⟨o, hoin, by rw [hdiff, hb]; rfl⟩⟩
    · exact ⟨⟨o, hoin, by rw [hdiff, hb]; rfl⟩, ⟨r, hrin, hb⟩⟩
  have ek2 : 64 - d = (63 - d) + 1 := by omega
  have s2 := sim_step_choice pin x.1 x.2 (63 - d) d r (-1) false roms roms hd hboth.1 hboth.2 hc
  have hsel : ∀ y ∈ roms.filter (fun y => y.testBit d == r.testBit d), y = r := by
    intro y hy
    rw [List.mem_filter] at hy
    rcases hmem y hy.1 with e | e
    · exact e
    · have h2 := hy.2
      rw [e, hdiff] at h2
      cases hb : r.testBit d <;> rw [hb] at h2 <;> simp at h2
  have hne2 : roms.filter (fun y => y.testBit d == r.testBit d) ≠ [] := by
    apply List.ne_nil_of_mem (a := r)
    rw [List.mem_filter]
    exact ⟨hrin, beq_self_eq_true _⟩
  have s3 := sim_run_agree pin x.1 x.2 r false roms
    (roms.filter (fun y => y.testBit d == r.testBit d)) hne2 (63 - d) 0 (d + 1)
    (if r.testBit d then -1 else (d : Int)) (by omega)
    (fun y hy i _ _ => by rw [hsel y hy])
  have ek3 : d + 1 + (63 - d) = 64 := by omega
  rw [Nat.add_zero, ek3, Nat.mod_eq_of_lt hr] at s3
  have hp : simPass roms pin x =
      searchBits simHw pin x.1 x.2 0 64 r (if r.testBit d then -1 else (d : Int)) false
        (simAt roms (roms.filter (fun y => y.testBit d == r.testBit d)) 64) := by
    unfold simPass
    rw [show simAtFirstBit roms = simAt roms roms 0 from rfl, s1, ek2, s2, s3]
  exact ⟨simAt roms (roms.filter (fun y => y.testBit d == r.testBit d)) 64, hp⟩

/-! ### Claims about the CRC engine -/

/-- C1: once `EDC_GenerateCrcLut` has succeeded for the configuration
{polynomial 0x31, width 8, input reflected, output reflected} (after any earlier
calls, and whatever calls follow), `EDC_CalculateCrc(0x31, data, 9)` over the
nine ASCII bytes of "123456789" returns 0xA1. -/
theorem crc8_dallas_check_value (n : Nat) (st : EdcState) (u : Nat)
    (h : Registered n st dallasConfig) :
    EDC_CalculateCrc n st u 0x31 (some checkString) 9 = some 0xA1 := by
  have hc := calculate_registered n st dallasConfig u checkString 9 h (by decide) (by decide)
  have hp : dallasConfig.poly % 256 = 0x31 := rfl
  rw [hp] at hc
  rw [hc]
  decide

theorem crc8_dallas_check_value_witness :
    Registered 1 (EDC_GenerateCrcLut 1 (EdcState.init 1) dallasConfig).2 dallasConfig ∧
      EDC_CalculateCrc 1 (EDC_GenerateCrcLut 1 (EdcState.init 1) dallasConfig).2 0 0x31
        (some checkString) 9 = some 0xA1 :=
  ⟨⟨[], [], by decide, rfl⟩,
    crc8_dallas_check_value 1 _ 0 ⟨[], [], by decide, rfl⟩⟩

/-- C9: bit reflection is self-inverse at every width: `BitSwap8 (BitSwap8 x) = x`
for every 8-bit `x`, `BitSwap16 (BitSwap16 x) = x` for every 16-bit `x`, and
`BitSwap32 (BitSwap32 x) = x` for every 32-bit `x`. -/
theorem bitSwap_self_inverse :
    (∀ x, x < 2 ^ 8 → BitSwap8 (BitSwap8 x) = x) ∧
      (∀ x, x < 2 ^ 16 → BitSwap16 (BitSwap16 x) = x) ∧
      (∀ x, x < 2 ^ 32 → BitSwap32 (BitSwap32 x) = x) :=
  ⟨fun x h => BitSwap8_BitSwap8 x h, fun x h => BitSwap16_BitSwap16 x h,
    fun x h => BitSwap32_BitSwap32 x h⟩

theorem bitSwap_self_inverse_witness :
    BitSwap8 (BitSwap8 0x31) = 0x31 ∧ BitSwap16 (BitSwap16 0x1021) = 0x1021 ∧
      BitSwap32 (BitSwap32 0x04C11DB7) = 0x04C11DB7 :=
  ⟨bitSwap_self_inverse.1 0x31 (by decide), bitSwap_self_inverse.2.1 0x1021 (by decide),
    bitSwap_self_inverse.2.2 0x04C11DB7 (by decide)⟩

/-- C6: after any sequence of calls, `EDC_GenerateCrcLut` returns failure
whenever the polynomial of the configuration is zero, its width (a byte value,
as the generator holds it) is not 8, 16 or 32, a configuration with the same
polynomial value has already been registered, or `CRC_MAX_DEVICE_COUNT`
configurations are already registered. -/
theorem generate_rejects (n : Nat) (calls : List CrcConfig_t) (cfg : CrcConfig_t)
    (h : cfg.poly = 0 ∨
      (cfg.polySize < 256 ∧ cfg.polySize ≠ 8 ∧ cfg.polySize ≠ 16 ∧ cfg.polySize ≠ 32) ∨
      (∃ c, Registered n (runGenerate n (EdcState.init n) calls) c ∧ c.poly = cfg.poly) ∨
      successCount n (EdcState.init n) calls = n) :
    (EDC_GenerateCrcLut n (runGenerate n (EdcState.init n) calls) cfg).1 = false := by
  rcases h with h | h | h | h
  · exact generate_false_of_poly_zero n _ cfg (by rw [h])
  · obtain ⟨hb, h8, h16, h32⟩ := h
    exact generate_false_of_width n _ cfg (by rw [Nat.mod_eq_of_lt hb]; exact ⟨h8, h16, h32⟩)
  · obtain ⟨c, hreg, hpoly⟩ := h
    obtain ⟨hwf, _, _, k, hk, hh⟩ := registered_row n _ c hreg
    have hkn : k < n := Nat.lt_of_lt_of_le hk hwf.idxLe
    exact generate_false_of_duplicate n _ cfg k hkn (by rw [(holds_idAt _ k c hh).1, hpoly])
  · apply generate_false_of_full
    rw [runGenerate_deviceIdx, h]
    simp [EdcState.init]

theorem generate_rejects_witness :
    (EDC_GenerateCrcLut 2 (runGenerate 2 (EdcState.init 2) [dallasConfig])
      { poly := 0x31, polySize := 16, isInputReflected := false, isCrcReflected := false }).1 =
      false :=
  generate_rejects 2 [dallasConfig] _
    (Or.inr (Or.inr (Or.inl ⟨dallasConfig, ⟨[], [], by decide, rfl⟩, rfl⟩)))

/-- The residue property under the polynomial value the registry holds (the low
byte of the configured polynomial): for every successfully registered
configuration of width 8, 16 or 32, with any combination of the two reflection
flags, and every non-empty payload, `EDC_CalculateCrc` called with that value
returns a checksum for the payload, and over the payload followed by the
`width / 8` bytes of that checksum (`crcTrailer`) it returns 0. -/
theorem crc_of_message_with_checksum_is_zero (n : Nat) (st : EdcState) (cfg : CrcConfig_t)
    (u : Nat) (payload : List Nat) (hreg : Registered n st cfg)
    (hw : cfg.polySize = 8 ∨ cfg.polySize = 16 ∨ cfg.polySize = 32) (hne : payload ≠ []) :
    ∃ crc, EDC_CalculateCrc n st u (cfg.poly % 256) (some payload) payload.length = some crc ∧
      (crcTrailer cfg crc).length = cfg.polySize / 8 ∧
      EDC_CalculateCrc n st u (cfg.poly % 256) (some (payload ++ crcTrailer cfg crc))
        (payload ++ crcTrailer cfg crc).length = some 0 := by
  have hlen : payload.length ≠ 0 := fun h => hne (List.length_eq_zero.mp h)
  have hmod : cfg.polySize % 256 = cfg.polySize := by omega
  refine ⟨_, calculate_registered n st cfg u payload _ hreg hlen (le_refl _),
    crcTrailer_length _ _, ?_⟩
  rw [calculate_registered n st cfg u _ _ hreg (by simp [hlen]) (le_refl _)]
  simp only [List.take_length, hmod]
  rw [compute_residue cfg (fun i => (crcLutRow (cfg.poly % 256) cfg.polySize).getD i 0)
    (crcLutRow_zero _ _) hw payload]

theorem crc_of_message_with_checksum_is_zero_witness :
    ∃ crc, EDC_CalculateCrc 1 (EDC_GenerateCrcLut 1 (EdcState.init 1) dallasConfig).2 0
        (dallasConfig.poly % 256) (some checkString) checkString.length = some crc ∧
      (crcTrailer dallasConfig crc).length = dallasConfig.polySize / 8 ∧
      EDC_CalculateCrc 1 (EDC_GenerateCrcLut 1 (EdcState.init 1) dallasConfig).2 0
        (dallasConfig.poly % 256) (some (checkString ++ crcTrailer dallasConfig crc))
        (checkString ++ crcTrailer dallasConfig crc).length = some 0 :=
  crc_of_message_with_checksum_is_zero 1 _ dallasConfig 0 checkString
    ⟨[], [], by decide, rfl⟩ (Or.inl rfl) (by decide)

/-- C2 (the code departs from the claim): the configuration of width 16 with the
polynomial 0x1021 is registered successfully, the registry keeping the
polynomial as the byte 0x21.  `EDC_CalculateCrc(0x1021, ...)` then finds no row
and reads `lutIdx` unassigned.  In a registry of two rows with `lutIdx = 1` (the
unused row) the call over "123456789" returns 0xFFFFFFFF, and over the payload
followed by the two bytes FF FF of that value it returns 0xFFFFFFFF again, not
0; with `lutIdx = 2` the read is outside the registry.  Only `lutIdx = 0`, the
row the lookup did not find, gives the residue 0.  When the table of the driver
was registered first, `lutIdx = 0` names that table: the calls return 0xA1 and,
over the payload followed by 00 A1, the value 0xDB. -/
theorem residue_is_not_zero_for_a_wide_polynomial :
    (EDC_GenerateCrcLut 2 (EdcState.init 2) xmodemConfig).1 = true ∧
      (EDC_GenerateCrcLut 2 (EdcState.init 2) xmodemConfig).2.crcLutId =
        [[0x21, 16, 0, 0], [0, 0, 0, 0]] ∧
      EDC_CalculateCrc 2 (EDC_GenerateCrcLut 2 (EdcState.init 2) xmodemConfig).2 1 0x1021
        (some checkString) 9 = some 0xFFFFFFFF ∧
      crcTrailer xmodemConfig 0xFFFFFFFF = [0xFF, 0xFF] ∧
      EDC_CalculateCrc 2 (EDC_GenerateCrcLut 2 (EdcState.init 2) xmodemConfig).2 1 0x1021
        (some (checkString ++ [0xFF, 0xFF])) 11 = some 0xFFFFFFFF ∧
      EDC_CalculateCrc 2 (EDC_GenerateCrcLut 2 (EdcState.init 2) xmodemConfig).2 2 0x1021
        (some checkString) 9 = none ∧
      EDC_CalculateCrc 2 (EDC_GenerateCrcLut 2 (EdcState.init 2) xmodemConfig).2 0 0x1021
        (some checkString) 9 = some 0x54A2 ∧
      EDC_CalculateCrc 2 (EDC_GenerateCrcLut 2 (EdcState.init 2) xmodemConfig).2 0 0x1021
        (some (checkString ++ crcTrailer xmodemConfig 0x54A2)) 11 = some 0 ∧
      (runGenerate 2 (EdcState.init 2) [dallasConfig, xmodemConfig]).crcLutId =
        [[0x31, 8, 1, 1], [0x21, 16, 0, 0]] ∧
      EDC_CalculateCrc 2 (runGenerate 2 (EdcState.init 2) [dallasConfig, xmodemConfig]) 0 0x1021
        (some checkString) 9 = some 0xA1 ∧
      crcTrailer xmodemConfig 0xA1 = [0x00, 0xA1] ∧
      EDC_CalculateCrc 2 (runGenerate 2 (EdcState.init 2) [dallasConfig, xmodemConfig]) 0 0x1021
        (some (checkString ++ [0x00, 0xA1])) 11 = some 0xDB := by
  refine ⟨by decide!, by decide!, by decide!, by decide!, by decide!, by decide!, by decide!,
    by decide!, by decide!, by decide!, by decide!, by decide!⟩

/-! ### Claims about the device search -/

/-- C10: for every bus behaviour (arbitrary noise included) and every clock
behaviour, if `SearchDevice` returns `n > 0` then each of the first `n` buffer
entries is a 48-bit value `s` taken from a 64-bit candidate `r` that the search
accepted: `r` has low byte 0x28, bits 8..55 of `r` are `s`, and
`EDC_CalculateCrc(0x31, r, 8)` is 0.  No malformed identifier is returned. -/
theorem search_returns_accepted_identifiers {σ : Type} (env : Env σ) (fuel : Nat)
    (st : DsState σ) (pinCode : Nat) (romIdBuff : Nat → Nat) (searchMode : SearchMode_t)
    (res : SearchResult σ)
    (h : SearchDevice env fuel st pinCode romIdBuff searchMode = some res)
    (_hn : 0 < res.count) :
    res.accepted.length = res.count ∧
      ∀ i, i < res.count → ∃ r, res.accepted[i]? = some r ∧
        r &&& 0xFF = 0x28 ∧
        res.romIdBuff i = (r >>> 8) &&& 0xFFFFFFFFFFFF ∧
        res.romIdBuff i < 2 ^ 48 ∧
        EDC_CalculateCrc env.crcMax res.st.edc env.lutIdxInit 0x31 (some (bytesLE r 8)) 8 =
          some 0 := by
  obtain ⟨hlen, hall⟩ := searchDevice_accepted env fuel st pinCode romIdBuff searchMode res h
  refine ⟨hlen, fun i hi => ?_⟩
  obtain ⟨r, h1, _, h2, h3, h4, h5⟩ := hall i hi
  exact ⟨r, h1, h2, h3, h4, h5⟩

theorem search_returns_accepted_identifiers_witness :
    ∃ res, SearchDevice (simEnv 1 0) 4 (simStart 1 twoDevices) 1 (fun _ => 0)
        SearchMode_t.SEARCH_DEVICE_ID = some res ∧ res.count = 2 ∧
      res.accepted.length = res.count ∧
      ∀ i, i < res.count → ∃ r, res.accepted[i]? = some r ∧
        r &&& 0xFF = 0x28 ∧
        res.romIdBuff i = (r >>> 8) &&& 0xFFFFFFFFFFFF ∧
        res.romIdBuff i < 2 ^ 48 ∧
        EDC_CalculateCrc (simEnv 1 0).crcMax res.st.edc (simEnv 1 0).lutIdxInit 0x31
          (some (bytesLE r 8)) 8 = some 0 := by
  have hc : (SearchDevice (simEnv 1 0) 4 (simStart 1 twoDevices) 1 (fun _ => 0)
      SearchMode_t.SEARCH_DEVICE_ID).map (fun r => r.count) = some 2 := by decide!
  generalize hs : SearchDevice (simEnv 1 0) 4 (simStart 1 twoDevices) 1 (fun _ => 0)
      SearchMode_t.SEARCH_DEVICE_ID = o at hc
  cases o with
  | none => simp at hc
  | some res =>
    simp only [Option.map_some', Option.some.injEq] at hc
    exact ⟨res, rfl, hc,
      search_returns_accepted_identifiers (simEnv 1 0) 4 (simStart 1 twoDevices) 1 (fun _ => 0)
        SearchMode_t.SEARCH_DEVICE_ID res hs (by omega)⟩

/-- C3 (the code departs from the claim): three devices with pairwise distinct
ROM words, each with family byte 0x28 and CRC-8 zero, on the noise-free
simulated bus with a timeout that never expires.  `SearchDevice` in
enumerate-all mode returns 2, not 3; the buffer holds the serial numbers 0x100
and 0x001, the device 0x002 is never found. -/
theorem search_misses_a_device_of_three :
    threeDevices.Nodup ∧
      (∀ r ∈ threeDevices, r &&& 0xFF = 0x28 ∧
        EDC_CalculateCrc 1 (EDC_GenerateCrcLut 1 (EdcState.init 1) dallasConfig).2 0 0x31
          (some (bytesLE r 8)) 8 = some 0) ∧
      threeDevices.map (fun r => (r >>> 8) &&& 0xFFFFFFFFFFFF) = [0x100, 0x002, 0x001] ∧
      (SearchDevice (simEnv 1 0) 8 (simStart 1 threeDevices) 1 (fun _ => 0)
        SearchMode_t.SEARCH_DEVICE_ID).map (fun res => (res.count, res.romIdBuff 0,
          res.romIdBuff 1)) = some (2, 0x100, 0x001) := by
  refine ⟨by decide, by decide!, by decide, by decide!⟩

/-! ### Claims about the temperature decoding -/

/-- C5: with correction offset 0, for every CRC-valid scratch-pad whose
temperature MSB has its five upper bits clear (MSB < 8, a non-negative reading)
the value `DS18B20_ReadTemp` decodes is exactly `(256 * MSB + LSB) / 16`; in
particular the bytes LSB 0x50, MSB 0x05 decode to +85.0. -/
theorem readTemp_nonnegative_exact (env : Env (List Bool)) (st : DsState (List Bool))
    (rom : Nat → Nat) (sp : List Nat) (rxInit : Nat → List Nat) (henv : env.ops = replayHw)
    (hreg : Registered env.crcMax st.edc dallasConfig) (hrom : rom 0 ≠ 0)
    (hhw : st.hw = true :: bytesLevels sp) (hlen : sp.length = 9) (hb : ∀ b ∈ sp, b < 256)
    (hcrc : EDC_CalculateCrc env.crcMax st.edc env.lutIdxInit CRC_POLY_CODE (some sp) 9 = some 0)
    (hcorr : st.tempCorr = 0) (hmsb : sp.getD 1 0 < 8) :
    (DS18B20_ReadTemp env st (some rom) false 1 rxInit).map (fun r => (r.1, r.2.1)) =
        some (true, [((256 * sp.getD 1 0 + sp.getD 0 0 : ℕ) : ℚ) / 16]) ∧
      (sp.getD 0 0 = 0x50 → sp.getD 1 0 = 0x05 →
        (DS18B20_ReadTemp env st (some rom) false 1 rxInit).map (fun r => (r.1, r.2.1)) =
          some (true, [85])) := by
  have hl : sp.getD 0 0 < 256 := by
    have h0 : 0 < sp.length := by omega
    rw [List.getD_eq_getElem _ _ h0]
    exact hb _ (List.getElem_mem _)
  have hmain : (DS18B20_ReadTemp env st (some rom) false 1 rxInit).map (fun r => (r.1, r.2.1)) =
      some (true, [((256 * sp.getD 1 0 + sp.getD 0 0 : ℕ) : ℚ) / 16]) := by
    rw [readTemp_replay env st rom sp rxInit henv hreg hrom hhw hlen hb hcrc,
      decodeTemp_nonnegative sp _ hl hmsb, hcorr, add_zero]
  refine ⟨hmain, fun h0 h1 => ?_⟩
  rw [hmain, h0, h1]
  norm_num

theorem readTemp_nonnegative_exact_witness :
    (DS18B20_ReadTemp (replayEnv 1 0) (replayState 1 5 (true :: bytesLevels scratchPad85) 0)
      (some (fun _ => 7)) false 1 (fun _ => [])).map (fun r => (r.1, r.2.1)) =
      some (true, [85]) :=
  (readTemp_nonnegative_exact (replayEnv 1 0)
    (replayState 1 5 (true :: bytesLevels scratchPad85) 0) (fun _ => 7) scratchPad85
    (fun _ => []) rfl ⟨[], [], by decide, rfl⟩ (by decide) rfl (by decide) (by decide)
    (by decide) rfl (by decide)).2 (by decide) (by decide)

/-! ### Claims about the error value of the CRC engine -/

/-- C7 (the code departs from the claim): the only call of `EDC_GenerateCrcLut`
ever made registered polynomial 0x31, so 0x07 is not registered.  For the
non-null nine-byte data "123456789" `EDC_CalculateCrc(0x07, data, 9)` has no
row to find and reads `lutIdx` unassigned.  When the indeterminate value is 0
the call returns 0xA1, the checksum under the table of 0x31, instead of the
all-ones value; it returns all ones only when the value happens to name an
unused row, and reads outside the registry when it names no row at all. -/
theorem unregistered_polynomial_can_yield_a_checksum :
    (EDC_GenerateCrcLut 2 (EdcState.init 2) dallasConfig).2.crcLutId =
        [[0x31, 8, 1, 1], [0, 0, 0, 0]] ∧
      EDC_CalculateCrc 2 (EDC_GenerateCrcLut 2 (EdcState.init 2) dallasConfig).2 0 0x07
        (some checkString) 9 = some 0xA1 ∧
      EDC_CalculateCrc 2 (EDC_GenerateCrcLut 2 (EdcState.init 2) dallasConfig).2 1 0x07
        (some checkString) 9 = some 0xFFFFFFFF ∧
      EDC_CalculateCrc 2 (EDC_GenerateCrcLut 2 (EdcState.init 2) dallasConfig).2 2 0x07
        (some checkString) 9 = none := by
  refine ⟨by decide, by decide, by decide, by decide⟩

/-- Under the polynomial value the registry holds (the low byte of the
configured polynomial), for every successfully registered configuration of
width 8 or 16 and every non-null data of length at least 1, `EDC_CalculateCrc`
returns a value below `2 ^ width`, hence never the all-ones value 0xFFFFFFFF it
returns on error. -/
theorem narrow_checksum_is_never_the_error_value (n : Nat) (st : EdcState) (cfg : CrcConfig_t)
    (u : Nat) (mem : List Nat) (dataLen : Nat) (hreg : Registered n st cfg)
    (hw : cfg.polySize = 8 ∨ cfg.polySize = 16) (h0 : dataLen ≠ 0)
    (hlen : dataLen ≤ mem.length) :
    ∃ crc, EDC_CalculateCrc n st u (cfg.poly % 256) (some mem) dataLen = some crc ∧
      crc < 2 ^ cfg.polySize ∧ crc ≠ 0xFFFFFFFF := by
  refine ⟨_, calculate_registered n st cfg u mem dataLen hreg h0 hlen, ?_⟩
  rcases hw with h | h
  · have hm : cfg.polySize % 256 = 8 := by omega
    rw [hm, h]
    have := crcCompute_lt_of_width8
      (fun i => (crcLutRow (cfg.poly % 256) 8).getD i 0) cfg.isInputReflected
      cfg.isCrcReflected (mem.take dataLen)
    exact ⟨this, by omega⟩
  · have hm : cfg.polySize % 256 = 16 := by omega
    rw [hm, h]
    have := crcCompute_lt_of_width16
      (fun i => (crcLutRow (cfg.poly % 256) 16).getD i 0) cfg.isInputReflected
      cfg.isCrcReflected (mem.take dataLen)
    exact ⟨this, by omega⟩

theorem narrow_checksum_is_never_the_error_value_witness :
    ∃ crc, EDC_CalculateCrc 1 (EDC_GenerateCrcLut 1 (EdcState.init 1) dallasConfig).2 0
        (dallasConfig.poly % 256) (some checkString) 9 = some crc ∧
      crc < 2 ^ dallasConfig.polySize ∧ crc ≠ 0xFFFFFFFF :=
  narrow_checksum_is_never_the_error_value 1 _ dallasConfig 0 checkString 9
    ⟨[], [], by decide, rfl⟩ (Or.inl rfl) (by decide) (by decide)

/-- With the shifts of the width-32 table generation read as the PIC32 executes
them (`shl32`; they are undefined in C), the configuration {polynomial 1, width
32, no reflection} registers successfully and `EDC_CalculateCrc` over the four
bytes FF FF FF FF returns 0xFFFFFFFF as the computed checksum, the same value
it returns on error. -/
theorem wide_checksum_can_equal_the_error_value :
    Registered 1 (EDC_GenerateCrcLut 1 (EdcState.init 1) wideConfig).2 wideConfig ∧
      EDC_CalculateCrc 1 (EDC_GenerateCrcLut 1 (EdcState.init 1) wideConfig).2 0 wideConfig.poly
        (some [0xFF, 0xFF, 0xFF, 0xFF]) 4 = some 0xFFFFFFFF :=
  ⟨⟨[], [], by decide, rfl⟩, by decide⟩

/-- C8 (the code departs from the claim): the configuration of width 16 with the
polynomial 0x1021 is registered successfully in a registry of two rows, the
registry keeping the polynomial as the byte 0x21.  For the non-null nine-byte
data "123456789" `EDC_CalculateCrc(0x1021, data, 9)` finds no row and reads
`lutIdx` unassigned; when the indeterminate value is 1, the unused row, whose
width is 0, the call leaves through its last `else` and returns 0xFFFFFFFF, the
value it returns on error. -/
theorem registered_wide_polynomial_yields_the_error_value :
    Registered 2 (EDC_GenerateCrcLut 2 (EdcState.init 2) xmodemConfig).2 xmodemConfig ∧
      (EDC_GenerateCrcLut 2 (EdcState.init 2) xmodemConfig).2.crcLutId =
        [[0x21, 16, 0, 0], [0, 0, 0, 0]] ∧
      findLutIdx 2 (EDC_GenerateCrcLut 2 (EdcState.init 2) xmodemConfig).2 1 0x1021 = 1 ∧
      EDC_CalculateCrc 2 (EDC_GenerateCrcLut 2 (EdcState.init 2) xmodemConfig).2 1 0x1021
        (some checkString) 9 = some 0xFFFFFFFF :=
  ⟨⟨[], [], by decide!, rfl⟩, by decide!, by decide!, by decide!⟩

/-! ### Claims about the search loop (continued) -/

/-- C13 (the code departs from the claim): on a bus where the reset finds a
presence pulse but no device answers the search, every pass stops at the first
bit with `romData = 0`; the family code does not match, so the pass neither
restarts the search nor uses up a unit of `DS_SEARCH_DEVICE_REPEAT_COUNT`.  With
a core timer that stands still `SearchDevice` does not return after any number
of passes, and with a timer that advances by one tick per read it has not
returned after 1000 passes: only the timeout bounds the number of passes. -/
theorem search_passes_not_bounded_by_repeat_count :
    (∀ (fuel : Nat) (romIdBuff : Nat → Nat) (searchMode : SearchMode_t),
        SearchDevice (quietEnv 0) fuel quietStart 1 romIdBuff searchMode = none) ∧
      SearchDevice (quietEnv 1) 1000 quietStart 1 (fun _ => 0)
        SearchMode_t.SEARCH_DEVICE_ID = none ∧
      (∀ (v : SearchVars) (c : Nat), ∃ v1,
        searchPass (quietEnv 1) 1 SEARCH_ROM_CMD quietStart v c =
          PassOutcome.atCondition v1 c ∧ v1.repeatSearchCount = v.repeatSearchCount) :=
  ⟨fun fuel romIdBuff searchMode => searchDevice_quiet 0 fuel romIdBuff searchMode (by simp),
    searchDevice_quiet 1 1000 _ _ (by norm_num),
    fun v c => ⟨_, searchPass_quiet 1 1 SEARCH_ROM_CMD quietStart v c, rfl⟩⟩

/-- C14 (the code departs from the claim): the three devices of `threeDevices`
on the simulated bus, only the device with serial number 0x002 with its alarm
flag set.  `DS18B20_SearchAlarm` returns the one identifier 0x002;
`DS18B20_SearchDeviceId` returns two identifiers, 0x100 and 0x001, and 0x002 is
not among them. -/
theorem alarm_result_not_within_full_result :
    (DS18B20_SearchAlarm alarmEnv 8 (alarmStart threeDevicesOneAlarm) 1 (fun _ => 0)).map
        (fun res => (res.count, res.romIdBuff 0)) = some (1, 0x002) ∧
      (DS18B20_SearchDeviceId alarmEnv 8 (alarmStart threeDevicesOneAlarm) 1 (fun _ => 0)).map
        (fun res => (res.count, res.romIdBuff 0, res.romIdBuff 1)) = some (2, 0x100, 0x001) := by
  refine ⟨by decide!, by decide!⟩

/-! ### Claims about the scratch-pad reads and the configuration -/

/-- C16 (the code departs from the claim): two devices with the identifiers 7
and 9; the first scratch-pad read of the first pass fails its CRC, every later
read is valid.  In the retry pass `DS18B20_ReadTemp` and `DS18B20_ReadRam`
address position 0 with the frame of `romId[1] = 9` and position 1 with the
frame of the word 11 behind the caller's array: the pointer `romId` is not set
back between the passes.  Both calls succeed. -/
theorem retry_pass_addresses_shifted_identifiers :
    (romFrame (recordEnv 1 0) (recordState 1 5 [] true 0).edc 7).map (fun f => bytesLE f 8) =
        some frame7 ∧
      (romFrame (recordEnv 1 0) (recordState 1 5 [] true 0).edc 9).map (fun f => bytesLE f 8) =
        some frame9 ∧
      (romFrame (recordEnv 1 0) (recordState 1 5 [] true 0).edc 11).map (fun f => bytesLE f 8) =
        some frame11 ∧
      (DS18B20_ReadTemp (recordEnv 1 0)
          (recordState 1 5
            (true :: bytesLevels (scratchPadHigh ++ scratchPad85 ++ scratchPad85)) true 0)
          (some twoIdsThenMemory) false 2 (fun _ => [])).map
        (fun r => (r.1, writtenBits r.2.2.hw.log)) =
        some (true, bytesLevels
          ([MATCH_ROM_CMD] ++ frame7 ++ [READ_MEM_CMD] ++
            [MATCH_ROM_CMD] ++ frame9 ++ [READ_MEM_CMD] ++
            [MATCH_ROM_CMD] ++ frame11 ++ [READ_MEM_CMD])) ∧
      (DS18B20_ReadRam (recordEnv 1 0)
          (recordState 1 5
            (true :: bytesLevels (scratchPadHigh ++ scratchPad85 ++ scratchPad85)) true 0)
          (some twoIdsThenMemory) (some (fun _ => 0)) 2 (fun _ => [])).map
        (fun r => (r.1, writtenBits r.2.2.hw.log)) =
        some (true, bytesLevels
          ([MATCH_ROM_CMD] ++ frame7 ++ [READ_MEM_CMD] ++
            [MATCH_ROM_CMD] ++ frame9 ++ [READ_MEM_CMD] ++
            [MATCH_ROM_CMD] ++ frame11 ++ [READ_MEM_CMD])) := by
  refine ⟨by decide, by decide, by decide, by decide!, by decide!⟩

/-- C17 (the code departs from the claim): a device whose conversion takes
375000 ticks (93.75 ms at 8 MHz), within the window of 95 ms = 380000 ticks.
When the core timer stands at 0 at the start of the wait, `DS18B20_IsDeviceFake`
returns false.  When it stands at 4294867296, 100000 ticks before it wraps, the
deadline `count + delay` wraps to 280000, the wait ends at its first test, the
line is read while the device still converts, and the call returns true. -/
theorem fake_probe_misjudges_device_near_counter_wrap :
    (DS18B20_IsDeviceFake probeEnv 100 (probeState 0 (some 375000) 10000)
        (some (fun _ => 7))).map (fun r => r.1) = some false ∧
      (DS18B20_IsDeviceFake probeEnv 100 (probeState 4294867296 (some 375000) 10000)
        (some (fun _ => 7))).map (fun r => r.1) = some true := by
  refine ⟨by decide!, by decide!⟩

/-- C18 (the code departs from the claim): in multi-device mode the bytes
`ConfigDevice` writes after the reset are 0xCC, 0x4E and the three
configuration bytes.  In single-device mode, with the identifier 7, they are
0x4E and the three configuration bytes only: neither the match-ROM command
0x55 nor the ROM frame is written. -/
theorem single_device_config_writes_no_match_rom :
    (ConfigDevice (recordEnv 1 0) (recordState 1 5 [] true 0) sampleConfig true 0 1).map
        (fun r => (r.1, r.2.hw.log.head?, writtenBits r.2.hw.log)) =
        some (true, some BusEvent.reset,
          bytesLevels [SKIP_ROM_CMD, WRITE_MEM_CMD, 40, 24, 0x60]) ∧
      (ConfigDevice (recordEnv 1 0) (recordState 1 5 [] true 0) sampleConfig false 0 1).map
        (fun r => (r.1, r.2.hw.log.head?, writtenBits r.2.hw.log)) =
        some (true, some BusEvent.reset, bytesLevels [WRITE_MEM_CMD, 40, 24, 0x60]) := by
  refine ⟨by decide!, by decide!⟩

/-- C19 (the code departs from the claim): with correction offset 0 and the
thresholds highAlarm = -100, lowAlarm = 200, `ConfigDevice` takes the branch
that encodes the caller's thresholds and writes the alarm bytes 0xE4 and 0xC8.
The sign-magnitude encodings of the thresholds clamped into [-55, 127] are 0xB7
(for -55) and 0x7F (for 127): the high alarm is clamped only from above, the
low alarm only from below. -/
theorem alarm_bytes_not_clamped_on_both_sides :
    (ConfigDevice (recordEnv 1 0) (recordState 1 5 [] true 0)
        { sampleConfig with highAlarm := -100, lowAlarm := 200 } true 0 1).map
        (fun r => (r.1, writtenBits r.2.hw.log)) =
        some (true, bytesLevels [SKIP_ROM_CMD, WRITE_MEM_CMD, 0xE4, 0xC8, 0x60]) ∧
      signMagnitudeByte (clampAlarm (-100)) = 0xB7 ∧
      signMagnitudeByte (clampAlarm 200) = 0x7F := by
  refine ⟨by decide!, by decide, by decide⟩

/-- C20 (the code departs from the claim): for the CRC-valid scratch-pad
`50 05 4B 46 7F FF 0C 10 1C` `DS18B20_ReadRam` reports the high alarm 74, the low
alarm 70 and the resolution 3.  Byte 2 is 0x4B, the byte `ConfigDevice` writes
for the threshold 75, and its sign-magnitude value is 75: the decoding keeps
bits 1..6 only (mask 0x7E) and loses bit 0. -/
theorem readRam_drops_low_bit_of_alarm :
    (DS18B20_ReadRam (replayEnv 1 0) (replayState 1 5 (true :: bytesLevels scratchPad85) 0)
        (some (fun _ => 7)) (some (fun _ => 0)) 1 (fun _ => [])).map
        (fun r => (r.1, r.2.1 0, r.2.1 1, r.2.1 2)) = some (true, 74, 70, 3) ∧
      scratchPad85.getD 2 0 = 0x4B ∧ rawAlarm 75 = 0x4B ∧ signMagnitudeValue 0x4B = 75 ∧
      scratchPad85.getD 3 0 = 0x46 ∧ signMagnitudeValue 0x46 = 70 ∧
      scratchPad85.getD 4 0 >>> 5 = 3 := by
  refine ⟨by decide!, by decide, by decide, by decide, by decide, by decide, by decide⟩

/-! ### Claims about the search on the simulated bus -/

/-- C11: on the noise-free simulated wired-AND bus, with any list of devices on
it and in any state of the bus before the call, whenever `SearchDevice` returns
a count the buffer entries below that count are pairwise distinct.  The CRC
module is in a state reached by generator calls, and the flag of the driver is
set only if its table is registered. -/
theorem search_returns_no_duplicate (crcMax lutIdxInit fuel : Nat) (st : DsState SimBus)
    (pinCode : Nat) (romIdBuff : Nat → Nat) (searchMode : SearchMode_t)
    (res : SearchResult SimBus)
    (hedc : ∃ calls, st.edc = runGenerate crcMax (EdcState.init crcMax) calls)
    (hflag : st.isCrcLutGenerated = true → Registered crcMax st.edc dallasConfig)
    (h : SearchDevice (simEnv crcMax lutIdxInit) fuel st pinCode romIdBuff searchMode = some res)
    (i j : Nat) (hij : i < j) (hj : j < res.count) :
    res.romIdBuff i ≠ res.romIdBuff j := by
  have hcount : 0 < res.count := by omega
  unfold SearchDevice at h
  simp only at h
  by_cases hpin : pinCode = 0
  · rw [if_pos hpin] at h
    simp only [Option.some.injEq] at h
    subst h
    simp at hcount
  · rw [if_neg hpin] at h
    by_cases hg : (GenerateCrcLut (simEnv crcMax lutIdxInit) st).1 = true
    · have hreg := generateCrcLut_registered (simEnv crcMax lutIdxInit) st hedc hflag hg
      simp only [hg, Bool.not_true, Bool.false_eq_true, if_false] at h
      have hops : (simEnv crcMax lutIdxInit).ops = simHw := rfl
      have hcb : ∀ b : SimBus, OW_ConfigBus simHw pinCode b = b := fun _ => rfl
      have hcc : ∀ b : SimBus, simHw.coreCount b = (0, b) := fun _ => rfl
      rw [hops] at h
      simp only [hcb, sim_reset, hcc] at h
      split_ifs at h with hemp
      · simp only [Option.some.injEq] at h
        subst h
        simp at hcount
      all_goals
        obtain ⟨m, _, hcnt, _, hent, hmid, hlast⟩ :=
          searchLoop_sim crcMax lutIdxInit pinCode _ _ _ _ fuel _ res rfl rfl h hcount
        simp only [Nat.zero_add] at hcnt hent
        exact sim_run_distinct crcMax lutIdxInit pinCode _ _ _ m res.romIdBuff hreg hent hmid
          hlast i j hij (by omega)
    · have hg2 : (GenerateCrcLut (simEnv crcMax lutIdxInit) st).1 = false := by simpa using hg
      simp only [hg2, Bool.not_false, if_true, Option.some.injEq] at h
      subst h
      simp at hcount

theorem search_returns_no_duplicate_witness :
    ∃ res, SearchDevice (simEnv 1 0) 4 (simStart 1 twoDevices) 1 (fun _ => 0)
        SearchMode_t.SEARCH_DEVICE_ID = some res ∧ res.count = 2 ∧
      res.romIdBuff 0 ≠ res.romIdBuff 1 := by
  have hc : (SearchDevice (simEnv 1 0) 4 (simStart 1 twoDevices) 1 (fun _ => 0)
      SearchMode_t.SEARCH_DEVICE_ID).map (fun r => r.count) = some 2 := by decide!
  generalize hs : SearchDevice (simEnv 1 0) 4 (simStart 1 twoDevices) 1 (fun _ => 0)
      SearchMode_t.SEARCH_DEVICE_ID = o at hc
  cases o with
  | none => simp at hc
  | some res =>
    simp only [Option.map_some', Option.some.injEq] at hc
    exact ⟨res, rfl, hc,
      search_returns_no_duplicate 1 0 4 (simStart 1 twoDevices) 1 (fun _ => 0)
        SearchMode_t.SEARCH_DEVICE_ID res ⟨[], rfl⟩ (fun hf => by cases hf) hs 0 1 (by decide)
        (by omega)⟩

/-- C12: `SearchDevice` returns the count 0 when the pin code is 0; when the
first reset finds no presence pulse; when, after `k` passes, a pass is accepted
with `lastZero ≠ -1` and the reset that follows it finds no presence pulse; and
when, after `k` passes, a pass that was not accepted with `lastZero = -1` is
followed by a false loop condition (the repeat count or the timeout is used
up).  In the last two cases any bound `fuel > k` on the number of passes gives
the result. -/
theorem search_returns_zero {σ : Type} (env : Env σ) (st : DsState σ) (pinCode : Nat)
    (romIdBuff : Nat → Nat) (searchMode : SearchMode_t) (k fuel : Nat) (hk : k < fuel)
    (hcause :
      pinCode = 0 ∨
      (OW_Reset env.ops pinCode
        (OW_ConfigBus env.ops pinCode (GenerateCrcLut env st).2.hw)).1 = false ∨
      (pinCode ≠ 0 ∧ (GenerateCrcLut env st).1 = true ∧
        (OW_Reset env.ops pinCode
          (OW_ConfigBus env.ops pinCode (GenerateCrcLut env st).2.hw)).1 = true ∧
        ∃ (v : SearchVars) (s : σ) (p : PassResult σ),
          loopAfter env pinCode (searchCmdOf searchMode) (searchInit env st pinCode romIdBuff).1
            (searchInit env st pinCode romIdBuff).2.1 k
            (searchInit env st pinCode romIdBuff).2.2.1
            (searchInit env st pinCode romIdBuff).2.2.2 = some (v, s) ∧
          p = searchBits env.ops pinCode v.lastDiscrepancy (v.romIdBuff (v.deviceCount - 1))
            64 0 0 (-1) v.isResetSearch (OW_WriteByte env.ops pinCode (searchCmdOf searchMode) s) ∧
          ((PassAccepted env (searchInit env st pinCode romIdBuff).2.1 p ∧ p.lastZero ≠ -1 ∧
              (OW_Reset env.ops pinCode p.hw).1 = false) ∨
            (¬ (PassAccepted env (searchInit env st pinCode romIdBuff).2.1 p ∧ p.lastZero = -1) ∧
              ∃ (v1 : SearchVars) (s1 : σ),
                searchPass env pinCode (searchCmdOf searchMode)
                  (searchInit env st pinCode romIdBuff).2.1 v s =
                  PassOutcome.atCondition v1 s1 ∧
                (searchCond env (searchInit env st pinCode romIdBuff).1 v1 s1).1 = false)))) :
    ∃ res, SearchDevice env fuel st pinCode romIdBuff searchMode = some res ∧ res.count = 0 := by
  by_cases hpin : pinCode = 0
  · exact ⟨_, by unfold SearchDevice; rw [if_pos hpin], rfl⟩
  by_cases hg : (GenerateCrcLut env st).1 = true
  swap
  · have hg2 : (GenerateCrcLut env st).1 = false := by simpa using hg
    exact ⟨_, by unfold SearchDevice; simp only [hpin, if_false, hg2, Bool.not_false, if_true]; rfl,
      rfl⟩
  by_cases hr : (OW_Reset env.ops pinCode
      (OW_ConfigBus env.ops pinCode (GenerateCrcLut env st).2.hw)).1 = true
  swap
  · have hr2 : (OW_Reset env.ops pinCode
        (OW_ConfigBus env.ops pinCode (GenerateCrcLut env st).2.hw)).1 = false := by
      simpa using hr
    exact ⟨_, by unfold SearchDevice; simp only [hpin, if_false, hg, hr2, Bool.not_true,
      Bool.not_false, Bool.false_eq_true, if_true]; rfl, rfl⟩
  rcases hcause with h | h | ⟨_, _, _, v, s, p, hafter, hp, hend⟩
  · exact absurd h hpin
  · rw [hr] at h; cases h
  rw [searchDevice_enters env fuel st pinCode romIdBuff searchMode hpin hg hr]
  obtain ⟨f, hf⟩ : ∃ f, fuel = k + (f + 1) := ⟨fuel - k - 1, by omega⟩
  rw [hf, searchLoop_after env pinCode _ _ _ k _ _ v s (f + 1) hafter, searchLoop_succ]
  rcases hend with ⟨hacc, hlz, hreset⟩ | ⟨hnot, v1, s1, hpass, hcond⟩
  · subst hp
    obtain ⟨r, hr1, hr2⟩ := searchPass_lost env pinCode _ _ v s hacc hlz hreset
    rw [hr1]
    exact ⟨r, rfl, hr2⟩
  · have hv : v.isLastDevice = false :=
      loopAfter_notLast env pinCode _ _ _ k _ _ v s rfl hafter
    have hv1 : v1.isLastDevice = false := by
      by_cases hv1 : v1.isLastDevice = true
      · have := searchPass_lastDevice env pinCode _ _ v s v1 s1 hv hpass hv1
        rw [← hp] at this
        exact absurd this hnot
      · simpa using hv1
    rw [hpass]
    simp only [hcond, Bool.false_eq_true, if_false]
    exact ⟨_, rfl, by simp [searchExit, hv1]⟩

theorem search_returns_zero_witness :
    (∃ res, SearchDevice (simEnv 1 0) 1 (simStart 1 twoDevices) 0 (fun _ => 0)
        SearchMode_t.SEARCH_DEVICE_ID = some res ∧ res.count = 0) ∧
      (∃ res, SearchDevice (simEnv 1 0) 1 (simStart 1 []) 1 (fun _ => 0)
        SearchMode_t.SEARCH_DEVICE_ID = some res ∧ res.count = 0) ∧
      (∃ res, SearchDevice fadingEnv 1 (fadingStart 1 twoDevices) 1 (fun _ => 0)
        SearchMode_t.SEARCH_DEVICE_ID = some res ∧ res.count = 0) ∧
      (∃ res, SearchDevice (quietEnv 4000000) 1 quietStart 1 (fun _ => 0)
        SearchMode_t.SEARCH_DEVICE_ID = some res ∧ res.count = 0) :=
  ⟨search_returns_zero (simEnv 1 0) (simStart 1 twoDevices) 0 (fun _ => 0)
      SearchMode_t.SEARCH_DEVICE_ID 0 1 (by decide) (Or.inl rfl),
    search_returns_zero (simEnv 1 0) (simStart 1 []) 1 (fun _ => 0)
      SearchMode_t.SEARCH_DEVICE_ID 0 1 (by decide) (Or.inr (Or.inl (by decide!))),
    search_returns_zero fadingEnv (fadingStart 1 twoDevices) 1 (fun _ => 0)
      SearchMode_t.SEARCH_DEVICE_ID 0 1 (by decide)
      (Or.inr (Or.inr ⟨by decide, by decide!, by decide!, _, _, _, rfl, rfl,
        Or.inl ⟨⟨by decide!, by decide!, by decide!⟩, by decide!, by decide!⟩⟩)),
    search_returns_zero (quietEnv 4000000) quietStart 1 (fun _ => 0)
      SearchMode_t.SEARCH_DEVICE_ID 0 1 (by decide)
      (Or.inr (Or.inr ⟨by decide, by decide!, by decide!, _, _, _, rfl, rfl,
        Or.inr ⟨fun h => absurd h.1.1 (by decide!), _, _,
          searchPass_quiet 4000000 1 _ _ _ _, by decide!⟩⟩))⟩

/-! ### Claims about the retry loops -/

/-- The retry loops of `DS18B20_ReadTemp` and `DS18B20_ReadRam`.  Three passes are
all the loops ever make: allowing more changes no result.  A pass that is left
by its loop condition ends the loop, so a new pass starts only after a pass
that was left by its `break`, at a row whose 9-byte CRC is not zero.  A call
that has passed its input checks and found the line high returns `false` only
after a reset without presence pulse, or after the third pass when that pass
was left at row 0 with a non-zero CRC.  (For `deviceCount ≤ 255` row 0 is the
first row of the pass.) -/
theorem read_retries_at_most_three_passes {σ : Type} (env : Env σ) (st : DsState σ)
    (rom : Nat → Nat) (deviceCount : Nat) (hdc : 0 < deviceCount) :
    (∀ (m : Nat) (rx : Nat → List Nat) (s : σ),
        readPasses env st rom deviceCount (DS_READ_RAM_REPEAT_COUNT + m) 0 0 rx s =
          readPasses env st rom deviceCount DS_READ_RAM_REPEAT_COUNT 0 0 rx s) ∧
      (∀ (m : Nat) (rx : Nat → List Nat) (buff : Nat → Int) (s : σ),
        ramPasses env st rom deviceCount (DS_READ_RAM_REPEAT_COUNT + m) 0 0 rx buff s =
          ramPasses env st rom deviceCount DS_READ_RAM_REPEAT_COUNT 0 0 rx buff s) ∧
      (∀ (left idxa romOff : Nat) (rx : Nat → List Nat) (s : σ) (idxb romOff1 : Nat)
          (rx1 : Nat → List Nat) (s1 : σ),
        readDevices env st rom deviceCount deviceCount 0 romOff rx s =
          ReadOutcome.left idxb romOff1 rx1 s1 →
        (idxb = deviceCount ∧
          readPasses env st rom deviceCount (left + 1) idxa romOff rx s =
            some (some (idxa, idxb, rx1), s1)) ∨
        (idxb < deviceCount ∧ ∃ c, c ≠ 0 ∧
          EDC_CalculateCrc env.crcMax st.edc env.lutIdxInit CRC_POLY_CODE
            (some (rx1 idxb)) 9 = some c)) ∧
      (∀ (left idxa romOff : Nat) (rx : Nat → List Nat) (buff : Nat → Int) (s : σ)
          (idxb romOff1 : Nat) (rx1 : Nat → List Nat) (buff1 : Nat → Int) (s1 : σ),
        ramDevices env st rom deviceCount deviceCount 0 romOff rx buff s =
          RamOutcome.left idxb romOff1 rx1 buff1 s1 →
        (idxb = deviceCount ∧
          ramPasses env st rom deviceCount (left + 1) idxa romOff rx buff s =
            some { vars := some (idxa, idxb, rx1), dataBuff := buff1, hw := s1 }) ∨
        (idxb < deviceCount ∧ ∃ c, c ≠ 0 ∧
          EDC_CalculateCrc env.crcMax st.edc env.lutIdxInit CRC_POLY_CODE
            (some (rx1 idxb)) 9 = some c)) ∧
      (∀ (rxInit : Nat → List Nat) (out : List ℚ) (st1 : DsState σ),
        ¬ (rom 0 = 0 ∧ deviceCount = 1) →
        (OW_ReadBit env.ops st.owPinCode st.hw).1 ≠ 0 →
        DS18B20_ReadTemp env st (some rom) false deviceCount rxInit = some (false, out, st1) →
        (∃ s1, readPasses env st rom deviceCount DS_READ_RAM_REPEAT_COUNT 0 0 rxInit
            (OW_ReadBit env.ops st.owPinCode st.hw).2 = some (none, s1)) ∨
        (∃ rx s1 c, readPasses env st rom deviceCount DS_READ_RAM_REPEAT_COUNT 0 0 rxInit
            (OW_ReadBit env.ops st.owPinCode st.hw).2 =
              some (some (DS_READ_RAM_REPEAT_COUNT, 0, rx), s1) ∧ c ≠ 0 ∧
          EDC_CalculateCrc env.crcMax st.edc env.lutIdxInit CRC_POLY_CODE
            (some (rx 0)) 9 = some c)) ∧
      (∀ (rxInit : Nat → List Nat) (buff out : Nat → Int) (st1 : DsState σ),
        ¬ (rom 0 = 0 ∧ deviceCount = 1) →
        (OW_ReadBit env.ops st.owPinCode st.hw).1 ≠ 0 →
        DS18B20_ReadRam env st (some rom) (some buff) deviceCount rxInit =
          some (false, out, st1) →
        (∃ e, ramPasses env st rom deviceCount DS_READ_RAM_REPEAT_COUNT 0 0 rxInit buff
            (OW_ReadBit env.ops st.owPinCode st.hw).2 = some e ∧ e.vars = none) ∨
        (∃ e rx c, ramPasses env st rom deviceCount DS_READ_RAM_REPEAT_COUNT 0 0 rxInit buff
            (OW_ReadBit env.ops st.owPinCode st.hw).2 = some e ∧
          e.vars = some (DS_READ_RAM_REPEAT_COUNT, 0, rx) ∧ c ≠ 0 ∧
          EDC_CalculateCrc env.crcMax st.edc env.lutIdxInit CRC_POLY_CODE
            (some (rx 0)) 9 = some c)) := by
  have hdc0 : deviceCount ≠ 0 := by omega
  refine ⟨fun m rx s => readPasses_enough env st rom deviceCount rx s m,
    fun m rx buff s => ramPasses_enough env st rom deviceCount rx buff s m, ?_, ?_, ?_, ?_⟩
  · intro left idxa romOff rx s idxb romOff1 rx1 s1 hd
    rcases readDevices_early env st rom deviceCount deviceCount 0 romOff rx s idxb romOff1 rx1 s1
      (Nat.zero_le _) hd with e | ⟨e, hx⟩
    · refine Or.inl ⟨e, ?_⟩
      rw [readPasses_succ, hd]
      simp only [e, if_true]
    · exact Or.inr ⟨e, hx⟩
  · intro left idxa romOff rx buff s idxb romOff1 rx1 buff1 s1 hd
    rcases ramDevices_early env st rom deviceCount deviceCount 0 romOff rx buff s idxb romOff1
      rx1 buff1 s1 (Nat.zero_le _) hd with e | ⟨e, hx⟩
    · refine Or.inl ⟨e, ?_⟩
      rw [ramPasses_succ, hd]
      simp only [e, if_true]
    · exact Or.inr ⟨e, hx⟩
  · intro rxInit out st1 hrom hbit h
    unfold DS18B20_ReadTemp at h
    simp only [Bool.false_eq_true, hdc0, or_self, if_false, hrom, hbit] at h
    cases hp : readPasses env st rom deviceCount DS_READ_RAM_REPEAT_COUNT 0 0 rxInit
        (OW_ReadBit env.ops st.owPinCode st.hw).2 with
    | none => rw [hp] at h; simp at h
    | some r =>
      obtain ⟨o, s1⟩ := r
      cases o with
      | none => exact Or.inl ⟨s1, rfl⟩
      | some t =>
        obtain ⟨a, b, rx⟩ := t
        rw [hp] at h
        simp only at h
        split_ifs at h with hf
        · obtain ⟨hf1, hf2⟩ := hf
          subst hf2
          rcases readPasses_end env st rom deviceCount _ 0 0 rxInit _ a 0 rx s1 (by omega) hp with
            ⟨e, _⟩ | ⟨_, e, hx⟩
          · omega
          · subst e
            obtain ⟨c, hc, hcrc⟩ := hx
            exact Or.inr ⟨rx, s1, c, rfl, hc, hcrc⟩
        · simp at h
  · intro rxInit buff out st1 hrom hbit h
    unfold DS18B20_ReadRam at h
    simp only [hdc0, if_false, hrom, hbit] at h
    cases hp : ramPasses env st rom deviceCount DS_READ_RAM_REPEAT_COUNT 0 0 rxInit buff
        (OW_ReadBit env.ops st.owPinCode st.hw).2 with
    | none => rw [hp] at h; simp at h
    | some e =>
      rw [hp] at h
      simp only at h
      cases hv : e.vars with
      | none => exact Or.inl ⟨e, rfl, hv⟩
      | some t =>
        obtain ⟨a, b, rx⟩ := t
        rw [hv] at h
        simp only at h
        split_ifs at h with hf
        · obtain ⟨hf1, hf2⟩ := hf
          subst hf2
          rcases ramPasses_end env st rom deviceCount _ 0 0 rxInit buff _ e a 0 rx (by omega) hp
            hv with ⟨e1, _⟩ | ⟨_, e1, hx⟩
          · omega
          · subst e1
            obtain ⟨c, hc, hcrc⟩ := hx
            exact Or.inr ⟨e, rx, c, rfl, hv, hc, hcrc⟩
        · simp at h

theorem read_retries_at_most_three_passes_witness :
    0 < 1 ∧
      ((∃ s1, readPasses (replayEnv 1 0) (replayState 1 5 [] 0) (fun _ => 7) 1
          DS_READ_RAM_REPEAT_COUNT 0 0 (fun _ => [])
          (OW_ReadBit (replayEnv 1 0).ops (replayState 1 5 [] 0).owPinCode
            (replayState 1 5 [] 0).hw).2 = some (none, s1)) ∨
        (∃ rx s1 c, readPasses (replayEnv 1 0) (replayState 1 5 [] 0) (fun _ => 7) 1
          DS_READ_RAM_REPEAT_COUNT 0 0 (fun _ => [])
          (OW_ReadBit (replayEnv 1 0).ops (replayState 1 5 [] 0).owPinCode
            (replayState 1 5 [] 0).hw).2 =
            some (some (DS_READ_RAM_REPEAT_COUNT, 0, rx), s1) ∧ c ≠ 0 ∧
          EDC_CalculateCrc (replayEnv 1 0).crcMax (replayState 1 5 [] 0).edc
            (replayEnv 1 0).lutIdxInit CRC_POLY_CODE (some (rx 0)) 9 = some c)) := by
  have hc : (DS18B20_ReadTemp (replayEnv 1 0) (replayState 1 5 [] 0) (some (fun _ => 7)) false 1
      (fun _ => [])).map (fun r => r.1) = some false := by decide!
  generalize hs : DS18B20_ReadTemp (replayEnv 1 0) (replayState 1 5 [] 0) (some (fun _ => 7))
      false 1 (fun _ => []) = o at hc
  cases o with
  | none => simp at hc
  | some r =>
    obtain ⟨f, out, st1⟩ := r
    simp only [Option.map_some', Option.some.injEq] at hc
    subst hc
    exact ⟨by decide,
      (read_retries_at_most_three_passes (replayEnv 1 0) (replayState 1 5 [] 0) (fun _ => 7) 1
        (by decide)).2.2.2.2.1 (fun _ => []) out st1 (by decide) (by decide) hs⟩

theorem wrap_readTemp_300 :
    (DS18B20_ReadTemp (replayEnv 1 0) (replayState 1 5 wrapLevels 0) (some (fun i => i + 1))
      false 300 (fun _ => [])).map (fun r => (r.1, r.2.1)) = some (false, []) := by
  decide!

theorem wrap_readRam_300 :
    (DS18B20_ReadRam (replayEnv 1 0) (replayState 1 5 wrapLevels 0) (some (fun i => i + 1))
      (some (fun _ => 0)) 300 (fun _ => [])).map (fun r => r.1) = some false := by
  decide!

theorem wrap_last_pass :
    (readPasses (replayEnv 1 0) (replayState 1 5 wrapLevels 0) (fun i => i + 1) 300 1 2 2
      (fun _ => []) (List.replicate (256 * 72) false)).map
        (fun r => (r.1.map (fun t => (t.1, t.2.1, t.2.2 0)), r.2)) =
      some (some (3, 0, List.replicate 9 0xFF), []) := by
  decide!

theorem wrap_last_pass_rows :
    (readPasses (replayEnv 1 0) (replayState 1 5 wrapLevels 0) (fun i => i + 1) 300 1 2 2
      (fun _ => []) (List.replicate (256 * 72) false)).map
        (fun r => r.1.map (fun t =>
          (List.range 255).all (fun i => t.2.2 (i + 1) == List.replicate 9 0))) =
      some (some true) := by
  decide!

theorem wrap_readTemp_255 :
    (DS18B20_ReadTemp (replayEnv 1 0) (replayState 1 5 wrapLevels 0) (some (fun i => i + 1))
      false 255 (fun _ => [])).map (fun r => r.1) = some true := by
  decide!

/-- C15 (the code departs from the claim): `idxb` is a `uint8_t` and
`deviceCount` a `uint32_t`.  With `deviceCount = 300`, on a bus whose first two
scratch-pads are nine bytes 0xFF (CRC 99), whose next 256 scratch-pads are nine
zero bytes (CRC 0) and which returns bytes 0xFF afterwards, the first two passes
end at their first row, and the third pass (entered with `idxa = 2` after two
identifiers) validates 256 rows, wraps `idxb` from 255 to 0 and ends at the next
scratch-pad with `idxb = 0`: rows 1 to 255 hold the zero scratch-pads, row 0
the bytes 0xFF read last.  `DS18B20_ReadTemp`
and `DS18B20_ReadRam` return false, although 256 devices were validated in the
final pass.  With `deviceCount = 255` on the same bus the third pass validates
255 rows and the call returns true. -/
theorem read_fails_after_256_validated_rows :
    EDC_CalculateCrc 1 (replayState 1 5 wrapLevels 0).edc 0 CRC_POLY_CODE
        (some (List.replicate 9 0xFF)) 9 = some 99 ∧
      EDC_CalculateCrc 1 (replayState 1 5 wrapLevels 0).edc 0 CRC_POLY_CODE
        (some (List.replicate 9 0)) 9 = some 0 ∧
      (DS18B20_ReadTemp (replayEnv 1 0) (replayState 1 5 wrapLevels 0) (some (fun i => i + 1))
        false 300 (fun _ => [])).map (fun r => (r.1, r.2.1)) = some (false, []) ∧
      (DS18B20_ReadRam (replayEnv 1 0) (replayState 1 5 wrapLevels 0) (some (fun i => i + 1))
        (some (fun _ => 0)) 300 (fun _ => [])).map (fun r => r.1) = some false ∧
      (readPasses (replayEnv 1 0) (replayState 1 5 wrapLevels 0) (fun i => i + 1) 300 1 2 2
        (fun _ => []) (List.replicate (256 * 72) false)).map
          (fun r => (r.1.map (fun t => (t.1, t.2.1, t.2.2 0)), r.2)) =
        some (some (3, 0, List.replicate 9 0xFF), []) ∧
      (readPasses (replayEnv 1 0) (replayState 1 5 wrapLevels 0) (fun i => i + 1) 300 1 2 2
        (fun _ => []) (List.replicate (256 * 72) false)).map
          (fun r => r.1.map (fun t =>
            (List.range 255).all (fun i => t.2.2 (i + 1) == List.replicate 9 0))) =
        some (some true) ∧
      (DS18B20_ReadTemp (replayEnv 1 0) (replayState 1 5 wrapLevels 0) (some (fun i => i + 1))
        false 255 (fun _ => [])).map (fun r => r.1) = some true := by
  exact ⟨by decide!, by decide!, wrap_readTemp_300, wrap_readRam_300, wrap_last_pass,
    wrap_last_pass_rows, wrap_readTemp_255⟩

/-! ### Claims about the EEPROM commands and the conversion timeout -/

/-- C21 (the code departs from the claim): on the logging bus, presence
reported.  With `isMultiMode` true and an identifier other than 0 behind
`romId`, `DS18B20_SaveToRom` writes CC 48 and `DS18B20_CopyFromRom` writes CC B8;
with `isMultiMode` false and the identifier 7 they write 55, the frame of 7, and
48 respectively B8.  With `isMultiMode` true and the identifier 0 behind `romId`
they write 55, the frame of the identifier 0, and 48 respectively B8: the first
check clears `isMultiMode` by the assignment `isMultiMode = false`. -/
theorem multi_mode_rom_command_addresses_identifier_zero :
    (DS18B20_SaveToRom (recordEnv 1 0) 5 (recordState 1 5 [] true 0) (some (fun _ => 7)) true).map
        (fun r => (r.1, writtenBits r.2.hw.log)) =
        some (true, bytesLevels [SKIP_ROM_CMD, COPY_MEM_CMD]) ∧
      (DS18B20_CopyFromRom (recordEnv 1 0) 5 (recordState 1 5 [] true 0) (some (fun _ => 7))
          true).map (fun r => (r.1, writtenBits r.2.hw.log)) =
        some (true, bytesLevels [SKIP_ROM_CMD, RECALL_EEPROM_CMD]) ∧
      (DS18B20_SaveToRom (recordEnv 1 0) 5 (recordState 1 5 [] true 0) (some (fun _ => 7))
          false).map (fun r => (r.1, writtenBits r.2.hw.log)) =
        some (true, bytesLevels ([MATCH_ROM_CMD] ++ frame7 ++ [COPY_MEM_CMD])) ∧
      (DS18B20_CopyFromRom (recordEnv 1 0) 5 (recordState 1 5 [] true 0) (some (fun _ => 7))
          false).map (fun r => (r.1, writtenBits r.2.hw.log)) =
        some (true, bytesLevels ([MATCH_ROM_CMD] ++ frame7 ++ [RECALL_EEPROM_CMD])) ∧
      (DS18B20_SaveToRom (recordEnv 1 0) 5 (recordState 1 5 [] true 0) (some (fun _ => 0)) true).map
        (fun r => (r.1, writtenBits r.2.hw.log)) =
        some (true, bytesLevels ([MATCH_ROM_CMD] ++ frame0 ++ [COPY_MEM_CMD])) ∧
      (DS18B20_CopyFromRom (recordEnv 1 0) 5 (recordState 1 5 [] true 0) (some (fun _ => 0))
          true).map (fun r => (r.1, writtenBits r.2.hw.log)) =
        some (true, bytesLevels ([MATCH_ROM_CMD] ++ frame0 ++ [RECALL_EEPROM_CMD])) := by
  refine ⟨by decide!, by decide!, by decide!, by decide!, by decide!, by decide!⟩

/-- C22 (the code departs from the claim): on the logging bus, presence
reported, `isMultiMode` false and the identifier 0 behind `romId`.
`DS18B20_SaveToRom` and `DS18B20_CopyFromRom` return true; the log of the bus
begins with a reset, and the bytes written are 55, the frame of the identifier
0, and 48 respectively B8.  The second operand of the check
`(*romId == 0) && (isMultiMode = false)` is an assignment, whose value is false. -/
theorem single_mode_rom_command_with_identifier_zero_runs :
    (DS18B20_SaveToRom (recordEnv 1 0) 5 (recordState 1 5 [] true 0) (some (fun _ => 0))
          false).map (fun r => (r.1, r.2.hw.log.head?, writtenBits r.2.hw.log)) =
        some (true, some BusEvent.reset,
          bytesLevels ([MATCH_ROM_CMD] ++ frame0 ++ [COPY_MEM_CMD])) ∧
      (DS18B20_CopyFromRom (recordEnv 1 0) 5 (recordState 1 5 [] true 0) (some (fun _ => 0))
          false).map (fun r => (r.1, r.2.hw.log.head?, writtenBits r.2.hw.log)) =
        some (true, some BusEvent.reset,
          bytesLevels ([MATCH_ROM_CMD] ++ frame0 ++ [RECALL_EEPROM_CMD])) := by
  refine ⟨by decide!, by decide!⟩

/-- C28 (the code departs from the claim): a device that signals completion
3000000 ticks (750 ms at 8 MHz) after the convert command, polled at steps of
10000 ticks, the budget being 1000 * (8000000 / 1000 / 2) = 4000000 ticks.  With
the counter at 0 when the convert command is sent, `DS18B20_ConvertReadTemp`
succeeds.  With the counter at 4294867296 the deadline `count + delay` wraps to
3900000; the polling loop ends after its first poll, 20000 ticks after the
deadline was computed, the test `timeout < _CP0_GET_COUNT()` holds, and the call
returns false 30000 ticks after polling began. -/
theorem convert_read_times_out_early_near_counter_wrap :
    (DS18B20_ConvertReadTemp probeEnv 1000 (probeState 0 (some 3000000) 10000)
        (some (fun _ => 7)) false 1 (fun _ => [])).map (fun r => (r.1, r.2.2.hw.count)) =
        some (true, 3010000) ∧
      (4294867296 + DS_CONV_TEMP_TIMEOUT_MS * (8000000 / 1000 / 2)) % 4294967296 = 3900000 ∧
      (DS18B20_ConvertTemp probeEnv (probeState 4294867296 (some 3000000) 10000)
        (some (fun _ => 7)) 1).bind
        (fun r => (convPoll probeEnv r.2 3900000 1000 (probeHw.coreCount r.2.hw).2).map
          (fun s3 => (r.1, s3.count, s3.sinceWrite,
            decide (3900000 < (probeHw.coreCount s3).1 % 4294967296)))) =
        some (true, 4294887296, 20000, true) ∧
      (DS18B20_ConvertReadTemp probeEnv 1000 (probeState 4294867296 (some 3000000) 10000)
        (some (fun _ => 7)) false 1 (fun _ => [])).map
        (fun r => (r.1, r.2.1, r.2.2.hw.count, r.2.2.hw.sinceWrite)) =
        some (false, [], 4294897296, 30000) := by
  refine ⟨by decide!, by decide, by decide!, by decide!⟩

/-! ### Claims about the CRC engine (continued) -/

/-- C24 (the code departs from the claim): the configuration of width 16 with
the polynomial 0x1021 is registered successfully, but `EDC_GenerateCrcLut` keeps
the polynomial in a `uint8_t`: the registry is left exactly as after registering
the polynomial 0x21.  `EDC_CalculateCrc(0x1021, "123456789", 9)` then finds no
row, and whatever the unassigned `lutIdx` holds its result is not the bit-serial
CRC-16 with generator x^16 + 0x1021, which is 0x31C3; with `lutIdx = 0` it is
0x54A2, the bit-serial CRC-16 with generator x^16 + 0x21. -/
theorem wide_polynomial_is_truncated_to_a_byte :
    (EDC_GenerateCrcLut 1 (EdcState.init 1) xmodemConfig).1 = true ∧
      (∀ (n : Nat) (st : EdcState),
        EDC_GenerateCrcLut n st xmodemConfig = EDC_GenerateCrcLut n st lowByteConfig) ∧
      crc16Serial 0x1021 checkString = 0x31C3 ∧
      (∀ u, EDC_CalculateCrc 1 (EDC_GenerateCrcLut 1 (EdcState.init 1) xmodemConfig).2 u 0x1021
        (some checkString) 9 ≠ some (crc16Serial 0x1021 checkString)) ∧
      EDC_CalculateCrc 1 (EDC_GenerateCrcLut 1 (EdcState.init 1) xmodemConfig).2 0 0x1021
        (some checkString) 9 = some 0x54A2 ∧
      crc16Serial 0x21 checkString = 0x54A2 := by
  refine ⟨by decide!, fun n st => rfl, by decide!, ?_, by decide!, by decide!⟩
  intro u
  have hf : findLutIdx 1 (EDC_GenerateCrcLut 1 (EdcState.init 1) xmodemConfig).2 u 0x1021 = u := by
    unfold findLutIdx
    have hs : scanFrom (fun idx =>
        (EDC_GenerateCrcLut 1 (EdcState.init 1) xmodemConfig).2.idAt idx 0 == 0x1021) 1 0 = none := by
      decide!
    rw [hs]
  cases u with
  | zero => decide!
  | succ u =>
    unfold EDC_CalculateCrc
    simp only [hf]
    simp

/-! ### Claims about rejected calls and the registry -/

theorem generateCrcLut_hw {σ : Type} (env : Env σ) (st : DsState σ) :
    (GenerateCrcLut env st).2.hw = st.hw := by
  unfold GenerateCrcLut
  simp only
  split_ifs <;> rfl

/-- C23: with the identifier 0 behind `romId` and `deviceCount = 1`,
`DS18B20_ConvertTemp`, `DS18B20_ReadTemp` and `DS18B20_ReadRam` return false and
leave the protocol state, the hardware state included, as it was: on any bus no
reset, read slot or write slot is issued.  `DS18B20_ConfigDevice` in
single-device mode with `deviceId = 0` returns false, and the hardware state it
leaves is the one after `OW_ConfigBus` has made the pin an input. -/
theorem zero_identifier_is_rejected_before_bus_traffic {σ : Type} (env : Env σ)
    (st : DsState σ) (rom : Nat → Nat) (dsConfig : DsConfig_t) (h0 : rom 0 = 0)
    (hd : dsConfig.deviceId = 0) :
    DS18B20_ConvertTemp env st (some rom) 1 = some (false, st) ∧
      (∀ (dataBuffNull : Bool) (rxInit : Nat → List Nat),
        DS18B20_ReadTemp env st (some rom) dataBuffNull 1 rxInit = some (false, [], st)) ∧
      (∀ (dataBuff : Option (Nat → Int)) (rxInit : Nat → List Nat),
        (DS18B20_ReadRam env st (some rom) dataBuff 1 rxInit).map (fun r => (r.1, r.2.2)) =
          some (false, st)) ∧
      (∀ (hiInit loInit : Int), ∃ st1,
        DS18B20_ConfigDevice env st dsConfig false hiInit loInit = some (false, st1) ∧
          st1.hw = env.ops.configPin dsConfig.owConfig.pinCode st.hw) := by
  refine ⟨?_, ?_, ?_, ?_⟩
  · simp [DS18B20_ConvertTemp, h0]
  · intro dataBuffNull rxInit
    cases dataBuffNull <;> simp [DS18B20_ReadTemp, h0]
  · intro dataBuff rxInit
    cases dataBuff <;> simp [DS18B20_ReadRam, h0]
  · intro hiInit loInit
    unfold DS18B20_ConfigDevice
    simp only
    by_cases hg : (GenerateCrcLut env
        { st with hw := OW_ConfigBus env.ops dsConfig.owConfig.pinCode st.hw }).1 = true
    · simp only [hg, Bool.not_true, Bool.false_eq_true, if_false]
      unfold ConfigDevice
      simp only [hd, Nat.zero_mod, and_self, if_true]
      exact ⟨_, rfl, by simp only; rw [generateCrcLut_hw]; rfl⟩
    · have hg2 : (GenerateCrcLut env
          { st with hw := OW_ConfigBus env.ops dsConfig.owConfig.pinCode st.hw }).1 = false := by
        simpa using hg
      simp only [hg2, Bool.not_false, if_true]
      exact ⟨_, rfl, by rw [generateCrcLut_hw]; rfl⟩

theorem zero_identifier_is_rejected_before_bus_traffic_witness :
    DS18B20_ConvertTemp (recordEnv 1 0) (recordState 1 5 [] true 0) (some (fun _ => 0)) 1 =
        some (false, recordState 1 5 [] true 0) ∧
      (∀ (dataBuffNull : Bool) (rxInit : Nat → List Nat),
        DS18B20_ReadTemp (recordEnv 1 0) (recordState 1 5 [] true 0) (some (fun _ => 0))
          dataBuffNull 1 rxInit = some (false, [], recordState 1 5 [] true 0)) ∧
      (∀ (dataBuff : Option (Nat → Int)) (rxInit : Nat → List Nat),
        (DS18B20_ReadRam (recordEnv 1 0) (recordState 1 5 [] true 0) (some (fun _ => 0))
          dataBuff 1 rxInit).map (fun r => (r.1, r.2.2)) =
          some (false, recordState 1 5 [] true 0)) ∧
      (∀ (hiInit loInit : Int), ∃ st1,
        DS18B20_ConfigDevice (recordEnv 1 0) (recordState 1 5 [] true 0)
            { sampleConfig with deviceId := 0 } false hiInit loInit = some (false, st1) ∧
          st1.hw = (recordEnv 1 0).ops.configPin
            ({ sampleConfig with deviceId := 0 } : DsConfig_t).owConfig.pinCode
            (recordState 1 5 [] true 0).hw) :=
  zero_identifier_is_rejected_before_bus_traffic (recordEnv 1 0) (recordState 1 5 [] true 0)
    (fun _ => 0) { sampleConfig with deviceId := 0 } rfl rfl

/-- C25: a call of `EDC_GenerateCrcLut` that returns false leaves the module
state as it was: the parameter rows `crcLutId`, the tables `crcLut` and the
count `deviceIdx`. -/
theorem failed_generation_leaves_registry_unchanged (n : Nat) (st : EdcState)
    (cfg : CrcConfig_t) (h : (EDC_GenerateCrcLut n st cfg).1 = false) :
    (EDC_GenerateCrcLut n st cfg).2.crcLutId = st.crcLutId ∧
      (EDC_GenerateCrcLut n st cfg).2.crcLut = st.crcLut ∧
      (EDC_GenerateCrcLut n st cfg).2.deviceIdx = st.deviceIdx := by
  rw [generate_fail n st cfg h]
  exact ⟨rfl, rfl, rfl⟩

theorem failed_generation_leaves_registry_unchanged_witness :
    (EDC_GenerateCrcLut 1 (EDC_GenerateCrcLut 1 (EdcState.init 1) dallasConfig).2
        lowByteConfig).1 = false ∧
      (EDC_GenerateCrcLut 1 (EDC_GenerateCrcLut 1 (EdcState.init 1) dallasConfig).2
          lowByteConfig).2.crcLutId =
        (EDC_GenerateCrcLut 1 (EdcState.init 1) dallasConfig).2.crcLutId ∧
      (EDC_GenerateCrcLut 1 (EDC_GenerateCrcLut 1 (EdcState.init 1) dallasConfig).2
          lowByteConfig).2.crcLut =
        (EDC_GenerateCrcLut 1 (EdcState.init 1) dallasConfig).2.crcLut ∧
      (EDC_GenerateCrcLut 1 (EDC_GenerateCrcLut 1 (EdcState.init 1) dallasConfig).2
          lowByteConfig).2.deviceIdx =
        (EDC_GenerateCrcLut 1 (EdcState.init 1) dallasConfig).2.deviceIdx :=
  ⟨by decide!,
    failed_generation_leaves_registry_unchanged 1
      (EDC_GenerateCrcLut 1 (EdcState.init 1) dallasConfig).2 lowByteConfig (by decide!)⟩

/-- C29: `EDC_CalculateCrc` returns 0xFFFFFFFF when the data pointer is null or
the length is 0, for every polynomial argument, every module state and every
value of the unassigned `lutIdx`. -/
theorem calculate_returns_sentinel_on_null_or_empty (n : Nat) (st : EdcState) (u poly : Nat)
    (dPtr : Option (List Nat)) (dataLen : Nat) (h : dPtr = none ∨ dataLen = 0) :
    EDC_CalculateCrc n st u poly dPtr dataLen = some 0xFFFFFFFF := by
  unfold EDC_CalculateCrc
  rcases h with h | h
  · rw [h]
  · cases dPtr with
    | none => rfl
    | some mem => simp [h]

theorem calculate_returns_sentinel_on_null_or_empty_witness :
    EDC_CalculateCrc 1 (EDC_GenerateCrcLut 1 (EdcState.init 1) dallasConfig).2 0 0x31 none 9 =
        some 0xFFFFFFFF ∧
      EDC_CalculateCrc 1 (EDC_GenerateCrcLut 1 (EdcState.init 1) dallasConfig).2 0 0x31
        (some checkString) 0 = some 0xFFFFFFFF :=
  ⟨calculate_returns_sentinel_on_null_or_empty 1 _ 0 0x31 none 9 (Or.inl rfl),
    calculate_returns_sentinel_on_null_or_empty 1 _ 0 0x31 (some checkString) 0 (Or.inr rfl)⟩

theorem generate_row_keep (n : Nat) (st : EdcState) (c : CrcConfig_t) (k : Nat)
    (hk : k < st.deviceIdx) :
    (EDC_GenerateCrcLut n st c).2.crcLutId.getD k [] = st.crcLutId.getD k [] ∧
      (EDC_GenerateCrcLut n st c).2.crcLut.getD k [] = st.crcLut.getD k [] ∧
      k < (EDC_GenerateCrcLut n st c).2.deviceIdx := by
  cases hres : (EDC_GenerateCrcLut n st c).1 with
  | false => rw [generate_fail n st c hres]; exact ⟨rfl, rfl, hk⟩
  | true =>
    obtain ⟨_, _, _, _, heq⟩ := generate_ok n st c hres
    rw [heq]
    refine ⟨?_, ?_, by simp; omega⟩
    · simp only
      rw [getD_set_other _ _ _ _ _ (by omega)]
    · simp only
      rw [getD_set_other _ _ _ _ _ (by omega)]

theorem runGenerate_row_keep (n : Nat) (k : Nat) (later : List CrcConfig_t) :
    ∀ st : EdcState, k < st.deviceIdx →
      (runGenerate n st later).crcLutId.getD k [] = st.crcLutId.getD k [] ∧
        (runGenerate n st later).crcLut.getD k [] = st.crcLut.getD k [] ∧
        k < (runGenerate n st later).deviceIdx := by
  induction later with
  | nil => intro st hk; exact ⟨rfl, rfl, hk⟩
  | cons c cs ih =>
    intro st hk
    have hstep : runGenerate n st (c :: cs) = runGenerate n (EDC_GenerateCrcLut n st c).2 cs := rfl
    obtain ⟨h1, h2, h3⟩ := generate_row_keep n st c k hk
    obtain ⟨i1, i2, i3⟩ := ih _ h3
    rw [hstep]
    exact ⟨i1.trans h1, i2.trans h2, i3⟩

/-- C30: a row of the registry that is in use (below `deviceIdx`) is left as
it is by every later sequence of `EDC_GenerateCrcLut` calls, successful or not:
the stored polynomial, width and reflection flags and the 256 table entries.
For a registered configuration `EDC_CalculateCrc` therefore returns after the
later calls what it returned before them.  `EDC_CalculateCrc` itself assigns to
no variable of the module: the embedding passes it the module state and takes
back a value only. -/
theorem registered_rows_are_never_rewritten (n : Nat) (st : EdcState)
    (later : List CrcConfig_t) (k : Nat) (hk : k < st.deviceIdx) :
    (runGenerate n st later).crcLutId.getD k [] = st.crcLutId.getD k [] ∧
      (runGenerate n st later).crcLut.getD k [] = st.crcLut.getD k [] ∧
      k < (runGenerate n st later).deviceIdx ∧
      (∀ (cfg : CrcConfig_t) (u : Nat) (mem : List Nat) (dataLen : Nat),
        Registered n st cfg → dataLen ≠ 0 → dataLen ≤ mem.length →
        EDC_CalculateCrc n (runGenerate n st later) u (cfg.poly % 256) (some mem) dataLen =
          EDC_CalculateCrc n st u (cfg.poly % 256) (some mem) dataLen) := by
  obtain ⟨h1, h2, h3⟩ := runGenerate_row_keep n k later st hk
  refine ⟨h1, h2, h3, ?_⟩
  intro cfg u mem dataLen hreg h0 hlen
  have hreg2 : Registered n (runGenerate n st later) cfg := by
    obtain ⟨pre, post, hok, hst⟩ := hreg
    refine ⟨pre, post ++ later, hok, ?_⟩
    rw [hst, ← runGenerate_append, List.append_assoc, List.cons_append]
  rw [calculate_registered n _ cfg u mem dataLen hreg2 h0 hlen,
    calculate_registered n st cfg u mem dataLen hreg h0 hlen]

theorem registered_rows_are_never_rewritten_witness :
    0 < (runGenerate 2 (EdcState.init 2) [dallasConfig]).deviceIdx ∧
      (runGenerate 2 (runGenerate 2 (EdcState.init 2) [dallasConfig])
          [lowByteConfig, dallasConfig]).crcLutId.getD 0 [] =
        (runGenerate 2 (EdcState.init 2) [dallasConfig]).crcLutId.getD 0 [] ∧
      (runGenerate 2 (runGenerate 2 (EdcState.init 2) [dallasConfig])
          [lowByteConfig, dallasConfig]).crcLut.getD 0 [] =
        (runGenerate 2 (EdcState.init 2) [dallasConfig]).crcLut.getD 0 [] ∧
      0 < (runGenerate 2 (runGenerate 2 (EdcState.init 2) [dallasConfig])
          [lowByteConfig, dallasConfig]).deviceIdx ∧
      (∀ (cfg : CrcConfig_t) (u : Nat) (mem : List Nat) (dataLen : Nat),
        Registered 2 (runGenerate 2 (EdcState.init 2) [dallasConfig]) cfg → dataLen ≠ 0 →
        dataLen ≤ mem.length →
        EDC_CalculateCrc 2 (runGenerate 2 (runGenerate 2 (EdcState.init 2) [dallasConfig])
            [lowByteConfig, dallasConfig]) u (cfg.poly % 256) (some mem) dataLen =
          EDC_CalculateCrc 2 (runGenerate 2 (EdcState.init 2) [dallasConfig]) u (cfg.poly % 256)
            (some mem) dataLen) :=
  ⟨by decide!,
    registered_rows_are_never_rewritten 2 (runGenerate 2 (EdcState.init 2) [dallasConfig])
      [lowByteConfig, dallasConfig] 0 (by decide!)⟩

/-! ### Claims about the transport layer -/

/-- C27: for a byte `b` and bytes `d[0..n)` with `n ≤ 255`.  On any bus
`OW_WriteByte` issues the eight write slots of bits 0, 1, ..., 7 of `b`, in that
order, and `OW_WriteMultiByte` the slots of the bytes in array order, each byte
least significant bit first.  From read slots that return these levels
`OW_ReadByte` assembles `b` and `OW_ReadMultiByte` assembles `d`, the first slot
of a byte being its bit 0; so reading back the bits that `OW_WriteMultiByte`
left in the log of the logging bus returns `d`. -/
theorem byte_framing_round_trip (b : Nat) (d : List Nat) (hb : b < 256)
    (hd : ∀ x ∈ d, x < 256) (hlen : d.length ≤ 255) :
    byteLevels b = [b.testBit 0, b.testBit 1, b.testBit 2, b.testBit 3, b.testBit 4,
        b.testBit 5, b.testBit 6, b.testBit 7] ∧
      (∀ (σ : Type) (hw : Hw σ) (pin : Nat) (s : σ),
        OW_WriteByte hw pin b s =
          (byteLevels b).foldl (fun t bit => hw.writeSlot pin bit t) s) ∧
      (∀ (σ : Type) (hw : Hw σ) (pin : Nat) (s : σ),
        OW_WriteMultiByte hw pin d d.length s =
          (bytesLevels d).foldl (fun t bit => hw.writeSlot pin bit t) s) ∧
      (∀ (pin : Nat) (rest : List Bool),
        OW_ReadByte replayHw pin (byteLevels b ++ rest) = (b, rest)) ∧
      (∀ (pin : Nat) (rest : List Bool),
        OW_ReadMultiByte replayHw pin d.length (bytesLevels d ++ rest) = (d, rest)) ∧
      (∀ (pin : Nat) (s : RecBus),
        OW_ReadMultiByte replayHw pin d.length
            ((writtenBits (OW_WriteMultiByte recordHw pin d d.length s).log).drop
              (writtenBits s.log).length) = (d, [])) := by
  have hmod : d.length % 256 = d.length := Nat.mod_eq_of_lt (by omega)
  have hwrite : ∀ (σ : Type) (hw : Hw σ) (pin : Nat) (s : σ),
      OW_WriteMultiByte hw pin d d.length s =
        (bytesLevels d).foldl (fun t bit => hw.writeSlot pin bit t) s := by
    intro σ hw pin s
    unfold OW_WriteMultiByte
    rw [hmod, List.take_length, writeBytes_slots, map_mod_of_lt d hd]
  have hread : ∀ (pin : Nat) (rest : List Bool),
      OW_ReadMultiByte replayHw pin d.length (bytesLevels d ++ rest) = (d, rest) := by
    intro pin rest
    unfold OW_ReadMultiByte
    rw [hmod]
    exact readBytes_replay pin d rest hd
  refine ⟨rfl, ?_, hwrite, ?_, hread, ?_⟩
  · intro σ hw pin s
    rw [writeByte_slots, Nat.mod_eq_of_lt hb]
  · intro pin rest
    exact readByte_replay pin b hb rest
  · intro pin s
    rw [hwrite, record_slots, List.drop_left]
    have := hread pin []
    rw [List.append_nil] at this
    exact this

theorem byte_framing_round_trip_witness :
    byteLevels 0xA5 = [true, false, true, false, false, true, false, true] ∧
      (∀ (pin : Nat) (s : RecBus),
        OW_ReadMultiByte replayHw pin [0x28, 0xFF, 0x00, 0x4B].length
            ((writtenBits (OW_WriteMultiByte recordHw pin [0x28, 0xFF, 0x00, 0x4B]
              [0x28, 0xFF, 0x00, 0x4B].length s).log).drop
              (writtenBits s.log).length) = ([0x28, 0xFF, 0x00, 0x4B], [])) :=
  ⟨by decide,
    (byte_framing_round_trip 0xA5 [0x28, 0xFF, 0x00, 0x4B] (by decide) (by decide)
      (by decide)).2.2.2.2.2⟩

/-- C26 (the code departs from the claim): `OW_Reset`, `OW_WriteBit`,
`OW_WriteByte`, `OW_WriteMultiByte`, `OW_ReadByte` and `OW_ReadMultiByte` are
bracketed for every input and every machine state: the pin operations they add
to the trace happened with interrupts disabled, and the interrupt state on exit
is the one on entry.  `OW_ReadBit` is `return ReadBit(pinCode);`: called with
interrupts enabled it makes no call of the interrupt controller, and its four
pin operations, the sample included, all happen with interrupts enabled. -/
theorem readBit_runs_with_interrupts_enabled :
    (∀ (pin : Nat) (m : Pins.Machine), Pins.Bracketed m (Pins.OW_Reset pin m).2) ∧
      (∀ (pin dataBit : Nat) (m : Pins.Machine),
        Pins.Bracketed m (Pins.OW_WriteBit pin dataBit m)) ∧
      (∀ (pin dataByte : Nat) (m : Pins.Machine),
        Pins.Bracketed m (Pins.OW_WriteByte pin dataByte m)) ∧
      (∀ (pin : Nat) (mem : List Nat) (dataLen : Nat) (m : Pins.Machine),
        Pins.Bracketed m (Pins.OW_WriteMultiByte pin mem dataLen m)) ∧
      (∀ (pin : Nat) (dataPtrNull : Bool) (m : Pins.Machine),
        Pins.Bracketed m (Pins.OW_ReadByte pin dataPtrNull m).2) ∧
      (∀ (pin : Nat) (dataPtrNull : Bool) (dataLen : Nat) (m : Pins.Machine),
        Pins.Bracketed m (Pins.OW_ReadMultiByte pin dataPtrNull dataLen m).2) ∧
      (Pins.OW_ReadBit 5 Pins.idle).2.trace =
        [(Pins.Event.clearPin 5, true), (Pins.Event.configDir 5 true, true),
          (Pins.Event.delayUs 6, true), (Pins.Event.configDir 5 false, true),
          (Pins.Event.delayUs 9, true), (Pins.Event.readPin 5, true),
          (Pins.Event.delayUs 55, true)] ∧
      ¬ Pins.Bracketed Pins.idle (Pins.OW_ReadBit 5 Pins.idle).2 := by
  refine ⟨?_, ?_, ?_, ?_, ?_, ?_, by decide, ?_⟩
  · intro pin m
    apply Pins.bracket m
    unfold Pins.PIO_ClearPin Pins.PIO_ConfigGpioPinDir Pins.TMR_DelayUs
    exact Pins.steady_trans _ _ _ (Pins.steady_trans _ _ _ (Pins.steady_trans _ _ _
      (Pins.steady_trans _ _ _ (Pins.steady_trans _ _ _ (Pins.steady_trans _ _ _
      (Pins.steady_emit _ _) (Pins.steady_emit _ _)) (Pins.steady_emit _ _))
      (Pins.steady_emit _ _)) (Pins.steady_emit _ _)) (Pins.steady_readPin _ _))
      (Pins.steady_emit _ _)
  · intro pin dataBit m
    exact Pins.bracket m _ (Pins.steady_writeSlot pin dataBit _)
  · intro pin dataByte m
    exact Pins.bracket m _ (Pins.steady_writeBits pin _ 8 0 _)
  · intro pin mem dataLen m
    exact Pins.bracket m _ (Pins.steady_writeAll pin _ _)
  · intro pin dataPtrNull m
    cases dataPtrNull with
    | true => exact Pins.bracket m _ (Pins.steady_refl _)
    | false => exact Pins.bracket m _ (Pins.steady_readBits pin 8 0 0 _)
  · intro pin dataPtrNull dataLen m
    cases dataPtrNull with
    | true => exact Pins.bracket m _ (Pins.steady_refl _)
    | false => exact Pins.bracket m _ (Pins.steady_readAll pin _ _)
  · rintro ⟨_, added, ht, hg⟩
    have ht2 : (Pins.OW_ReadBit 5 Pins.idle).2.trace = added := by
      rw [ht]; rfl
    have hm : (Pins.Event.clearPin 5, true) ∈ added := by
      rw [← ht2]; decide
    have := hg _ hm rfl
    cases this

/-! ### Claims about zero bytes -/

/-- C33: the stored identifier and the match-ROM frame round-trip.  With the
table of the driver registered, for every 64-bit ROM word `r` the search accepts
(low byte 0x28 and `EDC_CalculateCrc(0x31, r, 8) = 0`) the frame rebuilt from the
stored identifier `(r >> 8) & 0xFFFFFFFFFFFF`, that is `f = (s << 8) | 0x28`
followed by `f |= EDC_CalculateCrc(0x31, f, 7) << 56`, is `r` itself; and for
every 48-bit `s` the frame so built has CRC-8 zero over its eight bytes. -/
theorem rom_frame_round_trip {σ : Type} (env : Env σ) (edc : EdcState)
    (hreg : Registered env.crcMax edc dallasConfig) :
    (∀ r, r < 2 ^ 64 → r &&& 0xFF = DS18B20_FAMILY_CODE →
      EDC_CalculateCrc env.crcMax edc env.lutIdxInit CRC_POLY_CODE (some (bytesLE r 8)) 8 =
        some 0 →
      romFrame env edc ((r >>> 8) &&& 0xFFFFFFFFFFFF) = some r) ∧
    (∀ s, s < 2 ^ 48 → ∃ f, romFrame env edc s = some f ∧
      EDC_CalculateCrc env.crcMax edc env.lutIdxInit CRC_POLY_CODE (some (bytesLE f 8)) 8 =
        some 0) := by
  constructor
  · intro r hr hfam hcrc
    have hslt : (r >>> 8) &&& 0xFFFFFFFFFFFF < 2 ^ 48 := Nat.and_lt_two_pow _ (by decide)
    obtain ⟨c, hc, hf, hz⟩ := romFrame_value env edc _ hreg hslt
    rw [hf]
    refine congrArg some ?_
    generalize hsdef : (r >>> 8) &&& 0xFFFFFFFFFFFF = s at hslt hf hz
    have hsb : s < 281474976710656 := by simpa using hslt
    have hp56 : (2 : Nat) ^ 56 = 72057594037927936 := by norm_num
    rw [hp56] at hz ⊢
    have a : ∀ x : Nat, (x >>> 8) &&& 0xFFFFFFFFFFFF = x / 256 % 281474976710656 := by
      intro x
      rw [Nat.shiftRight_eq_div_pow]
      exact Nat.and_pow_two_sub_one_eq_mod _ 48
    refine (accepted_determined env.crcMax env.lutIdxInit edc r
      (s * 256 + 40 + c * 72057594037927936) hreg hr ?_ hfam ?_ ?_ hcrc hz).symm
    · have : (2 : Nat) ^ 64 = 18446744073709551616 := by norm_num
      omega
    · rw [and_ff]
      show _ = 40
      omega
    · rw [hsdef, a]
      omega
  · intro s hs
    obtain ⟨c, _, hf, hz⟩ := romFrame_value env edc s hreg hs
    exact ⟨_, hf, hz⟩

theorem rom_frame_round_trip_witness :
    romFrame (simEnv 1 0) (EDC_GenerateCrcLut 1 (EdcState.init 1) dallasConfig).2
        ((0xF500000000000528 >>> 8) &&& 0xFFFFFFFFFFFF) = some 0xF500000000000528 ∧
      ∃ f, romFrame (simEnv 1 0) (EDC_GenerateCrcLut 1 (EdcState.init 1) dallasConfig).2 6 =
          some f ∧
        EDC_CalculateCrc 1 (EDC_GenerateCrcLut 1 (EdcState.init 1) dallasConfig).2 0
          CRC_POLY_CODE (some (bytesLE f 8)) 8 = some 0 :=
  ⟨(rom_frame_round_trip (simEnv 1 0) _ ⟨[], [], by decide, rfl⟩).1 0xF500000000000528
      (by decide) (by decide) (by decide!),
    (rom_frame_round_trip (simEnv 1 0) _ ⟨[], [], by decide, rfl⟩).2 6 (by decide)⟩

/-! ### Claims about the CRC-8 as polynomial division -/

/-- C31: for every successfully registered configuration of width 8 with a
polynomial `P` below 256 (a registered polynomial is never 0), the row of the
registry that carries `P` holds at every index `i` in 0..255 the remainder of
`i * x^8` modulo `x^8 + P` over GF(2): the result of the long division, a value
below 256 that differs from `i * x^8` by a multiple `q * (x^8 + P)`.  For every
non-empty `data`, `EDC_CalculateCrc` returns the bit-serial MSB-first CRC-8 with
initial value 0 and no final XOR over the input bytes, each bit-reversed when
input reflection is configured, with the result bit-reversed over 8 bits when
output reflection is configured. -/
theorem crc8_is_polynomial_division (n : Nat) (st : EdcState) (cfg : CrcConfig_t) (u : Nat)
    (hreg : Registered n st cfg) (hw : cfg.polySize = 8) (hP : cfg.poly ≤ 255) :
    (∃ k, k < st.deviceIdx ∧ st.idAt k 0 = cfg.poly ∧ cfg.poly ≠ 0 ∧ ∀ i, i < 256 →
        st.lutAt k i = gf2Mod (0x100 ||| cfg.poly) 8 8 (i <<< 8) ∧ st.lutAt k i < 256 ∧
        ∃ q, q < 256 ∧ i <<< 8 = gf2Mul q (0x100 ||| cfg.poly) 8 ^^^ st.lutAt k i) ∧
    (∀ (data : List Nat) (len : Nat), 1 ≤ len → len ≤ data.length →
      EDC_CalculateCrc n st u cfg.poly (some data) len =
        some (crc8Spec cfg.poly cfg.isInputReflected cfg.isCrcReflected (data.take len))) := by
  have hPlt : cfg.poly < 256 := by omega
  have hpm : cfg.poly % 256 = cfg.poly := Nat.mod_eq_of_lt hPlt
  have hwm : cfg.polySize % 256 = 8 := by rw [hw]
  constructor
  · obtain ⟨_, hne, _, k, hk, hh⟩ := registered_row n st cfg hreg
    rw [hpm] at hne
    refine ⟨k, hk, ?_, hne, ?_⟩
    · rw [(holds_idAt st k cfg hh).1, hpm]
    · intro i hi
      have hlut : st.lutAt k i = crcLutEntry cfg.poly 8 i := by
        unfold EdcState.lutAt
        rw [hh.2, hpm, hwm, crcLutRow_getD _ _ i hi]
      have hdiv := gf2_division cfg.poly hPlt 8 (i <<< 8) (by rw [Nat.shiftLeft_eq]; omega)
      rw [hlut, crcLutEntry_eq_gf2Mod cfg.poly i hPlt hi]
      exact ⟨rfl, hdiv.2.1, _, hdiv.1, hdiv.2.2⟩
  · intro data len hl hlen
    have h := calculate_registered n st cfg u data len hreg (by omega) hlen
    rw [hpm, hwm] at h
    rw [h, crcCompute_eq_crc8Spec cfg.poly hPlt]

theorem crc8_is_polynomial_division_witness :
    (∃ k, k < (EDC_GenerateCrcLut 1 (EdcState.init 1) smbusConfig).2.deviceIdx ∧
        (EDC_GenerateCrcLut 1 (EdcState.init 1) smbusConfig).2.idAt k 0 = smbusConfig.poly ∧
        smbusConfig.poly ≠ 0 ∧ ∀ i, i < 256 →
        (EDC_GenerateCrcLut 1 (EdcState.init 1) smbusConfig).2.lutAt k i =
            gf2Mod (0x100 ||| smbusConfig.poly) 8 8 (i <<< 8) ∧
          (EDC_GenerateCrcLut 1 (EdcState.init 1) smbusConfig).2.lutAt k i < 256 ∧
          ∃ q, q < 256 ∧ i <<< 8 = gf2Mul q (0x100 ||| smbusConfig.poly) 8 ^^^
            (EDC_GenerateCrcLut 1 (EdcState.init 1) smbusConfig).2.lutAt k i) ∧
      EDC_CalculateCrc 1 (EDC_GenerateCrcLut 1 (EdcState.init 1) smbusConfig).2 0
          smbusConfig.poly (some checkString) 9 =
        some (crc8Spec smbusConfig.poly smbusConfig.isInputReflected
          smbusConfig.isCrcReflected (checkString.take 9)) :=
  ⟨(crc8_is_polynomial_division 1 _ smbusConfig 0 ⟨[], [], by decide, rfl⟩ rfl
      (by decide)).1,
    (crc8_is_polynomial_division 1 _ smbusConfig 0 ⟨[], [], by decide, rfl⟩ rfl
      (by decide)).2 checkString 9 (by decide) (by decide)⟩

/-! ### The search over one or two devices -/

theorem firstDiff_spec (a b : Nat) : ∀ (k idx : Nat),
    idx ≤ firstDiff a b k idx ∧ firstDiff a b k idx ≤ idx + k ∧
      (∀ i, idx ≤ i → i < firstDiff a b k idx → a.testBit i = b.testBit i) ∧
      (firstDiff a b k idx < idx + k →
        a.testBit (firstDiff a b k idx) ≠ b.testBit (firstDiff a b k idx)) := by
  intro k
  induction k with
  | zero =>
    intro idx
    refine ⟨Nat.le_refl _, Nat.le_refl _, ?_, ?_⟩
    · intro i h1 h2
      have : firstDiff a b 0 idx = idx := rfl
      omega
    · intro h
      have : firstDiff a b 0 idx = idx := rfl
      omega
  | succ k ih =>
    intro idx
    have hstep : firstDiff a b (k + 1) idx =
        if a.testBit idx != b.testBit idx then idx else firstDiff a b k (idx + 1) := rfl
    by_cases hb : (a.testBit idx != b.testBit idx) = true
    · rw [hstep, if_pos hb]
      refine ⟨Nat.le_refl _, by omega, fun i h1 h2 => by omega, fun _ => ?_⟩
      simpa using hb
    · rw [hstep, if_neg hb]
      obtain ⟨h1, h2, h3, h4⟩ := ih (idx + 1)
      refine ⟨by omega, by omega, ?_, fun h => h4 (by omega)⟩
      intro i hi1 hi2
      rcases Nat.eq_or_lt_of_le hi1 with e | e
      · subst e
        simpa using hb
      · exact h3 i (by omega) hi2

/-- Two different 64-bit words differ at some position below 64. -/
theorem firstDiff_lt (a b : Nat) (ha : a < 2 ^ 64) (hb : b < 2 ^ 64) (hab : a ≠ b) :
    firstDiff a b 64 0 < 64 := by
  obtain ⟨_, h2, h3, _⟩ := firstDiff_spec a b 64 0
  rcases Nat.eq_or_lt_of_le h2 with e | e
  · exfalso
    apply hab
    apply Nat.eq_of_testBit_eq
    intro i
    by_cases hi : i < 64
    · exact h3 i (Nat.zero_le _) (by omega)
    · rw [Nat.testBit_lt_two_pow (Nat.lt_of_lt_of_le ha (Nat.pow_le_pow_right (by decide)
        (by omega))), Nat.testBit_lt_two_pow (Nat.lt_of_lt_of_le hb
        (Nat.pow_le_pow_right (by decide) (by omega)))]
  · omega

theorem searchCond_sim_value (n u timeout : Nat) (v : SearchVars) (s : SimBus) :
    searchCond (simEnv n u) timeout v s =
      if v.isLastDevice = false ∧ v.repeatSearchCount < DS_SEARCH_DEVICE_REPEAT_COUNT then
        (decide (timeout > 0), s)
      else (false, s) := rfl

/-- An accepted pass that ends with `lastZero = -1` ends the search. -/
theorem searchLoop_sim_last (n u pin cmd timeout : Nat) (st : DsState SimBus) (fuel : Nat)
    (v : SearchVars) (roms : List Nat) (r : Nat) (b : SimBus)
    (hrs : v.isResetSearch = false)
    (hp : simPass roms pin (v.lastDiscrepancy, v.romIdBuff (v.deviceCount - 1)) =
      { romData := r, lastZero := -1, isResetSearch := false, hw := b })
    (hfam : r &&& 0xFF = DS18B20_FAMILY_CODE)
    (hcrc : EDC_CalculateCrc n st.edc u CRC_POLY_CODE (some (bytesLE r 8)) 8 = some 0) :
    searchLoop (simEnv n u) pin cmd timeout st (fuel + 1) v (simAfterReset roms) =
      some { count := v.deviceCount + 1,
             romIdBuff := fun i => if i = v.deviceCount then serialOf r else v.romIdBuff i,
             accepted := v.accepted ++ [r],
             st := { st with hw := b } } := by
  have hpass := searchPass_eq (simEnv n u) pin cmd st v (simAfterReset roms) _
    (searchPass_sim n u pin cmd v roms hrs)
  rw [hp] at hpass
  simp only at hpass
  have hc2 : EDC_CalculateCrc (simEnv n u).crcMax st.edc (simEnv n u).lutIdxInit CRC_POLY_CODE
      (some (bytesLE r 8)) 8 = some 0 := hcrc
  rw [if_pos hfam] at hpass
  simp only [hc2, Option.map_some', beq_self_eq_true, if_true] at hpass
  rw [searchLoop_succ, hpass]
  simp only [searchCond_sim_value]
  rfl

/-- An accepted pass that ends with `lastZero ≠ -1` is followed by another
pass. -/
theorem searchLoop_sim_more (n u pin cmd timeout : Nat) (st : DsState SimBus) (fuel : Nat)
    (v : SearchVars) (roms : List Nat) (r : Nat) (lz : Int) (b : SimBus)
    (hrs : v.isResetSearch = false) (hl : v.isLastDevice = false)
    (hrep : v.repeatSearchCount < DS_SEARCH_DEVICE_REPEAT_COUNT) (ht : 0 < timeout)
    (hne : roms ≠ [])
    (hp : simPass roms pin (v.lastDiscrepancy, v.romIdBuff (v.deviceCount - 1)) =
      { romData := r, lastZero := lz, isResetSearch := false, hw := b })
    (hlz : lz ≠ -1)
    (hfam : r &&& 0xFF = DS18B20_FAMILY_CODE)
    (hcrc : EDC_CalculateCrc n st.edc u CRC_POLY_CODE (some (bytesLE r 8)) 8 = some 0) :
    searchLoop (simEnv n u) pin cmd timeout st (fuel + 1) v (simAfterReset roms) =
      searchLoop (simEnv n u) pin cmd timeout st fuel
        { v with romIdBuff := fun i => if i = v.deviceCount then serialOf r else v.romIdBuff i,
                 lastDiscrepancy := lz, isResetSearch := false,
                 deviceCount := v.deviceCount + 1, accepted := v.accepted ++ [r] }
        (simAfterReset roms) := by
  have hpass := searchPass_eq (simEnv n u) pin cmd st v (simAfterReset roms) _
    (searchPass_sim n u pin cmd v roms hrs)
  have hroms : b.roms = roms := by
    have := simPass_roms roms pin (v.lastDiscrepancy, v.romIdBuff (v.deviceCount - 1))
    rw [hp] at this
    exact this
  rw [hp] at hpass
  simp only at hpass
  have hc2 : EDC_CalculateCrc (simEnv n u).crcMax st.edc (simEnv n u).lutIdxInit CRC_POLY_CODE
      (some (bytesLE r 8)) 8 = some 0 := hcrc
  have hops : (simEnv n u).ops = simHw := rfl
  have hemp : roms.isEmpty = false := by
    cases roms with
    | nil => exact absurd rfl hne
    | cons a l => rfl
  rw [if_pos hfam, hops, sim_reset, hroms, hemp] at hpass
  simp only [hc2, Option.map_some', beq_self_eq_true, if_true, if_neg hlz, Bool.not_false,
    Bool.not_true, Bool.false_eq_true, if_false] at hpass
  rw [searchLoop_succ, hpass]
  simp only [searchCond_sim_value, hl, hrep, and_self, if_true, decide_eq_true ht]
  rfl

theorem validRom_crc (n u : Nat) (edc : EdcState) (r : Nat)
    (hreg : Registered n edc dallasConfig) (hv : ValidRom r) :
    EDC_CalculateCrc n edc u CRC_POLY_CODE (some (bytesLE r 8)) 8 = some 0 := by
  have h : EDC_CalculateCrc n edc u CRC_POLY_CODE (some (bytesLE r 8)) 8 =
      some (crcCompute (fun i => (crcLutRow 0x31 8).getD i 0) 8 true true
        ((bytesLE r 8).take 8)) :=
    calculate_registered n edc dallasConfig u (bytesLE r 8) 8 hreg (by decide)
      (by rw [bytesLE_length])
  rw [h, List.take_of_length_le (by rw [bytesLE_length]),
    crcCompute_eq_crc8Spec 0x31 (by decide), hv.2.2]

theorem searchInit_sim (n u : Nat) (st : DsState SimBus) (pin : Nat) (buff : Nat → Nat) :
    searchInit (simEnv n u) st pin buff =
      (4000000,
        { (GenerateCrcLut (simEnv n u) st).2 with owPinCode := pin, sysFreq := 8000000 },
        searchVars0 buff, simAfterReset st.hw.roms) := by
  have hops : (simEnv n u).ops = simHw := rfl
  have hcb : ∀ b : SimBus, OW_ConfigBus simHw pin b = b := fun _ => rfl
  have hcc : ∀ b : SimBus, simHw.coreCount b = (0, b) := fun _ => rfl
  have hsf : ∀ b : SimBus, simHw.sysFreq b = 8000000 := fun _ => rfl
  have e1 : (0 % 4294967296 + DS_CONV_TEMP_TIMEOUT_MS * (8000000 % 4294967296 / 1000 / 2) %
      4294967296) % 4294967296 = 4000000 := by decide
  have e2 : 8000000 % 4294967296 = 8000000 := by decide
  unfold searchInit
  simp only [hops, hcb, sim_reset, hcc, hsf, e1, e2]
  rw [generateCrcLut_hw]
  rfl

/-- The search over a bus with one valid device. -/
theorem searchLoop_one (n u pin cmd timeout : Nat) (st : DsState SimBus) (fuel : Nat)
    (buff : Nat → Nat) (r : Nat) (hreg : Registered n st.edc dallasConfig) (hv : ValidRom r) :
    searchLoop (simEnv n u) pin cmd timeout st (fuel + 1) (searchVars0 buff)
        (simAfterReset [r]) =
      some { count := 1, romIdBuff := fun i => if i = 0 then serialOf r else buff i,
             accepted := [r], st := { st with hw := simAt [r] [r] 64 } } :=
  searchLoop_sim_last n u pin cmd timeout st fuel (searchVars0 buff) [r] r _ rfl
    (simPass_one pin _ r hv.1) hv.2.1 (validRom_crc n u st.edc r hreg hv)

/-- The search over a bus with two valid devices that first differ at bit `d`,
where `r0` carries a 0 and `r1` a 1. -/
theorem searchLoop_two (n u pin cmd timeout : Nat) (st : DsState SimBus) (fuel : Nat)
    (buff : Nat → Nat) (roms : List Nat) (r0 r1 d : Nat)
    (hreg : Registered n st.edc dallasConfig) (ht : 0 < timeout) (hd : d < 64)
    (hv0 : ValidRom r0) (hv1 : ValidRom r1) (hmem : ∀ y ∈ roms, y = r0 ∨ y = r1)
    (hin0 : r0 ∈ roms) (hin1 : r1 ∈ roms)
    (hlow : ∀ i, i < d → r1.testBit i = r0.testBit i)
    (hb0 : r0.testBit d = false) (hb1 : r1.testBit d = true) :
    ∃ res, searchLoop (simEnv n u) pin cmd timeout st (fuel + 2) (searchVars0 buff)
        (simAfterReset roms) = some res ∧ res.count = 2 ∧
      res.romIdBuff 0 = serialOf r0 ∧ res.romIdBuff 1 = serialOf r1 ∧
      ∀ i, 2 ≤ i → res.romIdBuff i = buff i := by
  have hc0 : searchNextBit (searchVars0 buff).lastDiscrepancy
      ((searchVars0 buff).romIdBuff ((searchVars0 buff).deviceCount - 1)) d 0 0 =
      pinVal (r0.testBit d) := by
    rw [hb0]
    unfold searchNextBit
    have h1 : ¬ ((d : Int) = (searchVars0 buff).lastDiscrepancy) := by
      show ¬ ((d : Int) = -1)
      omega
    have h2 : (d : Int) > (searchVars0 buff).lastDiscrepancy := by
      show (d : Int) > -1
      omega
    simp only [and_self, if_true, if_neg h1, if_pos h2]
    rfl
  obtain ⟨b1, hp1⟩ := simPass_two roms pin
    ((searchVars0 buff).lastDiscrepancy,
      (searchVars0 buff).romIdBuff ((searchVars0 buff).deviceCount - 1))
    r0 r1 d hd hv0.1 hmem hin0 hin1 hlow (by rw [hb0, hb1]; rfl) hc0
  rw [hb0] at hp1
  simp only [Bool.false_eq_true, if_false] at hp1
  have hne : roms ≠ [] := List.ne_nil_of_mem hin0
  have step1 := searchLoop_sim_more n u pin cmd timeout st (fuel + 1) (searchVars0 buff) roms
    r0 (d : Int) b1 rfl rfl (by show 0 < DS_SEARCH_DEVICE_REPEAT_COUNT; decide) ht hne hp1
    (by omega) hv0.2.1
    (validRom_crc n u st.edc r0 hreg hv0)
  generalize hv1def : ({ searchVars0 buff with
      romIdBuff := fun i => if i = (searchVars0 buff).deviceCount then serialOf r0
        else (searchVars0 buff).romIdBuff i,
      lastDiscrepancy := (d : Int), isResetSearch := false,
      deviceCount := (searchVars0 buff).deviceCount + 1,
      accepted := (searchVars0 buff).accepted ++ [r0] } : SearchVars) = v1 at step1
  have hv1ld : v1.lastDiscrepancy = (d : Int) := by rw [← hv1def]
  have hv1rs : v1.isResetSearch = false := by rw [← hv1def]
  have hv1dc : v1.deviceCount = 1 := by rw [← hv1def]; rfl
  have hv1b : v1.romIdBuff = fun i => if i = 0 then serialOf r0 else buff i := by
    rw [← hv1def]; rfl
  have hc1 : searchNextBit v1.lastDiscrepancy (v1.romIdBuff (v1.deviceCount - 1)) d 0 0 =
      pinVal (r1.testBit d) := by
    rw [hb1, hv1ld]
    unfold searchNextBit
    simp only [and_self, if_true]
    rfl
  obtain ⟨b2, hp2⟩ := simPass_two roms pin
    (v1.lastDiscrepancy, v1.romIdBuff (v1.deviceCount - 1))
    r1 r0 d hd hv1.1 (fun y hy => (hmem y hy).symm) hin1 hin0
    (fun i hi => (hlow i hi).symm) (by rw [hb0, hb1]; rfl) hc1
  rw [hb1] at hp2
  simp only [if_true] at hp2
  have step2 := searchLoop_sim_last n u pin cmd timeout st fuel v1 roms r1 b2 hv1rs hp2
    hv1.2.1 (validRom_crc n u st.edc r1 hreg hv1)
  rw [show fuel + 2 = (fuel + 1) + 1 from rfl, step1, step2]
  refine ⟨_, rfl, ?_, ?_, ?_, ?_⟩
  · simp only [hv1dc]
  · simp only [hv1dc, hv1b]
    rfl
  · simp only [hv1dc, hv1b]
    rfl
  · intro i hi
    simp only [hv1dc, hv1b]
    rw [if_neg (by omega), if_neg (by omega)]

theorem searchDevice_sim (n u fuel : Nat) (st : DsState SimBus) (pin : Nat) (buff : Nat → Nat)
    (mode : SearchMode_t) (hpin : pin ≠ 0) (hg : (GenerateCrcLut (simEnv n u) st).1 = true)
    (hne : st.hw.roms ≠ []) :
    SearchDevice (simEnv n u) fuel st pin buff mode =
      searchLoop (simEnv n u) pin (searchCmdOf mode) 4000000
        { (GenerateCrcLut (simEnv n u) st).2 with owPinCode := pin, sysFreq := 8000000 }
        fuel (searchVars0 buff) (simAfterReset st.hw.roms) := by
  have hops : (simEnv n u).ops = simHw := rfl
  have hcb : ∀ b : SimBus, OW_ConfigBus simHw pin b = b := fun _ => rfl
  have hr : (OW_Reset (simEnv n u).ops pin
      (OW_ConfigBus (simEnv n u).ops pin (GenerateCrcLut (simEnv n u) st).2.hw)).1 = true := by
    rw [hops, hcb, sim_reset, generateCrcLut_hw]
    cases hroms : st.hw.roms with
    | nil => exact absurd hroms hne
    | cons a l => rfl
  rw [searchDevice_enters (simEnv n u) fuel st pin buff mode hpin hg hr, searchInit_sim]

/-- C32: on the noise-free simulated wired-AND bus, whose core timer stands still
so that the timeout never expires, with the pin code non-zero and the CRC table
of the driver available, `SearchDevice` finds the devices.  With exactly one
valid device on the bus (family byte 0x28, CRC-8 zero) it returns 1 and stores
the 48-bit serial in bits 8..55 of its ROM word.  With exactly two valid devices
with different ROM words it returns 2 and stores the two serials, first that of
the device whose bit is 0 at the first position where the two ROM words differ.
The entries beyond the count are left as they were.  The results hold for every
bound on the number of passes that allows one pass respectively two. -/
theorem search_finds_one_or_two_devices (n u : Nat) (st : DsState SimBus) (pin : Nat)
    (buff : Nat → Nat) (mode : SearchMode_t) (hpin : pin ≠ 0)
    (hedc : ∃ calls, st.edc = runGenerate n (EdcState.init n) calls)
    (hflag : st.isCrcLutGenerated = true → Registered n st.edc dallasConfig)
    (hg : (GenerateCrcLut (simEnv n u) st).1 = true) :
    (∀ r fuel, ValidRom r → st.hw.roms = [r] →
      ∃ res, SearchDevice (simEnv n u) (fuel + 1) st pin buff mode = some res ∧
        res.count = 1 ∧ res.romIdBuff 0 = serialOf r ∧
        ∀ i, 1 ≤ i → res.romIdBuff i = buff i) ∧
    (∀ a b fuel, ValidRom a → ValidRom b → a ≠ b → st.hw.roms = [a, b] →
      firstDiff a b 64 0 < 64 ∧
      a.testBit (firstDiff a b 64 0) ≠ b.testBit (firstDiff a b 64 0) ∧
      (∀ i, i < firstDiff a b 64 0 → a.testBit i = b.testBit i) ∧
      ∃ res, SearchDevice (simEnv n u) (fuel + 2) st pin buff mode = some res ∧
        res.count = 2 ∧
        res.romIdBuff 0 = serialOf (if a.testBit (firstDiff a b 64 0) then b else a) ∧
        res.romIdBuff 1 = serialOf (if a.testBit (firstDiff a b 64 0) then a else b) ∧
        ∀ i, 2 ≤ i → res.romIdBuff i = buff i) := by
  have hreg : Registered n (GenerateCrcLut (simEnv n u) st).2.edc dallasConfig :=
    generateCrcLut_registered (simEnv n u) st hedc hflag hg
  constructor
  · intro r fuel hv hroms
    rw [searchDevice_sim n u (fuel + 1) st pin buff mode hpin hg (by rw [hroms]; simp), hroms]
    generalize hst1 : ({ (GenerateCrcLut (simEnv n u) st).2 with
      owPinCode := pin, sysFreq := 8000000 } : DsState SimBus) = st1
    have hreg1 : Registered n st1.edc dallasConfig := by rw [← hst1]; exact hreg
    rw [searchLoop_one n u pin (searchCmdOf mode) 4000000 st1 fuel buff r hreg1 hv]
    refine ⟨_, rfl, rfl, rfl, ?_⟩
    intro i hi
    show (if i = 0 then serialOf r else buff i) = buff i
    rw [if_neg (by omega)]
  · intro a b fuel ha hb hab hroms
    have hd := firstDiff_lt a b ha.1 hb.1 hab
    obtain ⟨_, _, hlow, hdiff⟩ := firstDiff_spec a b 64 0
    have hdiff2 := hdiff (by omega)
    have hlow2 : ∀ i, i < firstDiff a b 64 0 → a.testBit i = b.testBit i :=
      fun i hi => hlow i (Nat.zero_le _) hi
    refine ⟨hd, hdiff2, hlow2, ?_⟩
    rw [searchDevice_sim n u (fuel + 2) st pin buff mode hpin hg (by rw [hroms]; simp), hroms]
    generalize hst1 : ({ (GenerateCrcLut (simEnv n u) st).2 with
      owPinCode := pin, sysFreq := 8000000 } : DsState SimBus) = st1
    have hreg1 : Registered n st1.edc dallasConfig := by rw [← hst1]; exact hreg
    generalize firstDiff a b 64 0 = d at hd hdiff2 hlow2 ⊢
    cases hbit : a.testBit d
    · have hb1 : b.testBit d = true := by
        cases hb2 : b.testBit d
        · rw [hbit, hb2] at hdiff2; exact absurd rfl hdiff2
        · rfl
      simp only [Bool.false_eq_true, if_false]
      exact searchLoop_two n u pin (searchCmdOf mode) 4000000 st1 fuel buff [a, b] a b d hreg1
        (by decide) hd ha hb (fun y hy => by simpa using hy) (by simp) (by simp)
        (fun i hi => (hlow2 i hi).symm) hbit hb1
    · have hb0 : b.testBit d = false := by
        cases hb2 : b.testBit d
        · rfl
        · rw [hbit, hb2] at hdiff2; exact absurd rfl hdiff2
      simp only [if_true]
      exact searchLoop_two n u pin (searchCmdOf mode) 4000000 st1 fuel buff [a, b] b a d hreg1
        (by decide) hd hb ha (fun y hy => by
          have : y = a ∨ y = b := by simpa using hy
          exact this.symm) (by simp) (by simp) hlow2 hb0 hbit

theorem search_finds_one_or_two_devices_witness :
    (∃ res, SearchDevice (simEnv 1 0) 1 (simStart 1 [0xF500000000000528]) 1 (fun _ => 0)
        SearchMode_t.SEARCH_DEVICE_ID = some res ∧
      res.count = 1 ∧ res.romIdBuff 0 = serialOf 0xF500000000000528 ∧
      ∀ i, 1 ≤ i → res.romIdBuff i = 0) ∧
    (∃ res, SearchDevice (simEnv 1 0) 2 (simStart 1 twoDevices) 1 (fun _ => 0)
        SearchMode_t.SEARCH_DEVICE_ID = some res ∧
      res.count = 2 ∧ res.romIdBuff 0 = 6 ∧ res.romIdBuff 1 = 5) := by
  have v5 : ValidRom 0xF500000000000528 := by
    refine ⟨by decide, by decide, by decide!⟩
  have v6 : ValidRom 0xAC00000000000628 := by
    refine ⟨by decide, by decide, by decide!⟩
  constructor
  · exact (search_finds_one_or_two_devices 1 0 (simStart 1 [0xF500000000000528]) 1 (fun _ => 0)
      SearchMode_t.SEARCH_DEVICE_ID (by decide) ⟨[], rfl⟩ (fun hf => by cases hf)
      (by decide)).1 0xF500000000000528 0 v5 rfl
  · obtain ⟨_, _, _, res, h1, h2, h3, h4, _⟩ :=
      (search_finds_one_or_two_devices 1 0 (simStart 1 twoDevices) 1 (fun _ => 0)
        SearchMode_t.SEARCH_DEVICE_ID (by decide) ⟨[], rfl⟩ (fun hf => by cases hf)
        (by decide)).2 0xF500000000000528 0xAC00000000000628 0 v5 v6 (by decide) rfl
    have hd : firstDiff 0xF500000000000528 0xAC00000000000628 64 0 = 8 := by decide
    rw [hd] at h3 h4
    exact ⟨res, h1, h2, h3, h4⟩

end DS18B20
